import Mathlib

/-!
# TU58 (DECtape II) packet protocol engine: `dt2.c`

A shallow embedding of the checksum, packet codec, transport loops and command
sequencer of `src/dt2/dt2.c`, and theorems about them.

Conventions of the embedding:

* a `uint8_t` is a `Nat` below 256; a store of an `int` into a byte buffer
  reduces modulo 256 (`u8`, `lo`, `hi`); a C `int` is an `Int`; a `size_t` is a
  `Nat` reduced modulo `2 ^ 64`; where the program converts between `int` and
  `size_t` the conversion is explicit (`toSize`, `toInt32`);
* a pointer into a byte array is the list of the bytes from the pointer to the
  end of the array object: `*buf++` takes the head and keeps the tail, and a
  read past the end of the object has no value (`none`);
* the globals and the outside world (what the descriptors will deliver and
  accept, what has been written, the system calls made) are one `World` value
  that every function takes and returns;
* a function that may fail to return (a loop that never ends, a read outside an
  object) returns an `Option`; `none` means "does not return";
* every loop whose termination is not structural takes a `fuel` argument; the
  theorems that state a result state it for every large enough fuel;
* the debug output to standard error (`DEBUG`) is left out.
-/

namespace DT2

/-! ## Constants (`#define`s of `dt2.c`) -/

def PKT_DATA : Nat := 1
def PKT_CMD : Nat := 2
def PKT_INIT : Nat := 4
def PKT_BOOT : Nat := 8
def PKT_CONT : Nat := 16
def PKT_XON : Nat := 17
def PKT_XOFF : Nat := 19

def CMD_NOP : Nat := 0
def CMD_INIT : Nat := 1
def CMD_READ : Nat := 2
def CMD_WRITE : Nat := 3
def CMD_SEEK : Nat := 5
def CMD_DIAG : Nat := 7
def CMD_END : Nat := 64

def MODE_RSP : Nat := 1
def MODE_MRSP : Nat := 2

/-- Conversion of an `int` to `uint8_t` (a store into a byte buffer). -/
def u8 (x : Int) : Nat := (x % 256).toNat

/-- The macro `lo(x)`: `(uint8_t)((x) & 0xff)`. -/
def lo (x : Int) : Nat := (x % 256).toNat

/-- The macro `hi(x)`: `(uint8_t)(((x) >> 8) & 0xff)`. -/
def hi (x : Int) : Nat := ((x / 256) % 256).toNat

/-- Conversion of an `int` to `size_t` (64 bits, unsigned). -/
def toSize (x : Int) : Nat := (x % 2 ^ 64).toNat

/-- Conversion of a `size_t` to `int` (32 bits, two's complement). -/
def toInt32 (x : Nat) : Int := ((x : Int) + 2 ^ 31) % 2 ^ 32 - 2 ^ 31

/-! ## Checksum engine -/

/-- The post-decrement `count--` on a `size_t`: unsigned, so `0` wraps to
`2 ^ 64 - 1`. -/
def dec64 (count : Nat) : Nat := (count + 2 ^ 64 - 1) % 2 ^ 64

/-- The end-around carry line `if (sum > 65535) sum -= 65535;`. -/
def carry (sum : Nat) : Nat := if sum > 65535 then sum - 65535 else sum

/-- The loop of `cksum_buf`, lines 587-592. `buf` is the pointer (the bytes from
it to the end of the array object), `sum` and `count` the two locals.

    while (count-- > 0) {
      sum += *buf++;
      if (count-- > 0) sum += (*buf++) << 8;
      if (sum > 65535) sum -= 65535;
    }
-/
def cksum_loop : List Nat → Nat → Nat → Option Nat
  | [], sum, count => if count > 0 then none else some sum
  | [b0], sum, count =>
    if count > 0 then
      let count1 := dec64 count
      let sum1 := sum + b0
      if count1 > 0 then none
      else cksum_loop [] (carry sum1) (dec64 count1)
    else some sum
  | b0 :: b1 :: buf2, sum, count =>
    if count > 0 then
      let count1 := dec64 count
      let sum1 := sum + b0
      if count1 > 0 then
        cksum_loop buf2 (carry (sum1 + b1 * 256)) (dec64 count1)
      else cksum_loop (b1 :: buf2) (carry sum1) (dec64 count1)
    else some sum

/-- The function `cksum_buf(buf, count)`, lines 584-594. -/
def cksum_buf (buf : List Nat) (count : Nat) : Option Nat :=
  cksum_loop buf 0 (count % 2 ^ 64)

/-! ## Byte buffers -/

/-- The store of the bytes `bs` at `buf + off`. A position below `off` that the
list lacks is filled with 0; for the arrays of `dt2.c`, which have their
declared sizes, that never happens. -/
def blit : List Nat → Nat → List Nat → List Nat
  | buf, 0, bs => bs ++ buf.drop bs.length
  | [], off + 1, bs => 0 :: blit [] off bs
  | b :: buf, off + 1, bs => b :: blit buf off bs

/-- The read of the byte `buf[i]`. -/
def peek (buf : List Nat) (i : Nat) : Nat := buf.getD i 0

/-! ## The environment: descriptors, system calls -/

/-- The descriptors of the program: `std` is descriptor 0 for a read and
descriptor 1 for a write, `tty` is the serial line `fd`. -/
inductive Fd
  | std
  | tty
  deriving DecidableEq, Repr

/-- What one call of `read` on a descriptor does: `data bs` offers the bytes
`bs` to the call (it takes at most `count` of them and leaves the others for
the next call; `data []` is a call that returns 0), `err` is a call that
returns -1. A descriptor whose list is used up is at end of stream: every
later `read` returns 0. -/
inductive RdEv
  | data (bs : List Nat)
  | err
  deriving DecidableEq, Repr

/-- What one call of `write` on a descriptor does: `accept k` writes at most
`k` of the bytes offered, `err` returns -1. A descriptor whose list is used up
accepts every byte offered. -/
inductive WrEv
  | accept (k : Nat)
  | err
  deriving DecidableEq, Repr

/-- The three terminal-control calls of `send_break`. -/
inductive TcCall
  | drain
  | sendbreak
  | flush
  deriving DecidableEq, Repr

/-- One system call as it happened: `rd fd count got` is `read(fd, _, count)`
that delivered `got` (`none`: returned -1), `wr fd offered n` is
`write(fd, offered, _)` that returned `n` (`none`: -1), `tc c ok` a
terminal-control call and whether it succeeded. -/
inductive Sys
  | rd (fd : Fd) (count : Nat) (got : Option (List Nat))
  | wr (fd : Fd) (offered : List Nat) (n : Option Nat)
  | tc (c : TcCall) (ok : Bool)
  deriving DecidableEq, Repr

/-- The globals of `dt2.c` that the protocol engine uses, and the
environment. -/
structure World where
  /-- Global `MODE`: `MODE_RSP` or `MODE_MRSP`. -/
  MODE : Nat
  /-- Global `UMAX`, the maximum unit number. -/
  UMAX : Int
  /-- Global `UNIT`, the current drive number. -/
  UNIT : Int
  /-- Global `BNUM`, the current block number. -/
  BNUM : Int
  /-- Global `BSIZE`, the current block size (a `size_t`). -/
  BSIZE : Nat
  /-- Global `BCOUNT`, the number of blocks. -/
  BCOUNT : Int
  /-- Global `RECV`, the one-byte receive buffer. -/
  RECV : Nat
  /-- Global `CMD`, declared `uint8_t CMD[14]`. -/
  CMD : List Nat
  /-- Global `BUF`, declared `uint8_t BUF[512]`. -/
  BUF : List Nat
  /-- What the reads of the serial line will deliver. -/
  ttyIn : List RdEv
  /-- How the writes to the serial line will go. -/
  ttyWr : List WrEv
  /-- The bytes written to the serial line so far. -/
  ttyOut : List Nat
  /-- What the reads of standard input will deliver. -/
  stdIn : List RdEv
  /-- How the writes to standard output will go. -/
  stdWr : List WrEv
  /-- The bytes written to standard output so far. -/
  stdOut : List Nat
  /-- Which of the coming terminal-control calls fail (`true`: returns -1);
  when the list is used up every call succeeds. -/
  tcFail : List Bool
  /-- Every system call made so far, oldest first. -/
  log : List Sys
  deriving DecidableEq, Repr

/-- The read side of a descriptor. -/
def World.rdScript (w : World) : Fd → List RdEv
  | .std => w.stdIn
  | .tty => w.ttyIn

/-- The write side of a descriptor. -/
def World.wrScript (w : World) : Fd → List WrEv
  | .std => w.stdWr
  | .tty => w.ttyWr

/-- The bytes written to a descriptor so far. -/
def World.written (w : World) : Fd → List Nat
  | .std => w.stdOut
  | .tty => w.ttyOut

/-- One `read` on a script: what the call delivers (`none`: -1) and the script
that is left. -/
def rdStep : List RdEv → Nat → Option (List Nat) × List RdEv
  | [], _ => (some [], [])
  | .err :: rest, _ => (none, rest)
  | .data bs :: rest, count =>
    if bs.length ≤ count then (some bs, rest)
    else (some (bs.take count), .data (bs.drop count) :: rest)

/-- One `write` on a script: how many of the offered bytes the call writes
(`none`: -1) and the script that is left. -/
def wrStep : List WrEv → List Nat → Option Nat × List WrEv
  | [], offered => (some offered.length, [])
  | .err :: rest, _ => (none, rest)
  | .accept k :: rest, offered => (some (min k offered.length), rest)

/-- The world in which the read side of `fd` has become `s`. -/
def World.setRd (w : World) (fd : Fd) (s : List RdEv) : World :=
  match fd with
  | .std => { w with stdIn := s }
  | .tty => { w with ttyIn := s }

/-- The world in which the write side of `fd` has become `s` and the bytes
`done` have been written to it. -/
def World.setWr (w : World) (fd : Fd) (s : List WrEv) (done : List Nat) : World :=
  match fd with
  | .std => { w with stdWr := s, stdOut := w.stdOut ++ done }
  | .tty => { w with ttyWr := s, ttyOut := w.ttyOut ++ done }

/-- The system call `read(fd, _, count)`. -/
def sys_read (w : World) (fd : Fd) (count : Nat) : Option (List Nat) × World :=
  let r := rdStep (w.rdScript fd) count
  (r.1, { w.setRd fd r.2 with log := w.log ++ [Sys.rd fd count r.1] })

/-- The system call `write(fd, offered, offered.length)`. -/
def sys_write (w : World) (fd : Fd) (offered : List Nat) : Option Nat × World :=
  let r := wrStep (w.wrScript fd) offered
  (r.1, { w.setWr fd r.2 (offered.take (r.1.getD 0)) with
            log := w.log ++ [Sys.wr fd offered r.1] })

/-- A terminal-control call (`tcdrain`, `tcsendbreak`, `tcflush`): 0 or -1. -/
def sys_tc (w : World) (c : TcCall) : Int × World :=
  match w.tcFail with
  | [] => (0, { w with log := w.log ++ [Sys.tc c true] })
  | bad :: rest =>
    (if bad then -1 else 0, { w with tcFail := rest, log := w.log ++ [Sys.tc c (!bad)] })

/-! ## Transport I/O -/

/-- The loop of `read_buf`, lines 601-607; `got` holds the `p` bytes stored so
far at `buf`, `count` is what is still to read.

    while (count > 0) {
      int n = read(fd, buf + p, count);
      if (n == -1) break;
      p += n;
      count -= n;
    }
-/
def read_loop : Nat → World → Fd → Nat → List Nat → Option (List Nat × World)
  | 0, _, _, _, _ => none
  | fuel + 1, w, fd, count, got =>
    if count > 0 then
      match sys_read w fd count with
      | (none, w1) => some (got, w1)
      | (some bs, w1) => read_loop fuel w1 fd (count - bs.length) (got ++ bs)
    else some (got, w)

/-- The function `read_buf(fd, buf, count)`, lines 598-609: the bytes stored at
`buf` (the return value `p` is their number) and the world after. -/
def read_buf (fuel : Nat) (w : World) (fd : Fd) (count : Nat) : Option (List Nat × World) :=
  read_loop fuel w fd count []

/-- The loop of `write_buf`, lines 616-622; `todo` is the bytes
`buf[p] .. buf[p + count - 1]` still to write.

    while (count > 0) {
      int n = write(fd, buf + p, count);
      if (n == -1) break;
      p += n;
      count -= n;
    }
-/
def write_loop : Nat → World → Fd → List Nat → Nat → Option (Nat × World)
  | 0, _, _, _, _ => none
  | fuel + 1, w, fd, todo, p =>
    if todo.length > 0 then
      match sys_write w fd todo with
      | (none, w1) => some (p, w1)
      | (some n, w1) => write_loop fuel w1 fd (todo.drop n) (p + n)
    else some (p, w)

/-- The function `write_buf(fd, buf, count)`, lines 613-624, with `bytes` the
`count` bytes at `buf`: the return value `p` and the world after. -/
def write_buf (fuel : Nat) (w : World) (fd : Fd) (bytes : List Nat) : Option (Nat × World) :=
  write_loop fuel w fd bytes 0

/-! ## Link reset and the packet senders -/

/-- The function `send_break`, lines 428-433. -/
def send_break (w : World) : Int × World :=
  match sys_tc w .drain with
  | (r1, w1) =>
    if r1 = -1 then (-1, w1)
    else
      match sys_tc w1 .sendbreak with
      | (r2, w2) =>
        if r2 = -1 then (-1, w2)
        else sys_tc w2 .flush

/-- The function `send_init`, lines 436-442. -/
def send_init (fuel : Nat) (w : World) : Option (Int × World) :=
  let w1 := { w with CMD := blit w.CMD 0 [PKT_INIT] }
  match write_buf fuel w1 .tty (w1.CMD.take 1) with
  | none => none
  | some (p, w2) => if p < 1 then some (-1, w2) else some (0, w2)

/-- The function `send_boot`, lines 445-452. -/
def send_boot (fuel : Nat) (w : World) (dnum : Int) : Option (Int × World) :=
  let w1 := { w with CMD := blit w.CMD 0 [PKT_BOOT, u8 dnum] }
  match write_buf fuel w1 .tty (w1.CMD.take 2) with
  | none => none
  | some (p, w2) => if p < 2 then some (-1, w2) else some (0, w2)

/-- The expression `mod | (BSIZE == 128) ? 128 : 0` of line 481, as C parses
it: the conditional operator binds less tightly than `|`, so the condition is
`mod | (BSIZE == 128)`. -/
def mod_byte (BSIZE : Nat) (mod : Int) : Nat :=
  if Int.lor mod (if BSIZE = 128 then 1 else 0) ≠ 0 then 128 else 0

/-- The twelve stores `CMD[0] .. CMD[11]` of `send_cmd`, lines 478-489. -/
def cmd_head (w : World) (op dnum bnum count mod : Int) : List Nat :=
  [PKT_CMD, 10, u8 op, mod_byte w.BSIZE mod, u8 dnum,
   if w.MODE = MODE_MRSP then 8 else 0, 0, 0,
   lo count, hi count, lo bnum, hi bnum]

/-- The function `send_cmd`, lines 476-496. -/
def send_cmd (fuel : Nat) (w : World) (op dnum bnum count mod : Int) :
    Option (Int × World) :=
  let cmd1 := blit w.CMD 0 (cmd_head w op dnum bnum count mod)
  match cksum_buf cmd1 12 with
  | none => none
  | some sum =>
    let cmd2 := blit cmd1 12 [lo sum, hi sum]
    match write_buf fuel { w with CMD := cmd2 } .tty (cmd2.take 14) with
    | none => none
    | some (p, w2) => if p < 14 then some (-1, w2) else some (0, w2)

/-- The function `send_seek`, lines 455-459. -/
def send_seek (fuel : Nat) (w : World) (dnum bnum : Int) : Option (Int × World) :=
  send_cmd fuel w CMD_SEEK dnum bnum 0 0

/-- The function `send_read`, lines 462-466. -/
def send_read (fuel : Nat) (w : World) (dnum bnum count mod : Int) : Option (Int × World) :=
  send_cmd fuel w CMD_READ dnum bnum count mod

/-- The function `send_write`, lines 469-473. -/
def send_write (fuel : Nat) (w : World) (dnum bnum count mod : Int) : Option (Int × World) :=
  send_cmd fuel w CMD_WRITE dnum bnum count mod

/-- The function `send_data`, lines 499-510: the payload comes from standard
input. -/
def send_data (fuel : Nat) (w : World) (count : Int) : Option (Int × World) :=
  let buf1 := blit (blit w.BUF 0 [PKT_DATA]) 1 [u8 count]
  match read_buf fuel { w with BUF := buf1 } .std (toSize count) with
  | none => none
  | some (got, w1) =>
    let buf2 := blit buf1 2 got
    let w2 := { w1 with BUF := buf2 }
    if (got.length : Int) < count then some (-1, w2)
    else
      match cksum_buf buf2 (toSize (count + 2)) with
      | none => none
      | some sum =>
        let buf3 := blit (blit buf2 (toSize (count + 2)) [lo sum]) (toSize (count + 3)) [hi sum]
        let total := toSize (count + 4)
        match write_buf fuel { w2 with BUF := buf3 } .tty (buf3.take total) with
        | none => none
        | some (p, w3) => if (p : Int) < count + 4 then some (-1, w3) else some (0, w3)

/-! ## The packet receivers -/

mutual

/-- The function `do_init`, lines 326-333. -/
def do_init : Nat → World → Option (Int × World)
  | 0, _ => none
  | fuel + 1, w =>
    match send_break w with
    | (r0, w0) =>
      if r0 < 0 then some (-1, w0)
      else
        match send_init (fuel + 1) w0 with
        | none => none
        | some (r1, w1) =>
          if r1 < 0 then some (-1, w1)
          else
            match send_init (fuel + 1) w1 with
            | none => none
            | some (r2, w2) =>
              if r2 < 0 then some (-1, w2)
              else
                match recv_continue fuel w2 with
                | none => none
                | some (r3, w3) => if r3 < 0 then some (-1, w3) else some (0, w3)

/-- The function `recv_continue`, lines 513-521. -/
def recv_continue : Nat → World → Option (Int × World)
  | 0, _ => none
  | fuel + 1, w =>
    match read_buf (fuel + 1) w .tty 1 with
    | none => none
    | some (got, w0) =>
      let w1 := { w0 with RECV := (blit [w0.RECV] 0 got).headD 0 }
      if got.length < 1 then some (-1, w1)
      else if w1.RECV = PKT_CONT then some (0, w1)
      else if w1.RECV = PKT_INIT then
        match do_init fuel w1 with
        | none => none
        | some (_, w2) => some (-1, w2)
      else some (-1, w1)

end

/-- The function `recv_end`, lines 525-543: the byte count of the END packet, or
-1, or -2 on a checksum mismatch. -/
def recv_end (fuel : Nat) (w : World) : Option (Int × World) :=
  match read_buf fuel w .tty 1 with
  | none => none
  | some (got, w0) =>
    let w1 := { w0 with RECV := (blit [w0.RECV] 0 got).headD 0 }
    if got.length < 1 then some (-1, w1)
    else
      let tail (w : World) : Option (Int × World) :=
        if w.RECV = PKT_INIT then
          match do_init fuel w with
          | none => none
          | some (_, w9) => some (-1, w9)
        else some (-1, w)
      if w1.RECV = PKT_CMD then
        match read_buf fuel { w1 with CMD := blit w1.CMD 0 [w1.RECV] } .tty 13 with
        | none => none
        | some (got2, w2) =>
          let w3 := { w2 with CMD := blit w2.CMD 1 got2 }
          if got2.length < 13 then some (-1, w3)
          else
            let len : Int := peek w3.CMD 8 + peek w3.CMD 9 * 256
            match cksum_buf w3.CMD 12 with
            | none => none
            | some sum =>
              if peek w3.CMD 12 ≠ lo sum ∨ peek w3.CMD 13 ≠ hi sum then some (-2, w3)
              else if peek w3.CMD 2 = CMD_END then some (len, w3)
              else tail w3
      else tail w1

/-- The function `recv_data`, lines 547-565: the number of payload bytes written
to standard output, or -1, or -2 on a checksum mismatch. -/
def recv_data (fuel : Nat) (w : World) : Option (Int × World) :=
  match read_buf fuel w .tty 1 with
  | none => none
  | some (got, w0) =>
    let w1 := { w0 with RECV := (blit [w0.RECV] 0 got).headD 0 }
    if got.length < 1 then some (-1, w1)
    else if w1.RECV = PKT_DATA then
      match read_buf fuel { w1 with BUF := blit w1.BUF 0 [w1.RECV] } .tty 1 with
      | none => none
      | some (got2, w2) =>
        let w3 := { w2 with BUF := blit w2.BUF 1 got2 }
        if got2.length < 1 then some (-1, w3)
        else
          let len := peek w3.BUF 1 + 2
          match read_buf fuel w3 .tty len with
          | none => none
          | some (got3, w4) =>
            let w5 := { w4 with BUF := blit w4.BUF 2 got3 }
            if got3.length < len then some (-1, w5)
            else
              match cksum_buf w5.BUF len with
              | none => none
              | some sum =>
                if peek w5.BUF len ≠ lo sum ∨ peek w5.BUF (len + 1) ≠ hi sum then
                  some (-2, w5)
                else
                  match write_buf fuel w5 .std ((w5.BUF.drop 2).take (peek w5.BUF 1)) with
                  | none => none
                  | some (p, w6) => some (p, w6)
    else if w1.RECV = PKT_INIT then
      match do_init fuel w1 with
      | none => none
      | some (_, w9) => some (-1, w9)
    else some (-1, w1)

/-- The function `recv_bytes`, lines 568-581; `F` is the fuel of the transport
loops, the next argument the fuel of this loop. -/
def recv_bytes (F : Nat) : Nat → World → Int → Option (Int × World)
  | 0, _, _ => none
  | n + 1, w, count =>
    if count > 0 then
      let len : Int := if toSize count > 512 then 512 else count
      match read_buf F w .tty (toSize len) with
      | none => none
      | some (got, w0) =>
        let w1 := { w0 with BUF := blit w0.BUF 0 got }
        let wr : Option (Int × World) :=
          if (got.length : Int) > 0 then
            match write_buf F w1 .std (w1.BUF.take got.length) with
            | none => none
            | some (p, w2) => some ((p : Int), w2)
          else some ((got.length : Int), w1)
        match wr with
        | none => none
        | some (k, w2) =>
          if k < len then some (-1, w2)
          else recv_bytes F n w2 (count - k)
    else some (0, w)

/-! ## Command sequencer -/

/-- The function `do_boot`, lines 336-344. -/
def do_boot (fuel : Nat) (w : World) (dnum : Int) : Option (Int × World) :=
  if dnum < 0 ∨ dnum > w.UMAX then some (-1, w)
  else
    match send_break w with
    | (r0, w0) =>
      if r0 < 0 then some (-1, w0)
      else
        match send_init fuel w0 with
        | none => none
        | some (r1, w1) =>
          if r1 < 0 then some (-1, w1)
          else
            match send_boot fuel w1 dnum with
            | none => none
            | some (r2, w2) =>
              if r2 < 0 then some (-1, w2)
              else
                match recv_bytes fuel fuel w2 512 with
                | none => none
                | some (r3, w3) => if r3 < 0 then some (-1, w3) else some (0, w3)

/-- The function `do_rewind`, lines 347-353. -/
def do_rewind (fuel : Nat) (w : World) (dnum : Int) : Option (Int × World) :=
  if dnum < 0 ∨ dnum > w.UMAX then some (-1, w)
  else
    match send_seek fuel w dnum 0 with
    | none => none
    | some (r1, w1) =>
      if r1 < 0 then some (-1, w1)
      else
        match recv_end fuel w1 with
        | none => none
        | some (r2, w2) => if r2 < 0 then some (-1, w2) else some (0, w2)

/-- The function `do_retension`, lines 366-374. -/
def do_retension (fuel : Nat) (w : World) (dnum : Int) : Option (Int × World) :=
  if dnum < 0 ∨ dnum > w.UMAX then some (-1, w)
  else
    match send_seek fuel w dnum (w.BCOUNT - 1) with
    | none => none
    | some (r1, w1) =>
      if r1 < 0 then some (-1, w1)
      else
        match recv_end fuel w1 with
        | none => none
        | some (r2, w2) =>
          if r2 < 0 then some (-1, w2)
          else
            match send_seek fuel w2 dnum 0 with
            | none => none
            | some (r3, w3) =>
              if r3 < 0 then some (-1, w3)
              else
                match recv_end fuel w3 with
                | none => none
                | some (r4, w4) => if r4 < 0 then some (-1, w4) else some (0, w4)

/-- The guard of line 379 (and 404): `(count < 0) || (count > (BCOUNT - BNUM))`. -/
def count_rejected (w : World) (count : Int) : Bool :=
  decide (count < 0) || decide (count > w.BCOUNT - w.BNUM)

/-- The segment length of lines 382-383 (and 407-408):

    int len = count * BSIZE;
    if (len > 65535) len = 65536 - BSIZE;

The product and the difference are computed in `size_t` and converted to
`int`. -/
def seg_len (BSIZE : Nat) (count : Int) : Int :=
  let len := toInt32 ((toSize count * (BSIZE % 2 ^ 64)) % 2 ^ 64)
  if len > 65535 then toInt32 ((65536 + 2 ^ 64 - BSIZE % 2 ^ 64) % 2 ^ 64) else len

/-- The number of blocks of a segment, `len / BSIZE` of line 392 (and 418),
computed in `size_t` and converted to `int`. -/
def seg_blocks (BSIZE : Nat) (len : Int) : Int :=
  toInt32 (toSize len / (BSIZE % 2 ^ 64))

/-- The data loop of `do_read`, lines 386-391: 0 when `ct` has reached 0, -1
when `recv_data` failed. -/
def read_data (F : Nat) : Nat → World → Int → Option (Int × World)
  | 0, _, _ => none
  | n + 1, w, ct =>
    if ct > 0 then
      match recv_data F w with
      | none => none
      | some (k, w1) => if k < 0 then some (-1, w1) else read_data F n w1 (ct - k)
    else some (0, w)

/-- The segment loop of `do_read`, lines 380-397. -/
def read_segments (F : Nat) : Nat → World → Int → Int → Option (Int × World)
  | 0, _, _, _ => none
  | n + 1, w, count, mode =>
    if count > 0 then
      let len := seg_len w.BSIZE count
      match send_read F w w.UNIT w.BNUM len mode with
      | none => none
      | some (r1, w1) =>
        if r1 < 0 then some (-1, w1)
        else
          match read_data F F w1 len with
          | none => none
          | some (r2, w2) =>
            if r2 < 0 then some (-1, w2)
            else
              let ct := seg_blocks w2.BSIZE len
              let w3 := { w2 with BNUM := w2.BNUM + ct }
              match recv_end F w3 with
              | none => none
              | some (ct2, w4) =>
                if ct2 < 0 then some (-1, w4)
                else if ct2 ≠ len then some (-1, w4)
                else read_segments F n w4 (count - ct) mode
    else some (0, w)

/-- The function `do_read`, lines 377-399. -/
def do_read (fuel : Nat) (w : World) (count mode : Int) : Option (Int × World) :=
  if count_rejected w count then some (-1, w)
  else read_segments fuel fuel w count mode

/-- The data loop of `do_write`, lines 411-417: 0 when `ct` has reached 0, -1
when `recv_continue` or `send_data` failed. -/
def write_data (F : Nat) : Nat → World → Int → Option (Int × World)
  | 0, _, _ => none
  | n + 1, w, ct =>
    if ct > 0 then
      let k : Int := if ct > 128 then 128 else ct
      match recv_continue F w with
      | none => none
      | some (r1, w1) =>
        if r1 < 0 then some (-1, w1)
        else
          match send_data F w1 k with
          | none => none
          | some (r2, w2) => if r2 < 0 then some (-1, w2) else write_data F n w2 (ct - k)
    else some (0, w)

/-- The segment loop of `do_write`, lines 405-423. -/
def write_segments (F : Nat) : Nat → World → Int → Int → Option (Int × World)
  | 0, _, _, _ => none
  | n + 1, w, count, mode =>
    if count > 0 then
      let len := seg_len w.BSIZE count
      match send_write F w w.UNIT w.BNUM len mode with
      | none => none
      | some (r1, w1) =>
        if r1 < 0 then some (-1, w1)
        else
          match write_data F F w1 len with
          | none => none
          | some (r2, w2) =>
            if r2 < 0 then some (-1, w2)
            else
              let ct := seg_blocks w2.BSIZE len
              let w3 := { w2 with BNUM := w2.BNUM + ct }
              match recv_end F w3 with
              | none => none
              | some (ct2, w4) =>
                if ct2 < 0 then some (-1, w4)
                else if ct2 ≠ len then some (-1, w4)
                else write_segments F n w4 (count - ct) mode
    else some (0, w)

/-- The function `do_write`, lines 402-425. -/
def do_write (fuel : Nat) (w : World) (count mode : Int) : Option (Int × World) :=
  if count_rejected w count then some (-1, w)
  else write_segments fuel fuel w count mode

/-! ## Specification-side functions used in the statements -/

/-- The checksum as the prose describes it: the 16-bit little-endian words of
the span are added one after the other with the end-around carry, and a final
odd byte contributes its value alone. -/
def wordsum : List Nat → Nat → Nat
  | [], acc => acc
  | [b0], acc => carry (acc + b0)
  | b0 :: b1 :: rest, acc => wordsum rest (carry (acc + b0 + b1 * 256))

/-- The bytes a descriptor delivers before its first failing `read` or its end
of stream. -/
def avail : List RdEv → List Nat
  | [] => []
  | .err :: _ => []
  | .data bs :: rest => bs ++ avail rest

/-- The read script that `read_buf(fd, _, count)` leaves, when the descriptor
can deliver `count` bytes. -/
def rdRest : List RdEv → Nat → List RdEv
  | s, 0 => s
  | [], _ + 1 => []
  | .err :: rest, _ + 1 => rest
  | .data bs :: rest, count + 1 =>
    if bs.length ≤ count + 1 then rdRest rest (count + 1 - bs.length)
    else .data (bs.drop (count + 1)) :: rest

/-- The `read` calls that `read_buf(fd, _, count)` makes, when the descriptor
can deliver `count` bytes. -/
def rdLog (fd : Fd) : List RdEv → Nat → List Sys
  | _, 0 => []
  | [], _ + 1 => []
  | .err :: _, count + 1 => [Sys.rd fd (count + 1) none]
  | .data bs :: rest, count + 1 =>
    if bs.length ≤ count + 1 then
      Sys.rd fd (count + 1) (some bs) :: rdLog fd rest (count + 1 - bs.length)
    else [Sys.rd fd (count + 1) (some (bs.take (count + 1)))]

/-- The write script that `write_buf(fd, _, count)` leaves, when no `write`
fails. -/
def wrRest : List WrEv → Nat → List WrEv
  | s, 0 => s
  | [], _ + 1 => []
  | .err :: rest, _ + 1 => rest
  | .accept k :: rest, count + 1 =>
    if count + 1 ≤ k then rest else wrRest rest (count + 1 - k)

/-- The `write` calls that `write_buf(fd, todo, _)` makes, when no `write`
fails. -/
def wrLog (fd : Fd) : List WrEv → List Nat → List Sys
  | [], todo => if todo.length = 0 then [] else [Sys.wr fd todo (some todo.length)]
  | .err :: _, todo => if todo.length = 0 then [] else [Sys.wr fd todo none]
  | .accept k :: rest, todo =>
    if todo.length = 0 then []
    else if todo.length ≤ k then [Sys.wr fd todo (some todo.length)]
    else Sys.wr fd todo (some k) :: wrLog fd rest (todo.drop k)

/-- The write script has no failing `write`. -/
def Accepting (s : List WrEv) : Prop := ∀ e ∈ s, e ≠ WrEv.err

/-- The 14-byte CMD frame: the twelve bytes of `cmd_head` followed by their
word sum, low byte first. -/
def cmd_frame (w : World) (op dnum bnum count mod : Int) : List Nat :=
  cmd_head w op dnum bnum count mod ++
    [lo (wordsum (cmd_head w op dnum bnum count mod) 0),
     hi (wordsum (cmd_head w op dnum bnum count mod) 0)]

/-- The result of `recv_end` on a fully received 14-byte frame whose first byte
is the CMD flag, read off lines 533-538: -2 on a checksum mismatch, else the
byte count if the opcode is END, else -1. -/
def end_result (frame : List Nat) : Int :=
  if peek frame 12 ≠ lo (wordsum (frame.take 12) 0) ∨
     peek frame 13 ≠ hi (wordsum (frame.take 12) 0) then -2
  else if peek frame 2 = CMD_END then (peek frame 8 : Int) + (peek frame 9 : Int) * 256
  else -1

/-- The DATA packet of a payload: flag 1, the length byte, the payload and the
word sum of those, low byte first. -/
def data_packet (payload : List Nat) : List Nat :=
  1 :: payload.length :: payload ++
    [lo (wordsum (1 :: payload.length :: payload) 0),
     hi (wordsum (1 :: payload.length :: payload) 0)]

end DT2

/-!
# Files in SIMH virtual tape format: `vtape.c`

The embedding of `write_file` and the functions it calls. The file being
written and standard output are the read and write scripts of `dt2.c` above;
`err(1, ...)` ends the process, which is the outcome `Run.exit 1`; the status
lines to standard error (`VERBOSE`) and a failing `malloc` are left out.
-/

namespace VTape

open DT2 (RdEv WrEv rdStep wrStep)

/-- The globals of `vtape.c` and the outside world. -/
structure Tape where
  /-- Global `RECORD_SIZE` (a `size_t`). -/
  RECORD_SIZE : Nat
  /-- Global `FILE_MARK`. -/
  FILE_MARK : Int
  /-- Global `FILE_PAD`. -/
  FILE_PAD : Int
  /-- What the reads of the file being written will deliver. -/
  input : List RdEv
  /-- How the writes to standard output will go. -/
  outWr : List WrEv
  /-- The bytes written to standard output so far. -/
  out : List Nat
  deriving DecidableEq, Repr

/-- How a function ends: it returns `a`, or the process exits through `err`. -/
inductive Run (α : Type) where
  | ok (a : α) (t : Tape)
  | exit (status : Nat) (t : Tape)
  deriving DecidableEq, Repr

/-- Sequencing: go on with `k` when `r` has returned. -/
def andThen {α β : Type} (r : Option (Run α)) (k : α → Tape → Option (Run β)) :
    Option (Run β) :=
  match r with
  | none => none
  | some (.exit status t) => some (.exit status t)
  | some (.ok a t) => k a t

/-- The loop of `read_buffer`, lines 224-230; `got` holds the `p` bytes read so
far.

    while (p < nbytes) {
      ssize_t ct = read(fd, buf + p, nbytes - p);
      if (ct == -1) err(1, NULL);
      if (ct == 0) break;
      p += ct;
    }
-/
def read_buffer_loop : Nat → Tape → Nat → List Nat → Option (Run (List Nat))
  | 0, _, _, _ => none
  | fuel + 1, t, nbytes, got =>
    if got.length < nbytes then
      match rdStep t.input (nbytes - got.length) with
      | (none, s) => some (.exit 1 { t with input := s })
      | (some bs, s) =>
        if bs.length = 0 then some (.ok got { t with input := s })
        else read_buffer_loop fuel { t with input := s } nbytes (got ++ bs)
    else some (.ok got t)

/-- The function `read_buffer(fd, buf, nbytes)`, lines 221-232: the bytes stored
at `buf` (the return value `p` is their number). -/
def read_buffer (fuel : Nat) (t : Tape) (nbytes : Nat) : Option (Run (List Nat)) :=
  read_buffer_loop fuel t nbytes []

/-- The function `write_buffer(fd, buf, nbytes)`, lines 235-244, on the bytes
`todo` still to write. -/
def write_buffer : Nat → Tape → List Nat → Option (Run Unit)
  | 0, _, _ => none
  | fuel + 1, t, todo =>
    if todo.length > 0 then
      match wrStep t.outWr todo with
      | (none, s) => some (.exit 1 { t with outWr := s })
      | (some n, s) =>
        write_buffer fuel { t with outWr := s, out := t.out ++ todo.take n } (todo.drop n)
    else some (.ok () t)

/-- The function `write_int8(fd, value)`, lines 247-250. -/
def write_int8 (fuel : Nat) (t : Tape) (value : Int) : Option (Run Unit) :=
  write_buffer fuel t [(value % 256).toNat]

/-- The loop of `write_int32`, lines 257-262, with `k` bytes still to write. -/
def write_int32_loop (fuel : Nat) : Nat → Tape → Int → Option (Run Unit)
  | 0, t, _ => some (.ok () t)
  | k + 1, t, value =>
    andThen (write_int8 fuel t (value % 256)) fun _ t1 =>
      write_int32_loop fuel k t1 (value / 256)

/-- The function `write_int32(fd, value)`, lines 253-263: four bytes, low byte
first. -/
def write_int32 (fuel : Nat) (t : Tape) (value : Int) : Option (Run Unit) :=
  write_int32_loop fuel 4 t value

/-- The record loop of `write_file`, lines 167-190. -/
def write_records (F : Nat) : Nat → Tape → Option (Run Unit)
  | 0, _ => none
  | n + 1, t =>
    andThen (read_buffer F t t.RECORD_SIZE) fun got t1 =>
      if got.length > 0 then
        let rec_ : List Nat :=
          if t1.FILE_PAD ≠ 0 then got ++ List.replicate (t1.RECORD_SIZE - got.length) 0
          else got
        let t2 : Tape := if t1.FILE_PAD ≠ 0 then { t1 with FILE_PAD := 0 } else t1
        let ct : Int := rec_.length
        andThen (write_int32 F t2 ct) fun _ t3 =>
        andThen (write_buffer F t3 rec_) fun _ t4 =>
        andThen (if rec_.length % 2 ≠ 0 then write_int8 F t4 0 else some (.ok () t4))
          fun _ t5 =>
        andThen (write_int32 F t5 ct) fun _ t6 =>
        write_records F n t6
      else some (.ok () t1)

/-- The file-mark loop of `write_file`, lines 212-217. -/
def write_marks (F : Nat) : Nat → Tape → Option (Run Unit)
  | 0, _ => none
  | n + 1, t =>
    if t.FILE_MARK ≠ 0 then
      andThen (write_int32 F t 0) fun _ t1 =>
        write_marks F n { t1 with FILE_MARK := t1.FILE_MARK - 1 }
    else some (.ok () t)

/-- The function `write_file(fd)`, lines 159-218. -/
def write_file (fuel : Nat) (t : Tape) : Option (Run Unit) :=
  andThen (write_records fuel fuel t) fun _ t1 => write_marks fuel fuel t1

/-- The records of a tape image: the payloads between the two length words,
read off an output made of whole records. -/
def records : Nat → List Nat → List (List Nat)
  | 0, _ => []
  | fuel + 1, out =>
    match out with
    | b0 :: b1 :: b2 :: b3 :: body =>
      let len := b0 + 256 * b1 + 65536 * b2 + 16777216 * b3
      if len = 0 then [] :: records fuel body
      else body.take len :: records fuel (body.drop (len + len % 2 + 4))
    | _ => []

/-- A tape with record size 512 and the pad flag set (`vtape -p file`), on a
file of 700 bytes that arrives in one piece. -/
def tape700 : Tape where
  RECORD_SIZE := 512
  FILE_MARK := 0
  FILE_PAD := 1
  input := [.data (List.replicate 700 7)]
  outWr := []
  out := []

/-- A tape with record size 4 and the pad flag set (`vtape -n 4 -p file`), on a
file of 6 bytes. -/
def tape6 : Tape where
  RECORD_SIZE := 4
  FILE_MARK := 0
  FILE_PAD := 1
  input := [.data [1, 2, 3, 4, 5, 6]]
  outWr := []
  out := []

end VTape

namespace DT2

/-- The bytes that cross the serial line, in the order of the system calls:
`(true, b)` is a byte read from the line, `(false, b)` a byte written to it. -/
def wire : List Sys → List (Bool × Nat)
  | [] => []
  | Sys.rd .tty _ (some bs) :: rest => bs.map (fun b => (true, b)) ++ wire rest
  | Sys.wr .tty offered (some n) :: rest =>
    (offered.take n).map (fun b => (false, b)) ++ wire rest
  | _ :: rest => wire rest

/-- The number of break signals sent (`tcsendbreak` calls). -/
def breaks : List Sys → Nat
  | [] => 0
  | Sys.tc .sendbreak _ :: rest => breaks rest + 1
  | _ :: rest => breaks rest

/-- The three terminal-control calls of a `send_break` that succeeds. -/
def breakLog : List Sys :=
  [Sys.tc .drain true, Sys.tc .sendbreak true, Sys.tc .flush true]

/-- The session globals, which no receive or send routine writes. -/
def World.session (w : World) : Nat × Int × Int × Int × Nat × Int :=
  (w.MODE, w.UMAX, w.UNIT, w.BNUM, w.BSIZE, w.BCOUNT)

/-- The traffic of `k` handshakes in a row, each started by an INIT byte read
from the line (INIT read, INIT and INIT written), followed by the byte `b` that
ends them. -/
def storm : Nat → Nat → List (Bool × Nat)
  | 0, b => [(true, b)]
  | k + 1, b => [(true, 4), (false, 4), (false, 4)] ++ storm k b

/-- What `k` handshakes in a row, ended by the byte `b`, leave of the world `w`:
`w1` has `2 * k` more INIT bytes written, the line input after `b` still to
come, a log grown by the traffic `storm k b` with `k` break signals, and
everything but `RECV`, `CMD` and the serial line as it was. -/
def Handshook (w w1 : World) (k b : Nat) (more : List Nat) : Prop :=
  w1.ttyOut = w.ttyOut ++ List.replicate (2 * k) 4 ∧
  avail w1.ttyIn = more ∧
  (∃ L, w1.log = w.log ++ L ∧ wire L = storm k b ∧ breaks L = k) ∧
  w1.session = w.session ∧ w1.BUF = w.BUF ∧
  w1.stdIn = w.stdIn ∧ w1.stdWr = w.stdWr ∧ w1.stdOut = w.stdOut ∧
  w1.tcFail = [] ∧ Accepting w1.ttyWr ∧
  w1.ttyWr.length ≤ w.ttyWr.length ∧ w1.ttyIn.length ≤ w.ttyIn.length

/-- The first `k` pieces of `n` bytes of a byte list. -/
def chunks (n : Nat) : Nat → List Nat → List (List Nat)
  | 0, _ => []
  | k + 1, xs => xs.take n :: chunks n k (xs.drop n)

/-- The traffic of the data phase of a WRITE: for every chunk one CONT read,
then the DATA packet of the chunk written. -/
def writeTraffic (cs : List (List Nat)) : List (Bool × Nat) :=
  cs.flatMap fun c => (true, 16) :: (data_packet c).map fun b => (false, b)

/-- What the data phase of a WRITE that sends the chunks `cs` leaves of the
world `w`: the DATA packets of the chunks written in order, the line input and
the data source used up to `more` and `more2`, a log grown by `writeTraffic cs`
without a break signal, and the session globals, `CMD`, standard output and the
terminal-control state as they were. -/
def WrotePhase (w w1 : World) (cs : List (List Nat)) (more more2 : List Nat) : Prop :=
  w1.ttyOut = w.ttyOut ++ cs.flatMap data_packet ∧
  avail w1.ttyIn = more ∧ avail w1.stdIn = more2 ∧
  (∃ L, w1.log = w.log ++ L ∧ wire L = writeTraffic cs ∧ breaks L = 0) ∧
  w1.session = w.session ∧ w1.CMD = w.CMD ∧
  w1.stdWr = w.stdWr ∧ w1.stdOut = w.stdOut ∧ w1.tcFail = w.tcFail ∧
  Accepting w1.ttyWr ∧ w1.ttyWr.length ≤ w.ttyWr.length ∧
  w1.ttyIn.length ≤ w.ttyIn.length ∧ w1.stdIn.length ≤ w.stdIn.length

/-- The data loop of `do_read` started with `ct` bytes to go takes exactly the
packets with the payloads `ps`: there are bytes to go before each of them and
none after the last. -/
def Fills : Int → List (List Nat) → Prop
  | ct, [] => ct ≤ 0
  | ct, p :: ps => 0 < ct ∧ Fills (ct - (p.length : Int)) ps

/-- The traffic of the data phase of a READ: the DATA packets read. -/
def readTraffic (ps : List (List Nat)) : List (Bool × Nat) :=
  (ps.flatMap data_packet).map fun b => (true, b)

/-- What the data phase of a READ that receives the DATA packets with the
payloads `ps` leaves of the world `w`: the payloads written to standard output
in order, the line input used up to `more`, a log grown by `readTraffic ps`
without a break signal, nothing written to the line, and the session globals and
`CMD` as they were. -/
def ReadPhase (w w1 : World) (ps : List (List Nat)) (more : List Nat) : Prop :=
  w1.stdOut = w.stdOut ++ ps.flatten ∧
  avail w1.ttyIn = more ∧
  (∃ L, w1.log = w.log ++ L ∧ wire L = readTraffic ps ∧ breaks L = 0) ∧
  w1.session = w.session ∧ w1.CMD = w.CMD ∧
  w1.ttyOut = w.ttyOut ∧ w1.ttyWr = w.ttyWr ∧ w1.stdIn = w.stdIn ∧ w1.tcFail = w.tcFail ∧
  Accepting w1.stdWr ∧ w1.stdWr.length ≤ w.stdWr.length ∧
  w1.ttyIn.length ≤ w.ttyIn.length

/-- The world `send_cmd` leaves of `w` when the line takes its 14 bytes: the
frame in `CMD`, written to the line and logged. -/
def World.sentCmd (w : World) (op dnum bnum count mod : Int) : World :=
  { w with
    CMD := cmd_frame w op dnum bnum count mod ++ w.CMD.drop 14
    ttyWr := wrRest w.ttyWr 14
    ttyOut := w.ttyOut ++ cmd_frame w op dnum bnum count mod
    log := w.log ++ wrLog .tty w.ttyWr (cmd_frame w op dnum bnum count mod) }

/-- The world a segment of `do_read` or `do_write` leaves of the world `w` in
which its data phase ended: the position advanced by `ct` blocks (lines 392-393
and 418-419), and the 14-byte response `frame` read from the line by `recv_end`
with a read of 1 and a read of 13 bytes. Nothing else differs from `w`: nothing
is written and no terminal-control call is made. -/
def World.gotEnd (w : World) (ct : Int) (frame : List Nat) : World :=
  { w with
    BNUM := w.BNUM + ct
    RECV := 2
    CMD := frame ++ w.CMD.drop 14
    ttyIn := rdRest (rdRest w.ttyIn 1) 13
    log := w.log ++ rdLog .tty w.ttyIn 1 ++ rdLog .tty (rdRest w.ttyIn 1) 13 }

/-- The `seek` command of `main`, lines 189-193: `none` when the number is
refused and the command loop is left (`break`), else the world with the new
position.

    if ((num < 0) || (num >= BCOUNT)) break;
    BNUM = num;
-/
def cmd_seek (w : World) (num : Int) : Option World :=
  if num < 0 ∨ num ≥ w.BCOUNT then none else some { w with BNUM := num }

/-- The `blocksize` command of `main`, lines 214-219: `none` when the number is
refused and the command loop is left (`break`), else the world with the new
block size and block count; `BNUM` is not touched.

    if ((num != 128) && (num != 512)) break;
    BSIZE = num;
    BCOUNT = (BSIZE == 128) ? 2048 : 512;
-/
def cmd_blocksize (w : World) (num : Int) : Option World :=
  if num ≠ 128 ∧ num ≠ 512 then none
  else some { w with BSIZE := toSize num, BCOUNT := if toSize num = 128 then 2048 else 512 }

/-- The block size and block count are one of the two pairs that `main` sets:
512 blocks of 512 bytes (the initial values) or 2048 blocks of 128 bytes. -/
def Geometry (w : World) : Prop :=
  (w.BSIZE = 128 ∧ w.BCOUNT = 2048) ∨ (w.BSIZE = 512 ∧ w.BCOUNT = 512)

/-- The 16-bit little-endian words of a span of even length: byte `2 i` is the
low and byte `2 i + 1` the high byte of word `i`. -/
def words : List Nat → List Nat
  | b0 :: b1 :: rest => (b0 + b1 * 256) :: words rest
  | _ => []

/-! ## Example worlds -/

/-- A world at program start: RSP mode, unit 0, block 0, block size 512, the
arrays zeroed, nothing on any descriptor. -/
def world0 : World where
  MODE := MODE_RSP
  UMAX := 255
  UNIT := 0
  BNUM := 0
  BSIZE := 512
  BCOUNT := 512
  RECV := 0
  CMD := List.replicate 14 0
  BUF := List.replicate 512 0
  ttyIn := []
  ttyWr := []
  ttyOut := []
  stdIn := []
  stdWr := []
  stdOut := []
  tcFail := []
  log := []

/-- What `send_cmd` returns and leaves in the start world for an END frame of
unit 1, block 7 and count 512. -/
def sentEnd : Int × World :=
  (send_cmd 3 world0 (64 : Nat) (1 : Nat) (7 : Nat) (512 : Nat) 0).getD (-1, world0)

/-- A start world whose serial line delivers the frame of `sentEnd` in two
pieces, of 5 and 9 bytes. -/
def worldEcho : World :=
  { world0 with
    ttyIn := [.data (sentEnd.2.ttyOut.take 5), .data (sentEnd.2.ttyOut.drop 5)] }

/-- A start world whose standard input holds the one-byte payload `[7]`. -/
def worldOddIn : World := { world0 with stdIn := [.data [7]] }

/-- A start world whose serial line delivers the DATA packet of the payload
`[7]` as the prose defines it: flag 1, length 1, the byte 7, and the checksum
264 = (1 + 256 * 1) + 7, low byte first. -/
def worldOddPkt : World := { world0 with ttyIn := [.data [1, 1, 7, 8, 1]] }

/-- A start world whose serial line delivers a DATA packet of length 1 with a
wrong checksum (0 instead of 264). -/
def worldOddBad : World := { world0 with ttyIn := [.data [1, 1, 7, 0, 0]] }

/-- A world positioned on the last block of a tape of 512 blocks of 512 bytes. -/
def worldLast : World := { world0 with BNUM := 511 }

/-- A start world whose serial line delivers a DATA packet with a payload of 130
bytes (length byte 130) and the right checksum. -/
def worldLong : World :=
  { world0 with ttyIn := [.data (data_packet (List.replicate 130 5))] }

/-- A start world whose serial line answers a command with INIT, answers the
handshake with INIT again, and answers the second handshake with CONT. -/
def worldStorm : World := { world0 with ttyIn := [.data [4, 4, 16]] }

/-- A start world whose serial line sends INIT and then CONT. -/
def worldInit : World := { world0 with ttyIn := [.data [4, 16]] }

/-- A world with block size 128 whose serial line answers a READ of one block
with the DATA packet of 128 bytes 7 and then a 14-byte END frame with byte count
128 whose two checksum bytes are wrong (0, 0). -/
def worldBadEnd : World :=
  { world0 with
    BSIZE := 128
    BCOUNT := 2048
    ttyIn := [.data (data_packet (List.replicate 128 7) ++
      [2, 10, 64, 0, 0, 0, 0, 0, 128, 0, 0, 0, 0, 0])] }

/-- A world with block size 128 whose serial line answers a READ of one block
with the DATA packet of 128 bytes 7 and then an END frame with a valid checksum
and the byte count 64. -/
def worldShortRead : World :=
  { world0 with
    BSIZE := 128
    BCOUNT := 2048
    ttyIn := [.data (data_packet (List.replicate 128 7) ++
      [2, 10, 64, 0, 0, 0, 0, 0, 64, 0, 0, 0, 130, 10])] }

/-- A world with block size 128 and 128 bytes 7 on standard input, whose serial
line answers a WRITE of one block with CONT and then an END frame with a valid
checksum and the byte count 64. -/
def worldShortWrite : World :=
  { world0 with
    BSIZE := 128
    BCOUNT := 2048
    stdIn := [.data (List.replicate 128 7)]
    ttyIn := [.data (16 :: [2, 10, 64, 0, 0, 0, 0, 0, 64, 0, 0, 0, 130, 10])] }

/-- A start world (block size 512) with 1536 bytes 7 on standard input, whose
serial line answers a WRITE of three blocks with twelve CONT bytes and then an
END frame with a valid checksum and the byte count 1536. -/
def worldWrite3 : World :=
  { world0 with
    stdIn := [.data (List.replicate 1536 7)]
    ttyIn := [.data (List.replicate 12 16 ++
      [2, 10, 64, 0, 0, 0, 0, 0, 0, 6, 0, 0, 66, 16])] }

/-- The payloads of five DATA packets that total 512 bytes, the first of one
byte. -/
def oddPayloads : List (List Nat) :=
  [[7], List.replicate 127 7, List.replicate 128 7, List.replicate 128 7,
   List.replicate 128 7]

/-- A start world (block size 512) whose serial line answers a READ of one block
with the DATA packets of `oddPayloads`, each with the checksum the wire format
defines for it, and then an END frame with a valid checksum and the byte count
512. -/
def worldOddRead : World :=
  { world0 with
    ttyIn := [.data (oddPayloads.flatMap data_packet ++
      [2, 10, 64, 0, 0, 0, 0, 0, 0, 2, 0, 0, 66, 12])] }

/-- A world positioned on the last block of a tape of 512 blocks of 512 bytes,
whose serial line answers a READ of one block with four DATA packets of 128
bytes 7 and then an END frame with a valid checksum and the byte count 512. -/
def worldReadLast : World :=
  { world0 with
    BNUM := 511
    ttyIn := [.data ((List.replicate 4 (List.replicate 128 7)).flatMap data_packet ++
      [2, 10, 64, 0, 0, 0, 0, 0, 0, 2, 0, 0, 66, 12])] }

/-- A start world whose serial line answers a command with an END frame that
carries the result code 255 (-1 as a signed byte), unit 7, byte count 0 and the
status word 0x1234, with a valid checksum. -/
def worldEndError : World :=
  { world0 with
    ttyIn := [.data [2, 10, 64, 255, 7, 0, 0, 0, 0, 0, 52, 18, 126, 27]] }

/-- A start world (block size 512) whose serial line answers a READ of one block
with the DATA packets of `oddPayloads`, each with the checksum the wire format
defines for it, and then a 14-byte END frame with the byte count 512 whose two
checksum bytes are wrong (0, 0 instead of 66, 12). -/
def worldOddBadEnd : World :=
  { world0 with
    ttyIn := [.data (oddPayloads.flatMap data_packet ++
      [2, 10, 64, 0, 0, 0, 0, 0, 0, 2, 0, 0, 0, 0])] }

/-- A start world (block size 512) whose serial line answers a READ of one block
with the DATA packets of `oddPayloads`, each with the checksum the wire format
defines for it, and then an END frame with a valid checksum and the byte count
64. -/
def worldOddShortEnd : World :=
  { world0 with
    ttyIn := [.data (oddPayloads.flatMap data_packet ++
      [2, 10, 64, 0, 0, 0, 0, 0, 64, 0, 0, 0, 130, 10])] }

/-! ## Checksum engine: lemmas -/

theorem dec64_succ (n : Nat) (h : n + 1 < 2 ^ 64) : dec64 (n + 1) = n := by
  unfold dec64; omega

theorem dec64_zero : dec64 0 = 2 ^ 64 - 1 := by
  unfold dec64; omega

theorem dec64_parity (n : Nat) : dec64 n % 2 = (n + 1) % 2 := by
  unfold dec64; omega

theorem dec64_lt (n : Nat) : dec64 n < 2 ^ 64 := by
  unfold dec64; omega

theorem cksum_loop_zero (buf : List Nat) (acc : Nat) : cksum_loop buf acc 0 = some acc := by
  match buf with
  | [] => simp [cksum_loop]
  | [_] => simp [cksum_loop]
  | _ :: _ :: _ => simp [cksum_loop]

/-- On an odd count the loop of `cksum_buf` never reaches its exit test with
`count = 0`: the second `count--` wraps to `2 ^ 64 - 1` and the loop walks off
the array object, whatever the object holds. -/
theorem cksum_loop_odd (buf : List Nat) :
    ∀ (acc count : Nat), count % 2 = 1 → cksum_loop buf acc count = none := by
  generalize hn : buf.length = n
  induction n using Nat.strong_induction_on generalizing buf with
  | _ n ih =>
    intro acc count hodd
    have hpos : count > 0 := by omega
    match buf, hn with
    | [], _ => simp [cksum_loop, hpos]
    | [b0], _ =>
      have h1 := dec64_parity count
      by_cases hc : dec64 count > 0
      · simp [cksum_loop, hpos, hc]
      · have hz : dec64 count = 0 := by omega
        simp [cksum_loop, hpos, hz, dec64_zero]
    | b0 :: b1 :: buf2, hlen =>
      have h1 := dec64_parity count
      simp only [List.length_cons] at hlen
      by_cases hc : dec64 count > 0
      · have h2 := dec64_parity (dec64 count)
        have := ih buf2.length (by omega) buf2 rfl
          (carry (acc + b0 + b1 * 256)) (dec64 (dec64 count)) (by omega)
        simp [cksum_loop, hpos, hc, this]
      · have hz : dec64 count = 0 := by omega
        have := ih (buf2.length + 1) (by omega) (b1 :: buf2) rfl
          (carry (acc + b0)) (2 ^ 64 - 1) (by norm_num)
        simpa [cksum_loop, hpos, hz, dec64_zero] using this

/-- On an even count that lies inside the array object the loop of `cksum_buf`
returns the word sum of the span. -/
theorem cksum_loop_even (xs : List Nat) :
    ∀ (rest : List Nat) (acc : Nat), xs.length % 2 = 0 → xs.length < 2 ^ 64 →
      cksum_loop (xs ++ rest) acc xs.length = some (wordsum xs acc) := by
  generalize hn : xs.length = n
  induction n using Nat.strong_induction_on generalizing xs with
  | _ n ih =>
    intro rest acc heven hlt
    match xs, hn with
    | [], hlen =>
      subst hlen
      simpa [wordsum] using cksum_loop_zero rest acc
    | [b0], hlen =>
      subst hlen
      simp at heven
    | b0 :: b1 :: ys, hlen =>
      subst hlen
      simp only [List.length_cons] at heven hlt
      have h1 : dec64 (ys.length + 1 + 1) = ys.length + 1 := dec64_succ _ (by omega)
      have h2 : dec64 (ys.length + 1) = ys.length := dec64_succ _ (by omega)
      have := ih ys.length (by simp only [List.length_cons]; omega) ys rfl rest
        (carry (acc + b0 + b1 * 256)) (by omega) (by omega)
      simp [cksum_loop, wordsum, h1, h2, this]

theorem cksum_buf_even (xs rest : List Nat) (heven : xs.length % 2 = 0)
    (hlt : xs.length < 2 ^ 64) :
    cksum_buf (xs ++ rest) xs.length = some (wordsum xs 0) := by
  unfold cksum_buf
  rw [Nat.mod_eq_of_lt hlt]
  exact cksum_loop_even xs rest 0 heven hlt

theorem cksum_buf_odd (buf : List Nat) (count : Nat) (hodd : count % 2 = 1) :
    cksum_buf buf count = none := by
  unfold cksum_buf
  exact cksum_loop_odd buf 0 _ (by omega)

/-! ## Transport I/O: lemmas -/

theorem read_loop_done (fuel : Nat) (w : World) (fd : Fd) (got : List Nat) :
    read_loop (fuel + 1) w fd 0 got = some (got, w) := by
  simp [read_loop]

/-- When the descriptor can deliver `count` bytes, `read_buf` returns exactly
those, in as many `read` calls as the chunking of the input needs. -/
theorem read_loop_eq (s : List RdEv) :
    ∀ (fuel : Nat) (w : World) (fd : Fd) (count : Nat) (got : List Nat),
      w.rdScript fd = s → count ≤ (avail s).length → s.length < fuel →
      read_loop fuel w fd count got =
        some (got ++ (avail s).take count,
          { w.setRd fd (rdRest s count) with log := w.log ++ rdLog fd s count }) := by
  induction s with
  | nil =>
    intro fuel w fd count got hs hc hf
    have hc0 : count = 0 := by simpa [avail] using hc
    subst hc0
    obtain ⟨f, rfl⟩ : ∃ f, fuel = f + 1 := ⟨fuel - 1, by omega⟩
    rw [read_loop_done]
    cases w; cases fd <;> simp_all [World.setRd, World.rdScript, rdRest, rdLog]
  | cons e r ih =>
    intro fuel w fd count got hs hc hf
    obtain ⟨f, rfl⟩ : ∃ f, fuel = f + 1 := ⟨fuel - 1, by omega⟩
    simp only [List.length_cons] at hf
    match count with
    | 0 =>
      rw [read_loop_done]
      cases w; cases fd <;> simp_all [World.setRd, World.rdScript, rdRest, rdLog]
    | c + 1 =>
      match e with
      | .err => simp [avail] at hc
      | .data bs =>
        simp only [avail, List.length_append] at hc
        by_cases hb : bs.length ≤ c + 1
        · have hstep : sys_read w fd (c + 1) =
              (some bs, { w.setRd fd r with log := w.log ++ [Sys.rd fd (c + 1) (some bs)] }) := by
            simp [sys_read, hs, rdStep, hb]
          have hscr : ({ w.setRd fd r with
              log := w.log ++ [Sys.rd fd (c + 1) (some bs)] } : World).rdScript fd = r := by
            cases fd <;> simp [World.setRd, World.rdScript]
          have := ih f _ fd (c + 1 - bs.length) (got ++ bs) hscr (by omega) (by omega)
          simp only [read_loop, hstep, this, rdRest, rdLog, hb, avail]
          have htake : List.take (c + 1) (bs ++ avail r)
              = bs ++ List.take (c + 1 - bs.length) (avail r) := by
            rw [List.take_append_eq_append_take, List.take_of_length_le hb]
          cases fd <;> simp [World.setRd, htake]
        · have hstep : sys_read w fd (c + 1) =
              (some (bs.take (c + 1)), { w.setRd fd (.data (bs.drop (c + 1)) :: r) with
                log := w.log ++ [Sys.rd fd (c + 1) (some (bs.take (c + 1)))] }) := by
            simp [sys_read, hs, rdStep, hb]
          obtain ⟨f2, rfl⟩ : ∃ f2, f = f2 + 1 := ⟨f - 1, by omega⟩
          have hlen : (bs.take (c + 1)).length = c + 1 := by
            rw [List.length_take]; omega
          have htake : List.take (c + 1) (bs ++ avail r) = List.take (c + 1) bs := by
            rw [List.take_append_of_le_length (by omega)]
          simp [read_loop, hstep, hlen, rdRest, rdLog, hb, avail, htake]

theorem read_buf_eq (fuel : Nat) (w : World) (fd : Fd) (count : Nat)
    (hc : count ≤ (avail (w.rdScript fd)).length) (hf : (w.rdScript fd).length < fuel) :
    read_buf fuel w fd count =
      some ((avail (w.rdScript fd)).take count,
        { w.setRd fd (rdRest (w.rdScript fd) count) with
          log := w.log ++ rdLog fd (w.rdScript fd) count }) := by
  unfold read_buf
  rw [read_loop_eq (w.rdScript fd) fuel w fd count [] rfl hc hf]
  simp

theorem rdRest_length_le (s : List RdEv) : ∀ count, (rdRest s count).length ≤ s.length := by
  induction s with
  | nil => intro count; cases count <;> simp [rdRest]
  | cons e r ih =>
    intro count
    match count, e with
    | 0, _ => simp [rdRest]
    | c + 1, .err => simp [rdRest]
    | c + 1, .data bs =>
      simp only [rdRest]
      split
      · have := ih (c + 1 - bs.length)
        simp only [List.length_cons]; omega
      · simp

theorem avail_rdRest (s : List RdEv) :
    ∀ count, count ≤ (avail s).length → avail (rdRest s count) = (avail s).drop count := by
  induction s with
  | nil => intro count _; cases count <;> simp [rdRest, avail]
  | cons e r ih =>
    intro count hc
    match count, e with
    | 0, _ => simp [rdRest]
    | c + 1, .err => simp [avail] at hc
    | c + 1, .data bs =>
      simp only [avail, List.length_append] at hc
      simp only [rdRest]
      split
      · rename_i hb
        rw [ih _ (by omega)]
        simp only [avail]
        rw [List.drop_append_eq_append_drop, List.drop_of_length_le hb]
        simp
      · rename_i hb
        simp only [avail]
        rw [List.drop_append_of_le_length (by omega)]

theorem wrRest_zero (s : List WrEv) : wrRest s 0 = s := by
  match s with
  | [] => simp [wrRest]
  | .err :: _ => simp [wrRest]
  | .accept _ :: _ => simp [wrRest]

theorem wrLog_nil (fd : Fd) (s : List WrEv) : wrLog fd s [] = [] := by
  match s with
  | [] => simp [wrLog]
  | .err :: _ => simp [wrLog]
  | .accept _ :: _ => simp [wrLog]

theorem setWr_nil (w : World) (fd : Fd) (s : List WrEv) (l : List Sys)
    (hs : w.wrScript fd = s) (hl : l = w.log) :
    ({ w.setWr fd s [] with log := l } : World) = w := by
  subst hs hl
  cases w; cases fd <;> simp [World.setWr, World.wrScript]

theorem write_loop_done (fuel : Nat) (w : World) (fd : Fd) (p : Nat) :
    write_loop (fuel + 1) w fd [] p = some (p, w) := by
  simp [write_loop]

/-- When no `write` fails, `write_buf` writes every byte, in as many `write`
calls as the descriptor needs. -/
theorem write_loop_eq (s : List WrEv) :
    ∀ (fuel : Nat) (w : World) (fd : Fd) (todo : List Nat) (p : Nat),
      w.wrScript fd = s → Accepting s → s.length + 1 < fuel →
      write_loop fuel w fd todo p =
        some (p + todo.length,
          { w.setWr fd (wrRest s todo.length) todo with log := w.log ++ wrLog fd s todo }) := by
  induction s with
  | nil =>
    intro fuel w fd todo p hs _ hf
    obtain ⟨f, rfl⟩ : ∃ f, fuel = f + 2 := ⟨fuel - 2, by simp at hf; omega⟩
    match todo with
    | [] =>
      rw [write_loop_done, wrLog_nil, List.length_nil, wrRest_zero,
        setWr_nil w fd _ _ hs (by simp)]
      simp
    | b :: bs =>
      simp [write_loop, sys_write, hs, wrStep, wrRest, wrLog]
  | cons e r ih =>
    intro fuel w fd todo p hs hacc hf
    obtain ⟨f, rfl⟩ : ∃ f, fuel = f + 2 := ⟨fuel - 2, by simp at hf; omega⟩
    simp only [List.length_cons] at hf
    have hr : Accepting r := fun e he => hacc e (List.mem_cons_of_mem _ he)
    match todo with
    | [] =>
      rw [write_loop_done, wrLog_nil, List.length_nil, wrRest_zero,
        setWr_nil w fd _ _ hs (by simp)]
      simp
    | b :: bs =>
      match e with
      | .err => exact absurd rfl (hacc .err (List.mem_cons_self _ _))
      | .accept k =>
        by_cases hk : bs.length + 1 ≤ k
        · have hmin : min k (bs.length + 1) = bs.length + 1 := by omega
          simp [write_loop, sys_write, hs, wrStep, wrRest, wrLog, hk, hmin]
        · have hmin : min k (bs.length + 1) = k := by omega
          have hstep : sys_write w fd (b :: bs) =
              (some k, { w.setWr fd r ((b :: bs).take k) with
                log := w.log ++ [Sys.wr fd (b :: bs) (some k)] }) := by
            simp [sys_write, hs, wrStep, hmin]
          have hscr : ({ w.setWr fd r ((b :: bs).take k) with
              log := w.log ++ [Sys.wr fd (b :: bs) (some k)] } : World).wrScript fd = r := by
            cases fd <;> simp [World.setWr, World.wrScript]
          have := ih (f + 1) _ fd ((b :: bs).drop k) (p + k) hscr hr (by omega)
          have hunf : write_loop (f + 1 + 1) w fd (b :: bs) p =
              write_loop (f + 1) { w.setWr fd r ((b :: bs).take k) with
                log := w.log ++ [Sys.wr fd (b :: bs) (some k)] } fd ((b :: bs).drop k) (p + k) := by
            rw [write_loop]
            simp only [List.length_cons, Nat.zero_lt_succ, if_true, hstep]
          rw [hunf, this]
          have hlen : ((b :: bs).drop k).length = bs.length + 1 - k := by simp
          have hsum : p + k + (bs.length + 1 - k) = p + (bs.length + 1) := by omega
          cases fd <;> simp [World.setWr, hlen, hsum, wrRest, wrLog, hk]

theorem write_buf_eq (fuel : Nat) (w : World) (fd : Fd) (bytes : List Nat)
    (hacc : Accepting (w.wrScript fd)) (hf : (w.wrScript fd).length + 1 < fuel) :
    write_buf fuel w fd bytes =
      some (bytes.length,
        { w.setWr fd (wrRest (w.wrScript fd) bytes.length) bytes with
          log := w.log ++ wrLog fd (w.wrScript fd) bytes }) := by
  unfold write_buf
  rw [write_loop_eq (w.wrScript fd) fuel w fd bytes 0 rfl hacc hf]
  simp

theorem wrRest_length_le (s : List WrEv) : ∀ count, (wrRest s count).length ≤ s.length := by
  induction s with
  | nil => intro count; cases count <;> simp [wrRest]
  | cons e r ih =>
    intro count
    match count, e with
    | 0, _ => simp [wrRest_zero]
    | c + 1, .err => simp [wrRest]
    | c + 1, .accept k =>
      simp only [wrRest]
      split
      · simp
      · have := ih (c + 1 - k)
        simp only [List.length_cons]; omega

theorem wrRest_accepting (s : List WrEv) :
    ∀ count, Accepting s → Accepting (wrRest s count) := by
  induction s with
  | nil => intro count _; cases count <;> simp [wrRest, Accepting]
  | cons e r ih =>
    intro count hacc
    have hr : Accepting r := fun e he => hacc e (List.mem_cons_of_mem _ he)
    match count, e with
    | 0, _ => simpa [wrRest_zero] using hacc
    | c + 1, .err => simpa [wrRest] using hr
    | c + 1, .accept k =>
      simp only [wrRest]
      split
      · exact hr
      · exact ih _ hr

/-! ## Byte buffers: lemmas -/

theorem blit_zero (buf bs : List Nat) : blit buf 0 bs = bs ++ buf.drop bs.length := by
  cases buf <;> simp [blit]

theorem blit_append (xs : List Nat) :
    ∀ (rest bs : List Nat), blit (xs ++ rest) xs.length bs = xs ++ bs ++ rest.drop bs.length := by
  induction xs with
  | nil => intro rest bs; simp [blit_zero]
  | cons x xs ih => intro rest bs; simp [blit, ih]

theorem blit_flag_len (buf : List Nat) (a b : Nat) (bs : List Nat) :
    blit (blit (blit buf 0 [a]) 1 [b]) 2 bs = a :: b :: bs ++ buf.drop (2 + bs.length) := by
  match buf with
  | [] => simp [blit]
  | [x] => simp [blit]; omega
  | x :: y :: r => simp [blit, Nat.add_comm]

theorem peek_append_right (xs rest : List Nat) (i : Nat) :
    peek (xs ++ rest) (xs.length + i) = peek rest i := by
  unfold peek
  induction xs with
  | nil => simp
  | cons x xs ih =>
    simp only [List.cons_append, List.length_cons]
    rw [show xs.length + 1 + i = (xs.length + i) + 1 by omega]
    simpa using ih

theorem carry_le (s : Nat) (h : s ≤ 131070) : carry s ≤ 65535 := by
  unfold carry; split <;> omega

/-- The word sum of a span of bytes fits 16 bits. -/
theorem wordsum_le (xs : List Nat) :
    ∀ acc, acc ≤ 65535 → (∀ b ∈ xs, b < 256) → wordsum xs acc ≤ 65535 := by
  generalize hn : xs.length = n
  induction n using Nat.strong_induction_on generalizing xs with
  | _ n ih =>
    intro acc hacc hb
    match xs, hn with
    | [], _ => simpa [wordsum] using hacc
    | [b0], _ =>
      have h0 : b0 < 256 := hb b0 (by simp)
      simp only [wordsum]
      exact carry_le _ (by omega)
    | b0 :: b1 :: ys, hlen =>
      subst hlen
      have h0 : b0 < 256 := hb b0 (by simp)
      have h1 : b1 < 256 := hb b1 (by simp)
      simp only [wordsum]
      exact ih ys.length (by simp only [List.length_cons]; omega) ys rfl _
        (carry_le _ (by omega)) (fun b hbm => hb b (by simp [hbm]))

theorem wordsum_snoc (s : List Nat) :
    ∀ (lo hi acc : Nat), s.length % 2 = 0 →
      wordsum (s ++ [lo, hi]) acc = carry (wordsum s acc + lo + hi * 256) := by
  generalize hn : s.length = n
  induction n using Nat.strong_induction_on generalizing s with
  | _ n ih =>
    intro lo hi acc heven
    match s, hn with
    | [], _ => simp [wordsum]
    | [b0], hlen => subst hlen; simp at heven
    | b0 :: b1 :: ys, hlen =>
      subst hlen
      simp only [List.length_cons] at heven
      simpa [wordsum] using ih ys.length (by simp only [List.length_cons]; omega) ys rfl
        lo hi (carry (acc + b0 + b1 * 256)) (by omega)

/-! ## Checksum engine: the claims -/

/-- C1 (code defect). The checksum of the empty span is 0, but `cksum_buf` on a
one-byte span does not return the byte: after the byte is added the second
`count--` of the loop body wraps the unsigned `count` from 0 to `2 ^ 64 - 1`,
the loop goes on reading behind the span and the call never returns a value,
whatever the byte and whatever follows it in memory. -/
theorem cksum_buf_one_byte_span :
    (∀ buf : List Nat, cksum_buf buf 0 = some 0) ∧
    (∀ (x : Nat) (behind : List Nat), cksum_buf (x :: behind) 1 = none) :=
  ⟨fun buf => by simp [cksum_buf, cksum_loop_zero],
   fun x behind => cksum_buf_odd _ 1 (by decide)⟩

/-- C2 (code defect). On every span of odd length `cksum_buf` fails to stop at
the end of the span: for every array object `buf` and every odd `count` the
call has no return value (the loop runs past position `count` until it leaves
the object), so it is not true that the checksum has no failure mode. -/
theorem cksum_buf_odd_span_overrun (buf : List Nat) (k : Nat) :
    cksum_buf buf (2 * k + 1) = none :=
  cksum_buf_odd buf (2 * k + 1) (by omega)

/-- C3. End-around carry step: for every span `s` of even length and bytes
`lo`, `hi`, the checksum of `s ++ [lo, hi]` is `t - 65535` if `t > 65535` and
`t` otherwise, where `t = cksum_buf s + lo + 256 * hi`; `behind1` and `behind2`
are whatever follows the spans in memory. -/
theorem cksum_buf_carry_step (s : List Nat) (lo hi : Nat) (behind1 behind2 : List Nat)
    (heven : s.length % 2 = 0) (hlt : s.length + 2 < 2 ^ 64) :
    ∃ c, cksum_buf (s ++ behind1) s.length = some c ∧
      cksum_buf (s ++ [lo, hi] ++ behind2) (s.length + 2) =
        some (if c + lo + 256 * hi > 65535 then c + lo + 256 * hi - 65535
              else c + lo + 256 * hi) := by
  refine ⟨wordsum s 0, cksum_buf_even s behind1 heven (by omega), ?_⟩
  have h := cksum_buf_even (s ++ [lo, hi]) behind2 (by simp; omega) (by simp; omega)
  simp only [List.length_append, List.length_cons, List.length_nil] at h
  rw [h, wordsum_snoc s lo hi 0 heven]
  simp [carry, Nat.mul_comm]

/-- Witness of C3 on the span `[255, 255]` followed by the word `[3, 4]`: the sum
65535 + 1027 is reduced by 65535. -/
theorem cksum_buf_carry_step_witness :
    [255, 255].length % 2 = 0 ∧ [255, 255].length + 2 < 2 ^ 64 ∧
    ∃ c, cksum_buf ([255, 255] ++ []) [255, 255].length = some c ∧
      cksum_buf ([255, 255] ++ [3, 4] ++ [9]) ([255, 255].length + 2) =
        some (if c + 3 + 256 * 4 > 65535 then c + 3 + 256 * 4 - 65535
              else c + 3 + 256 * 4) :=
  ⟨by decide, by decide, cksum_buf_carry_step [255, 255] 3 4 [] [9] (by decide) (by decide)⟩

/-! ## Packet codec: the CMD encoder -/

theorem cmd_head_length (w : World) (op dnum bnum count mod : Int) :
    (cmd_head w op dnum bnum count mod).length = 12 := by
  simp [cmd_head]

theorem cmd_frame_length (w : World) (op dnum bnum count mod : Int) :
    (cmd_frame w op dnum bnum count mod).length = 14 := by
  simp [cmd_frame, cmd_head]

/-- On a serial line that accepts the writes, `send_cmd` returns 0 after it has
stored the frame in `CMD` and written its 14 bytes. -/
theorem send_cmd_eq (fuel : Nat) (w : World) (op dnum bnum count mod : Int)
    (hacc : Accepting w.ttyWr) (hf : w.ttyWr.length + 1 < fuel) :
    send_cmd fuel w op dnum bnum count mod =
      some (0, { w with
        CMD := cmd_frame w op dnum bnum count mod ++ w.CMD.drop 14
        ttyWr := wrRest w.ttyWr 14
        ttyOut := w.ttyOut ++ cmd_frame w op dnum bnum count mod
        log := w.log ++ wrLog .tty w.ttyWr (cmd_frame w op dnum bnum count mod) }) := by
  have hlen := cmd_head_length w op dnum bnum count mod
  have hck := cksum_buf_even (cmd_head w op dnum bnum count mod) (w.CMD.drop 12)
    (by rw [hlen]) (by rw [hlen]; norm_num)
  have hbl := blit_append (cmd_head w op dnum bnum count mod) (w.CMD.drop 12)
    [lo (wordsum (cmd_head w op dnum bnum count mod) 0),
     hi (wordsum (cmd_head w op dnum bnum count mod) 0)]
  rw [hlen] at hck hbl
  have htake : List.take 14 (cmd_head w op dnum bnum count mod ++
      [lo (wordsum (cmd_head w op dnum bnum count mod) 0),
       hi (wordsum (cmd_head w op dnum bnum count mod) 0)] ++
      List.drop 2 (List.drop 12 w.CMD)) = cmd_frame w op dnum bnum count mod := by
    rw [List.take_append_of_le_length (by simp [hlen])]
    exact List.take_of_length_le (by simp [hlen])
  unfold send_cmd
  simp only [blit_zero, hlen, hck, hbl, List.length_cons, List.length_nil]
  rw [htake, write_buf_eq fuel _ .tty _ (by simpa [World.wrScript] using hacc)
    (by simpa [World.wrScript] using hf)]
  simp [World.setWr, World.wrScript, cmd_frame_length, cmd_frame, hlen]

theorem lo_natCast (n : Nat) : lo (n : Int) = n % 256 := by
  unfold lo; omega

theorem hi_natCast (n : Nat) : hi (n : Int) = n / 256 % 256 := by
  unfold hi; omega

theorem u8_natCast (n : Nat) : u8 (n : Int) = n % 256 := by
  unfold u8; omega

theorem mod_byte_lt (BSIZE : Nat) (mod : Int) : mod_byte BSIZE mod < 256 := by
  unfold mod_byte; split_ifs <;> omega

theorem cmd_head_bytes (w : World) (op dnum bnum count mod : Int) :
    ∀ b ∈ cmd_head w op dnum bnum count mod, b < 256 := by
  intro b hb
  have hm := mod_byte_lt w.BSIZE mod
  simp only [cmd_head, List.mem_cons, List.mem_singleton, List.not_mem_nil, or_false] at hb
  rcases hb with h | h | h | h | h | h | h | h | h | h | h | h <;> subst h <;>
    first
    | (simp [PKT_CMD]; done)
    | (unfold u8; omega)
    | (unfold lo; omega)
    | (unfold hi; omega)
    | exact hm
    | (split <;> omega)

/-- C5. For every opcode and unit in 0..255 and every count and block number in
0..65535, `send_cmd` (on a serial line that accepts the writes) returns 0 and
writes exactly 14 bytes: byte 0 = 2, byte 1 = 10, byte 2 = opcode, byte 4 =
unit, byte 5 = 8 in MRSP mode and 0 otherwise, bytes 6..7 = 0, bytes 8..9 = the
count little-endian, bytes 10..11 = the block number little-endian and bytes
12..13 = the little-endian checksum `sum` of bytes 0..11 (byte 3 is the
modifier byte of line 481). -/
theorem send_cmd_layout (fuel : Nat) (w : World) (op unit count block : Nat) (mod : Int)
    (hop : op ≤ 255) (hunit : unit ≤ 255) (hcount : count ≤ 65535) (hblock : block ≤ 65535)
    (hacc : Accepting w.ttyWr) (hf : w.ttyWr.length + 1 < fuel) :
    ∃ (sum : Nat) (w1 : World),
      send_cmd fuel w op unit block count mod = some (0, w1) ∧
      w1.ttyOut = w.ttyOut ++
        [2, 10, op, mod_byte w.BSIZE mod, unit, if w.MODE = MODE_MRSP then 8 else 0, 0, 0,
         count % 256, count / 256, block % 256, block / 256, sum % 256, sum / 256] ∧
      cksum_buf
        [2, 10, op, mod_byte w.BSIZE mod, unit, if w.MODE = MODE_MRSP then 8 else 0, 0, 0,
         count % 256, count / 256, block % 256, block / 256] 12 = some sum ∧
      sum ≤ 65535 := by
  have hsum := wordsum_le (cmd_head w op unit block count mod) 0 (by omega)
    (cmd_head_bytes w op unit block count mod)
  have hhead : cmd_head w op unit block count mod =
      [2, 10, op, mod_byte w.BSIZE mod, unit, if w.MODE = MODE_MRSP then 8 else 0, 0, 0,
       count % 256, count / 256, block % 256, block / 256] := by
    have h1 : op % 256 = op := by omega
    have h2 : unit % 256 = unit := by omega
    have h3 : count / 256 % 256 = count / 256 := by omega
    have h4 : block / 256 % 256 = block / 256 := by omega
    simp only [cmd_head, PKT_CMD, u8_natCast, lo_natCast, hi_natCast, h1, h2, h3, h4]
  refine ⟨wordsum (cmd_head w op unit block count mod) 0, _,
    send_cmd_eq fuel w op unit block count mod hacc hf, ?_, ?_, hsum⟩
  · simp only [cmd_frame, lo_natCast, hi_natCast]
    rw [hhead]
    have : wordsum (cmd_head w op unit block count mod) 0 / 256 % 256
        = wordsum (cmd_head w op unit block count mod) 0 / 256 := by omega
    rw [hhead] at this
    simp [this]
  · rw [← hhead]
    have := cksum_buf_even (cmd_head w op unit block count mod) [] (by simp [cmd_head])
      (by simp [cmd_head])
    simpa [cmd_head_length] using this

/-- Witness of C5: a READ of one 512-byte block of unit 0 at block 7, from the
start world. -/
theorem send_cmd_layout_witness :
    (2 : Nat) ≤ 255 ∧ (0 : Nat) ≤ 255 ∧ (512 : Nat) ≤ 65535 ∧ (7 : Nat) ≤ 65535 ∧
    Accepting world0.ttyWr ∧ world0.ttyWr.length + 1 < 2 ∧
    ∃ (sum : Nat) (w1 : World),
      send_cmd 2 world0 (2 : Nat) (0 : Nat) (7 : Nat) (512 : Nat) 0 = some (0, w1) ∧
      w1.ttyOut = world0.ttyOut ++
        [2, 10, 2, mod_byte world0.BSIZE 0, 0, if world0.MODE = MODE_MRSP then 8 else 0, 0, 0,
         512 % 256, 512 / 256, 7 % 256, 7 / 256, sum % 256, sum / 256] ∧
      cksum_buf
        [2, 10, 2, mod_byte world0.BSIZE 0, 0, if world0.MODE = MODE_MRSP then 8 else 0, 0, 0,
         512 % 256, 512 / 256, 7 % 256, 7 / 256] 12 = some sum ∧
      sum ≤ 65535 :=
  ⟨by decide, by decide, by decide, by decide, fun e he => absurd he (List.not_mem_nil e),
   by decide,
   send_cmd_layout 2 world0 2 0 512 7 0 (by decide) (by decide) (by decide) (by decide)
     (fun e he => absurd he (List.not_mem_nil e)) (by decide)⟩

/-- C7 (code defect). The modifier byte that `send_cmd` builds is not the
caller's modifier OR'd with the 128 flag: line 481 parses as
`(mod | (BSIZE == 128)) ? 128 : 0`. With `mod = 1` the byte sent is 128 both for
block size 512 (the claim says 1) and for block size 128 (the claim says 129). -/
theorem send_cmd_modifier_byte :
    (send_cmd 2 world0 CMD_READ 0 0 512 1).map (fun r => (r.1, peek r.2.ttyOut 3))
      = some (0, 128) ∧
    (send_cmd 2 { world0 with BSIZE := 128, BCOUNT := 2048 } CMD_READ 0 0 128 1).map
      (fun r => (r.1, peek r.2.ttyOut 3)) = some (0, 128) := by
  constructor
  · rw [send_cmd_eq 2 world0 _ _ _ _ _ (fun e he => absurd he (List.not_mem_nil e))
      (by decide)]
    rfl
  · rw [send_cmd_eq 2 _ _ _ _ _ _ (fun e he => absurd he (List.not_mem_nil e))
      (by decide)]
    rfl

/-! ## Packet codec: the CMD decoder -/

theorem peek_append_left (xs rest : List Nat) (i : Nat) (h : i < xs.length) :
    peek (xs ++ rest) i = peek xs i := by
  unfold peek
  simp [List.getD_eq_getElem?_getD, List.getElem?_append_left h]

theorem cksum_buf_take (buf : List Nat) (n : Nat) (heven : n % 2 = 0)
    (hle : n ≤ buf.length) (hlt : n < 2 ^ 64) :
    cksum_buf buf n = some (wordsum (buf.take n) 0) := by
  have hlen : (buf.take n).length = n := by rw [List.length_take]; omega
  have := cksum_buf_even (buf.take n) (buf.drop n) (by omega) (by omega)
  rwa [List.take_append_drop, hlen] at this

theorem blit_flag (buf : List Nat) (a : Nat) (bs : List Nat) :
    blit (blit buf 0 [a]) 1 bs = a :: bs ++ buf.drop (1 + bs.length) := by
  match buf with
  | [] => simp [blit]
  | x :: r => simp [blit, Nat.add_comm]

theorem headD_blit_one (r b : Nat) : (blit [r] 0 [b]).headD 0 = b := by
  simp [blit]

/-- The serial line delivers a whole 14-byte frame that starts with the CMD
flag: `recv_end` stores it in `CMD` and returns `end_result`. -/
theorem recv_end_cmd (fuel : Nat) (w : World) (body more : List Nat)
    (hav : avail w.ttyIn = 2 :: body ++ more) (hlen : body.length = 13)
    (hf : w.ttyIn.length < fuel) :
    recv_end fuel w =
      some (end_result (2 :: body), { w with
        RECV := 2
        CMD := 2 :: body ++ w.CMD.drop 14
        ttyIn := rdRest (rdRest w.ttyIn 1) 13
        log := w.log ++ rdLog .tty w.ttyIn 1 ++ rdLog .tty (rdRest w.ttyIn 1) 13 }) := by
  have h1 := read_buf_eq fuel w .tty 1 (by simp [World.rdScript, hav]) (by simpa [World.rdScript])
  simp only [World.rdScript, hav, World.setRd, List.cons_append, List.take_succ_cons,
    List.take_zero] at h1
  have hav2 : avail (rdRest w.ttyIn 1) = body ++ more := by
    rw [avail_rdRest _ 1 (by simp [hav]), hav]; simp
  have hf2 : (rdRest w.ttyIn 1).length < fuel :=
    Nat.lt_of_le_of_lt (rdRest_length_le _ _) hf
  unfold recv_end
  rw [h1]
  simp only [headD_blit_one, List.length_singleton, Nat.lt_irrefl, if_false, PKT_CMD, if_true]
  rw [read_buf_eq fuel _ .tty 13 (by simp [World.rdScript, hav2, hlen])
    (by simpa [World.rdScript] using hf2)]
  simp only [World.rdScript, hav2, World.setRd]
  have htk : List.take 13 (body ++ more) = body := by
    rw [List.take_append_of_le_length (by omega), List.take_of_length_le (by omega)]
  have hbl : blit (blit w.CMD 0 [2]) 1 body = 2 :: body ++ w.CMD.drop 14 := by
    rw [blit_flag, hlen]
  have hck : cksum_buf (2 :: body ++ w.CMD.drop 14) 12
      = some (wordsum ((2 :: body).take 12) 0) := by
    rw [cksum_buf_take _ 12 (by decide) (by simp [hlen]; omega) (by decide)]
    rw [List.take_append_of_le_length (by simp [hlen])]
  have hp : ∀ i, i < 14 → peek (2 :: body ++ w.CMD.drop 14) i = peek (2 :: body) i := by
    intro i hi
    exact peek_append_left _ _ _ (by simp [hlen]; omega)
  simp only [htk, hbl, hck, hlen, Nat.lt_irrefl, if_false]
  simp only [hp 12 (by decide), hp 13 (by decide), hp 2 (by decide), hp 8 (by decide),
    hp 9 (by decide), end_result, PKT_INIT, show ((2 : Nat) = 4) = False by decide, if_false]
  split_ifs <;> rfl

theorem cmd_frame_cons (w : World) (op dnum bnum count mod : Int) :
    cmd_frame w op dnum bnum count mod = 2 :: (cmd_frame w op dnum bnum count mod).tail := by
  simp [cmd_frame, cmd_head, PKT_CMD]

theorem end_result_cmd_frame (w : World) (op unit count block : Nat) (mod : Int)
    (hop : op ≤ 255) (hcount : count ≤ 65535) :
    end_result (cmd_frame w op unit block count mod) =
      if op = CMD_END then (count : Int) else -1 := by
  have htake : (cmd_frame w op unit block count mod).take 12
      = cmd_head w op unit block count mod := by
    simp [cmd_frame, cmd_head]
  have h12 : peek (cmd_frame w op unit block count mod) 12
      = lo (wordsum (cmd_head w op unit block count mod) 0) := by
    simp [cmd_frame, cmd_head, peek]
  have h13 : peek (cmd_frame w op unit block count mod) 13
      = hi (wordsum (cmd_head w op unit block count mod) 0) := by
    simp [cmd_frame, cmd_head, peek]
  have h2 : peek (cmd_frame w op unit block count mod) 2 = op := by
    simp only [cmd_frame, cmd_head, peek, u8_natCast]
    simp; omega
  have h8 : peek (cmd_frame w op unit block count mod) 8 = count % 256 := by
    simp [cmd_frame, cmd_head, peek, lo_natCast]
  have h9 : peek (cmd_frame w op unit block count mod) 9 = count / 256 := by
    simp only [cmd_frame, cmd_head, peek, hi_natCast]
    simp; omega
  unfold end_result
  rw [htake, h12, h13, h2, h8, h9]
  simp only [ne_eq, not_true_eq_false, or_self, if_false]
  split_ifs
  · omega
  · rfl

/-- C6. CMD round trip: whatever frame `send_cmd` has written for an opcode and
unit in 0..255 and a count and block number in 0..65535, `recv_end` fed with
that frame finds the checksum valid (it does not return -2: it returns the count
when the opcode is END and -1 otherwise), and the fields it extracts from `CMD`
are the ones given to the encoder: byte 2 is the opcode, byte 4 the unit, the
word at bytes 8..9 the count and the word at bytes 10..11 the block number. -/
theorem cmd_round_trip (fuel : Nat) (w w1 wd : World) (op unit count block : Nat)
    (mod r : Int) (more : List Nat)
    (hop : op ≤ 255) (hunit : unit ≤ 255) (hcount : count ≤ 65535) (hblock : block ≤ 65535)
    (hacc : Accepting w.ttyWr) (hf : w.ttyWr.length + 1 < fuel)
    (hsend : send_cmd fuel w op unit block count mod = some (r, w1))
    (hav : avail wd.ttyIn = w1.ttyOut.drop w.ttyOut.length ++ more)
    (hfd : wd.ttyIn.length < fuel) :
    r = 0 ∧ (w1.ttyOut.drop w.ttyOut.length).length = 14 ∧
    ∃ wd1 : World,
      recv_end fuel wd = some (if op = CMD_END then (count : Int) else -1, wd1) ∧
      peek wd1.CMD 2 = op ∧ peek wd1.CMD 4 = unit ∧
      peek wd1.CMD 8 + peek wd1.CMD 9 * 256 = count ∧
      peek wd1.CMD 10 + peek wd1.CMD 11 * 256 = block := by
  rw [send_cmd_eq fuel w op unit block count mod hacc hf] at hsend
  simp only [Option.some.injEq, Prod.mk.injEq] at hsend
  obtain ⟨hr, hw1⟩ := hsend
  subst hw1
  simp only [List.drop_left] at hav ⊢
  refine ⟨hr.symm, cmd_frame_length _ _ _ _ _ _, ?_⟩
  rw [cmd_frame_cons] at hav
  have hlen : (cmd_frame w op unit block count mod).tail.length = 13 := by
    simp [cmd_frame, cmd_head]
  rw [recv_end_cmd fuel wd _ more hav hlen hfd, ← cmd_frame_cons,
    end_result_cmd_frame w op unit count block mod hop hcount]
  refine ⟨_, rfl, ?_, ?_, ?_, ?_⟩
  · simp only [← cmd_frame_cons, cmd_frame, cmd_head, peek, u8_natCast]
    simp; omega
  · simp only [← cmd_frame_cons, cmd_frame, cmd_head, peek, u8_natCast]
    simp; omega
  · simp only [← cmd_frame_cons, cmd_frame, cmd_head, peek, lo_natCast, hi_natCast]
    simp; omega
  · simp only [← cmd_frame_cons, cmd_frame, cmd_head, peek, lo_natCast, hi_natCast]
    simp; omega

/-- Witness of C6: an END frame (opcode 64, unit 1, count 512, block 7) encoded in
the start world and decoded from a line that delivers it in two pieces. -/
theorem cmd_round_trip_witness :
    (64 : Nat) ≤ 255 ∧ (1 : Nat) ≤ 255 ∧ (512 : Nat) ≤ 65535 ∧ (7 : Nat) ≤ 65535 ∧
    Accepting world0.ttyWr ∧ world0.ttyWr.length + 1 < 3 ∧
    send_cmd 3 world0 (64 : Nat) (1 : Nat) (7 : Nat) (512 : Nat) 0
      = some (sentEnd.1, sentEnd.2) ∧
    avail worldEcho.ttyIn = sentEnd.2.ttyOut.drop world0.ttyOut.length ++ [] ∧
    worldEcho.ttyIn.length < 3 ∧
    sentEnd.1 = 0 ∧ (sentEnd.2.ttyOut.drop world0.ttyOut.length).length = 14 ∧
    ∃ wd1 : World,
      recv_end 3 worldEcho = some (if 64 = CMD_END then ((512 : Nat) : Int) else -1, wd1) ∧
      peek wd1.CMD 2 = 64 ∧ peek wd1.CMD 4 = 1 ∧
      peek wd1.CMD 8 + peek wd1.CMD 9 * 256 = 512 ∧
      peek wd1.CMD 10 + peek wd1.CMD 11 * 256 = 7 :=
  ⟨by decide, by decide, by decide, by decide, fun e he => absurd he (List.not_mem_nil e),
   by decide, rfl, rfl, by decide,
   cmd_round_trip 3 world0 sentEnd.2 worldEcho 64 1 512 7 0 sentEnd.1 []
     (by decide) (by decide) (by decide) (by decide)
     (fun e he => absurd he (List.not_mem_nil e)) (by decide) rfl rfl (by decide)⟩

/-! ## Packet codec: the DATA decoder -/

/-- The serial line delivers a whole DATA packet (flag 1, length byte `n`, then
`n + 2` bytes): `recv_data` stores it in `BUF` and goes on to the checksum of
line 557. -/
theorem recv_data_frame (fuel : Nat) (w : World) (n : Nat) (body more : List Nat)
    (hav : avail w.ttyIn = 1 :: n :: body ++ more) (hlen : body.length = n + 2)
    (hf : w.ttyIn.length < fuel) :
    recv_data fuel w =
      let w5 : World := { w with
        RECV := 1
        BUF := 1 :: n :: body ++ w.BUF.drop (n + 4)
        ttyIn := rdRest (rdRest (rdRest w.ttyIn 1) 1) (n + 2)
        log := w.log ++ rdLog .tty w.ttyIn 1 ++ rdLog .tty (rdRest w.ttyIn 1) 1 ++
          rdLog .tty (rdRest (rdRest w.ttyIn 1) 1) (n + 2) }
      match cksum_buf w5.BUF (n + 2) with
      | none => none
      | some sum =>
        if peek w5.BUF (n + 2) ≠ lo sum ∨ peek w5.BUF (n + 3) ≠ hi sum then some (-2, w5)
        else
          match write_buf fuel w5 .std (body.take n) with
          | none => none
          | some (p, w6) => some ((p : Int), w6) := by
  have h1 := read_buf_eq fuel w .tty 1 (by simp [World.rdScript, hav]) (by simpa [World.rdScript])
  simp only [World.rdScript, hav, World.setRd, List.cons_append, List.take_succ_cons,
    List.take_zero] at h1
  have hav1 : avail (rdRest w.ttyIn 1) = n :: body ++ more := by
    rw [avail_rdRest _ 1 (by simp [hav]), hav]; simp
  have hf1 : (rdRest w.ttyIn 1).length < fuel :=
    Nat.lt_of_le_of_lt (rdRest_length_le _ _) hf
  have hav2 : avail (rdRest (rdRest w.ttyIn 1) 1) = body ++ more := by
    rw [avail_rdRest _ 1 (by simp [hav1]), hav1]; simp
  have hf2 : (rdRest (rdRest w.ttyIn 1) 1).length < fuel :=
    Nat.lt_of_le_of_lt (rdRest_length_le _ _) hf1
  have htk : List.take (n + 2) (body ++ more) = body := by
    rw [List.take_append_of_le_length (by omega), List.take_of_length_le (by omega)]
  have hbl1 : blit (blit w.BUF 0 [1]) 1 [n] = 1 :: n :: w.BUF.drop 2 := by
    rw [blit_flag]; simp
  have hbl : blit (1 :: n :: w.BUF.drop 2) 2 body = 1 :: n :: body ++ w.BUF.drop (n + 4) := by
    have := blit_flag_len w.BUF 1 n body
    rw [hbl1] at this
    rw [this, hlen]
    simp only [List.cons_append, List.cons.injEq, true_and]
    congr 2
    omega
  unfold recv_data
  rw [h1]
  simp only [headD_blit_one, List.length_singleton, Nat.lt_irrefl, if_false, PKT_DATA, if_true]
  rw [read_buf_eq fuel _ .tty 1 (by simp [World.rdScript, hav1])
    (by simpa [World.rdScript] using hf1)]
  simp only [World.rdScript, hav1, World.setRd, List.cons_append, List.take_succ_cons,
    List.take_zero, List.length_singleton, Nat.lt_irrefl, if_false, hbl1]
  have hpk : peek (1 :: n :: List.drop 2 w.BUF) 1 = n := by simp [peek]
  simp only [hpk]
  rw [read_buf_eq fuel _ .tty (n + 2) (by simp [World.rdScript, hav2, hlen])
    (by simpa [World.rdScript] using hf2)]
  simp only [World.rdScript, hav2, World.setRd, htk, hbl, hlen, Nat.lt_irrefl, if_false]
  have hdrop : List.take n (body ++ w.BUF.drop (n + 4)) = List.take n body := by
    rw [List.take_append_of_le_length (by omega)]
  have hpk5 : ∀ l : List Nat, peek (1 :: n :: l) 1 = n := by intro l; simp [peek]
  simp only [List.cons_append, hpk5, List.drop_succ_cons, List.drop_zero, hdrop,
    List.append_assoc]

/-- A DATA packet whose length byte is odd: the checksum of line 557 runs over an
odd count and `recv_data` does not return. -/
theorem recv_data_odd (fuel : Nat) (w : World) (n : Nat) (body more : List Nat)
    (hav : avail w.ttyIn = 1 :: n :: body ++ more) (hlen : body.length = n + 2)
    (hf : w.ttyIn.length < fuel) (hodd : n % 2 = 1) :
    recv_data fuel w = none := by
  rw [recv_data_frame fuel w n body more hav hlen hf]
  simp only [cksum_buf_odd _ (n + 2) (by omega)]

/-! ## Packet codec: the DATA encoder -/

theorem toSize_natCast (n : Nat) (h : n < 2 ^ 64) : toSize (n : Int) = n := by
  unfold toSize; omega

/-- A payload of odd length: the checksum of line 504 runs over an odd count and
`send_data` does not return. -/
theorem send_data_odd (fuel : Nat) (w : World) (k : Nat) (payload more : List Nat)
    (hk : 2 * k + 1 < 2 ^ 31) (hav : avail w.stdIn = payload ++ more)
    (hlen : payload.length = 2 * k + 1) (hf : w.stdIn.length < fuel) :
    send_data fuel w ((2 * k + 1 : Nat) : Int) = none := by
  have hts : toSize ((2 * k + 1 : Nat) : Int) = 2 * k + 1 := toSize_natCast _ (by omega)
  have hts2 : toSize (((2 * k + 1 : Nat) : Int) + 2) = 2 * k + 3 := by
    unfold toSize; omega
  have htk : List.take (2 * k + 1) (payload ++ more) = payload := by
    rw [List.take_append_of_le_length (by omega), List.take_of_length_le (by omega)]
  unfold send_data
  simp only [hts]
  rw [read_buf_eq fuel _ .std (2 * k + 1) (by simp [World.rdScript, hav, hlen])
    (by simpa [World.rdScript] using hf)]
  simp only [World.rdScript, hav, World.setRd, htk, hlen, lt_self_iff_false, if_false, hts2,
    cksum_buf_odd _ (2 * k + 3) (by omega)]

/-- C4 (code defect). The DATA round trip fails for payloads of odd length. For
the one-byte payload `[7]` the encoder `send_data` never returns (its checksum
call runs over 3 bytes and overruns, see C1 and C2), so no packet is built; and
the decoder `recv_data`, fed with the packet that the wire format defines for
that payload, never returns either, so the payload is not forwarded. -/
theorem data_round_trip_odd_payload :
    (∀ fuel : Nat, send_data fuel worldOddIn 1 = none) ∧
    (∀ fuel : Nat, recv_data fuel worldOddPkt = none) := by
  constructor
  · intro fuel
    match fuel with
    | 0 => rfl
    | 1 => rfl
    | f + 2 =>
      exact send_data_odd (f + 2) worldOddIn 0 [7] [] (by decide) rfl rfl
        (by show 1 < f + 2; omega)
  · intro fuel
    match fuel with
    | 0 => rfl
    | 1 => rfl
    | f + 2 =>
      exact recv_data_odd (f + 2) worldOddPkt 1 [7, 8, 1] [] rfl rfl
        (by show 1 < f + 2; omega) (by decide)

/-- C10 (code defect). A fully received DATA packet whose length byte is odd and
whose checksum bytes are wrong is not answered with the corrupt-frame code -2:
on the packet `[1, 1, 7, 0, 0]` the checksum call of `recv_data` overruns (see
C1 and C2) and `recv_data` never returns. -/
theorem recv_data_corrupt_odd_packet :
    ∀ fuel : Nat, recv_data fuel worldOddBad = none := by
  intro fuel
  match fuel with
  | 0 => rfl
  | 1 => rfl
  | f + 2 =>
    exact recv_data_odd (f + 2) worldOddBad 1 [7, 0, 0] [] rfl rfl
      (by show 1 < f + 2; omega) (by decide)

/-! ## Command sequencer: the count guard and the segment length -/

/-- C8. READ and WRITE reject an out-of-range count before any transfer: when
`count < 0` or `count > BCOUNT - BNUM`, `do_read` and `do_write` return -1 and
leave the world as it was (no system call in the log, same block position);
every other count goes on to the segment loop. With the position on the last
block (`BNUM = BCOUNT - 1`), count 1 passes the guard and count 2 is rejected.
This holds for every block size and block count, so for 128/2048 and
512/512. -/
theorem transfer_count_guard (fuel : Nat) (w : World) (count mode : Int) :
    ((count < 0 ∨ count > w.BCOUNT - w.BNUM) →
      do_read fuel w count mode = some (-1, w) ∧ do_write fuel w count mode = some (-1, w)) ∧
    (¬ (count < 0 ∨ count > w.BCOUNT - w.BNUM) →
      do_read fuel w count mode = read_segments fuel fuel w count mode ∧
      do_write fuel w count mode = write_segments fuel fuel w count mode) ∧
    (w.BNUM = w.BCOUNT - 1 →
      do_read fuel w 1 mode = read_segments fuel fuel w 1 mode ∧
      do_write fuel w 1 mode = write_segments fuel fuel w 1 mode ∧
      do_read fuel w 2 mode = some (-1, w) ∧ do_write fuel w 2 mode = some (-1, w)) := by
  refine ⟨?_, ?_, ?_⟩
  · intro h
    have : count_rejected w count = true := by
      simp only [count_rejected, Bool.or_eq_true, decide_eq_true_eq]; exact h
    simp [do_read, do_write, this]
  · intro h
    have : count_rejected w count = false := by
      rw [← Bool.not_eq_true]
      simp only [count_rejected, Bool.or_eq_true, decide_eq_true_eq]; exact h
    simp [do_read, do_write, this]
  · intro h
    have h1 : count_rejected w 1 = false := by
      rw [← Bool.not_eq_true]
      simp only [count_rejected, Bool.or_eq_true, decide_eq_true_eq]; omega
    have h2 : count_rejected w 2 = true := by
      simp only [count_rejected, Bool.or_eq_true, decide_eq_true_eq]; omega
    simp [do_read, do_write, h1, h2]

/-- Witness of C8 on the last block of a tape of 512 blocks: a count of 2 (and a
count of -1) is rejected, a count of 1 goes on to the segment loop. -/
theorem transfer_count_guard_witness :
    (((2 : Int) < 0 ∨ (2 : Int) > worldLast.BCOUNT - worldLast.BNUM) →
      do_read 9 worldLast 2 0 = some (-1, worldLast) ∧
      do_write 9 worldLast 2 0 = some (-1, worldLast)) ∧
    (¬ ((2 : Int) < 0 ∨ (2 : Int) > worldLast.BCOUNT - worldLast.BNUM) →
      do_read 9 worldLast 2 0 = read_segments 9 9 worldLast 2 0 ∧
      do_write 9 worldLast 2 0 = write_segments 9 9 worldLast 2 0) ∧
    (worldLast.BNUM = worldLast.BCOUNT - 1 →
      do_read 9 worldLast 1 0 = read_segments 9 9 worldLast 1 0 ∧
      do_write 9 worldLast 1 0 = write_segments 9 9 worldLast 1 0 ∧
      do_read 9 worldLast 2 0 = some (-1, worldLast) ∧
      do_write 9 worldLast 2 0 = some (-1, worldLast)) ∧
    ((2 : Int) < 0 ∨ (2 : Int) > worldLast.BCOUNT - worldLast.BNUM) ∧
    worldLast.BNUM = worldLast.BCOUNT - 1 :=
  ⟨(transfer_count_guard 9 worldLast 2 0).1, (transfer_count_guard 9 worldLast 2 0).2.1,
   (transfer_count_guard 9 worldLast 2 0).2.2, by decide, by decide⟩

theorem toSize_eq (x : Int) (h0 : 0 ≤ x) (h1 : x < 2 ^ 64) : toSize x = x.toNat := by
  unfold toSize
  rw [Int.emod_eq_of_lt h0 h1]

theorem toInt32_eq (n : Nat) (h : n < 2 ^ 31) : toInt32 n = n := by
  unfold toInt32
  norm_num at h ⊢
  omega

theorem seg_len_eq (bs : Nat) (count : Int) (hbs : bs = 128 ∨ bs = 512)
    (h1 : 1 ≤ count) (h2 : count ≤ 2048) :
    seg_len bs count = if count * bs > 65535 then 65536 - (bs : Int) else count * bs := by
  have hts := toSize_eq count (by omega) (by norm_num; omega)
  rcases hbs with rfl | rfl
  · have ha : (count.toNat * (128 % 2 ^ 64)) % 2 ^ 64 = count.toNat * 128 := by
      norm_num; omega
    have hb : (65536 + 2 ^ 64 - 128 % 2 ^ 64) % 2 ^ 64 = 65408 := by norm_num
    have hc : toInt32 (count.toNat * 128) = count * 128 := by
      rw [toInt32_eq _ (by norm_num; omega)]; push_cast; omega
    have hd : toInt32 65408 = 65408 := by rw [toInt32_eq _ (by norm_num)]; rfl
    simp only [seg_len, hts, ha, hb, hc, hd]
    norm_num
  · have ha : (count.toNat * (512 % 2 ^ 64)) % 2 ^ 64 = count.toNat * 512 := by
      norm_num; omega
    have hb : (65536 + 2 ^ 64 - 512 % 2 ^ 64) % 2 ^ 64 = 65024 := by norm_num
    have hc : toInt32 (count.toNat * 512) = count * 512 := by
      rw [toInt32_eq _ (by norm_num; omega)]; push_cast; omega
    have hd : toInt32 65024 = 65024 := by rw [toInt32_eq _ (by norm_num)]; rfl
    simp only [seg_len, hts, ha, hb, hc, hd]
    norm_num

theorem seg_blocks_eq (bs : Nat) (len : Int) (hbs : bs = 128 ∨ bs = 512)
    (h0 : 0 ≤ len) (h1 : len ≤ 65535) :
    seg_blocks bs len = len / bs := by
  have hts := toSize_eq len h0 (by norm_num; omega)
  rcases hbs with rfl | rfl
  · have hm : (128 : Nat) % 2 ^ 64 = 128 := by norm_num
    simp only [seg_blocks, hts, hm]
    rw [toInt32_eq _ (by norm_num; omega)]
    push_cast
    omega
  · have hm : (512 : Nat) % 2 ^ 64 = 512 := by norm_num
    simp only [seg_blocks, hts, hm]
    rw [toInt32_eq _ (by norm_num; omega)]
    push_cast
    omega

theorem segment_length_pos (w : World) (count : Int)
    (hbs : (w.BSIZE = 128 ∧ count ≤ 2048) ∨ (w.BSIZE = 512 ∧ count ≤ 512))
    (h1 : 1 ≤ count) : 0 < seg_len w.BSIZE count := by
  have hb12 : w.BSIZE = 128 ∨ w.BSIZE = 512 := by rcases hbs with h | h <;> simp [h.1]
  have hc2 : count ≤ 2048 := by rcases hbs with h | h <;> omega
  rw [seg_len_eq w.BSIZE count hb12 h1 hc2]
  rcases hb12 with hb | hb <;> rw [hb] <;> push_cast <;> split_ifs <;> omega

/-- C9. Segment length: for block size `bs` in {128, 512} and every remaining
count from 1 up to the block count, the length that `do_read` and `do_write`
compute for a segment (lines 382-383 and 407-408) and place in bytes 8..9 of the
CMD frame equals `min (count * bs) (65536 - bs)`; it is positive, an exact
multiple of `bs` (it is `seg_blocks` whole blocks), at most 65535, and for
`bs = 512` at most 128 blocks. -/
theorem segment_length (w : World) (count unit block mode : Int)
    (hbs : (w.BSIZE = 128 ∧ count ≤ 2048) ∨ (w.BSIZE = 512 ∧ count ≤ 512))
    (h1 : 1 ≤ count) :
    seg_len w.BSIZE count = min (count * w.BSIZE) (65536 - (w.BSIZE : Int)) ∧
    0 < seg_len w.BSIZE count ∧
    seg_len w.BSIZE count ≤ 65535 ∧
    seg_len w.BSIZE count = seg_blocks w.BSIZE (seg_len w.BSIZE count) * w.BSIZE ∧
    (w.BSIZE = 512 → seg_blocks w.BSIZE (seg_len w.BSIZE count) ≤ 128) ∧
    (peek (cmd_frame w CMD_READ unit block (seg_len w.BSIZE count) mode) 8 : Int) +
      256 * peek (cmd_frame w CMD_READ unit block (seg_len w.BSIZE count) mode) 9
        = seg_len w.BSIZE count ∧
    (peek (cmd_frame w CMD_WRITE unit block (seg_len w.BSIZE count) mode) 8 : Int) +
      256 * peek (cmd_frame w CMD_WRITE unit block (seg_len w.BSIZE count) mode) 9
        = seg_len w.BSIZE count := by
  have hpk : ∀ op : Int, ∀ x : Int, 0 ≤ x → x ≤ 65535 →
      (peek (cmd_frame w op unit block x mode) 8 : Int) +
        256 * peek (cmd_frame w op unit block x mode) 9 = x := by
    intro op x hx0 hx1
    simp only [cmd_frame, cmd_head, peek, lo, hi]
    simp
    omega
  have hb12 : w.BSIZE = 128 ∨ w.BSIZE = 512 := by rcases hbs with h | h <;> simp [h.1]
  have hc2 : count ≤ 2048 := by rcases hbs with h | h <;> omega
  have hl := seg_len_eq w.BSIZE count hb12 h1 hc2
  have hle : seg_len w.BSIZE count ≤ 65535 ∧ 0 < seg_len w.BSIZE count ∧
      seg_len w.BSIZE count % (w.BSIZE : Int) = 0 := by
    rw [hl]
    rcases hb12 with hb | hb <;> rw [hb] <;> push_cast <;> split_ifs <;> omega
  have hblk := seg_blocks_eq w.BSIZE (seg_len w.BSIZE count) hb12 (by omega) hle.1
  refine ⟨?_, hle.2.1, hle.1, ?_, ?_, hpk _ _ (by omega) hle.1, hpk _ _ (by omega) hle.1⟩
  · rw [hl]
    rcases hb12 with hb | hb <;> rw [hb] <;> push_cast <;> split_ifs <;> omega
  · rw [hblk]
    have := hle.2.2
    rcases hb12 with hb | hb <;> rw [hb] at this ⊢ <;> push_cast at this ⊢ <;> omega
  · intro hb
    rw [hblk]
    have := hle.1
    rw [hb] at this ⊢
    push_cast
    omega

/-- Witness of C9: block size 512 and 200 blocks to go; the segment is 65024
bytes, 127 blocks. -/
theorem segment_length_witness :
    ((world0.BSIZE = 128 ∧ (200 : Int) ≤ 2048) ∨ (world0.BSIZE = 512 ∧ (200 : Int) ≤ 512)) ∧
    (1 : Int) ≤ 200 ∧
    seg_len world0.BSIZE 200 = min ((200 : Int) * world0.BSIZE) (65536 - (world0.BSIZE : Int)) ∧
    0 < seg_len world0.BSIZE 200 ∧
    seg_len world0.BSIZE 200 ≤ 65535 ∧
    seg_len world0.BSIZE 200
      = seg_blocks world0.BSIZE (seg_len world0.BSIZE 200) * world0.BSIZE ∧
    (world0.BSIZE = 512 → seg_blocks world0.BSIZE (seg_len world0.BSIZE 200) ≤ 128) ∧
    (peek (cmd_frame world0 CMD_READ 0 0 (seg_len world0.BSIZE 200) 0) 8 : Int) +
      256 * peek (cmd_frame world0 CMD_READ 0 0 (seg_len world0.BSIZE 200) 0) 9
        = seg_len world0.BSIZE 200 ∧
    (peek (cmd_frame world0 CMD_WRITE 0 0 (seg_len world0.BSIZE 200) 0) 8 : Int) +
      256 * peek (cmd_frame world0 CMD_WRITE 0 0 (seg_len world0.BSIZE 200) 0) 9
        = seg_len world0.BSIZE 200 :=
  ⟨Or.inr ⟨rfl, by decide⟩, by decide,
   segment_length world0 200 0 0 0 (Or.inr ⟨rfl, by decide⟩) (by decide)⟩

/-! ## Supporting lemmas: what holds of the checksum check on the code -/

/-- A fully received CMD frame whose checksum bytes are wrong makes `recv_end`
return -2, whatever its opcode (also END): the comparison of line 537 comes
before the opcode test of line 538. -/
theorem recv_end_corrupt (fuel : Nat) (w : World) (body more : List Nat)
    (hav : avail w.ttyIn = 2 :: body ++ more) (hlen : body.length = 13)
    (hf : w.ttyIn.length < fuel)
    (hbad : peek (2 :: body) 12 ≠ lo (wordsum ((2 :: body).take 12) 0) ∨
      peek (2 :: body) 13 ≠ hi (wordsum ((2 :: body).take 12) 0)) :
    recv_end fuel w =
      some (-2, { w with
        RECV := 2
        CMD := 2 :: body ++ w.CMD.drop 14
        ttyIn := rdRest (rdRest w.ttyIn 1) 13
        log := w.log ++ rdLog .tty w.ttyIn 1 ++ rdLog .tty (rdRest w.ttyIn 1) 13 }) := by
  rw [recv_end_cmd fuel w body more hav hlen hf]
  simp only [end_result, ne_eq, hbad, if_true]

/-- A fully received DATA packet whose length byte `n` is even: `recv_data`
returns -2 and writes nothing when the two checksum bytes differ from the word
sum of flag, length and payload, and otherwise writes the `n` payload bytes to
standard output and returns `n`. -/
theorem recv_data_even (fuel : Nat) (w : World) (n : Nat) (body more : List Nat)
    (hav : avail w.ttyIn = 1 :: n :: body ++ more) (hlen : body.length = n + 2)
    (hf : w.ttyIn.length < fuel) (heven : n % 2 = 0) (hn : n < 256)
    (hacc : Accepting w.stdWr) (hfw : w.stdWr.length + 1 < fuel) :
    recv_data fuel w =
      let w5 : World := { w with
        RECV := 1
        BUF := 1 :: n :: body ++ w.BUF.drop (n + 4)
        ttyIn := rdRest (rdRest (rdRest w.ttyIn 1) 1) (n + 2)
        log := w.log ++ rdLog .tty w.ttyIn 1 ++ rdLog .tty (rdRest w.ttyIn 1) 1 ++
          rdLog .tty (rdRest (rdRest w.ttyIn 1) 1) (n + 2) }
      if peek body n ≠ lo (wordsum (1 :: n :: body.take n) 0) ∨
          peek body (n + 1) ≠ hi (wordsum (1 :: n :: body.take n) 0) then
        some (-2, w5)
      else
        some ((n : Int), { w5 with
          stdWr := wrRest w.stdWr n
          stdOut := w.stdOut ++ body.take n
          log := w5.log ++ wrLog .std w.stdWr (body.take n) }) := by
  rw [recv_data_frame fuel w n body more hav hlen hf]
  have hck : cksum_buf (1 :: n :: body ++ w.BUF.drop (n + 4)) (n + 2)
      = some (wordsum (1 :: n :: body.take n) 0) := by
    rw [cksum_buf_take _ (n + 2) (by omega) (by simp [hlen]; omega) (by omega)]
    simp only [List.cons_append, List.take_succ_cons]
    rw [List.take_append_of_le_length (by omega)]
  have hp0 : peek (1 :: n :: body ++ w.BUF.drop (n + 4)) (n + 2) = peek body n := by
    have := peek_append_right [1, n] (body ++ w.BUF.drop (n + 4)) n
    simp only [List.length_cons, List.length_nil, List.cons_append, List.nil_append] at this
    rw [show n + 2 = 0 + 1 + 1 + n by omega]
    simp only [List.cons_append]
    rw [this]
    exact peek_append_left _ _ _ (by omega)
  have hp1 : peek (1 :: n :: body ++ w.BUF.drop (n + 4)) (n + 3) = peek body (n + 1) := by
    have := peek_append_right [1, n] (body ++ w.BUF.drop (n + 4)) (n + 1)
    simp only [List.length_cons, List.length_nil, List.cons_append, List.nil_append] at this
    rw [show n + 3 = 0 + 1 + 1 + (n + 1) by omega]
    simp only [List.cons_append]
    rw [this]
    exact peek_append_left _ _ _ (by omega)
  have hlt : (List.take n body).length = n := by rw [List.length_take]; omega
  simp only [hck, hp0, hp1]
  split_ifs with hbad
  · rfl
  · rw [write_buf_eq fuel _ .std _ (by simpa [World.wrScript] using hacc)
      (by simpa [World.wrScript] using hfw)]
    simp only [World.wrScript, World.setWr, hlt]

/-- A payload of even length on standard input and a serial line that accepts
the writes: `send_data` returns 0 after it has written the DATA packet of the
payload. -/
theorem send_data_even (fuel : Nat) (w : World) (payload more : List Nat)
    (hav : avail w.stdIn = payload ++ more)
    (heven : payload.length % 2 = 0) (hn : payload.length < 256)
    (hf : w.stdIn.length < fuel)
    (hacc : Accepting w.ttyWr) (hfw : w.ttyWr.length + 1 < fuel) :
    send_data fuel w (payload.length : Int) =
      some (0, { w with
        BUF := data_packet payload ++ w.BUF.drop (payload.length + 4)
        stdIn := rdRest w.stdIn payload.length
        ttyWr := wrRest w.ttyWr (payload.length + 4)
        ttyOut := w.ttyOut ++ data_packet payload
        log := w.log ++ rdLog .std w.stdIn payload.length ++
          wrLog .tty w.ttyWr (data_packet payload) }) := by
  have hts : toSize (payload.length : Int) = payload.length := toSize_natCast _ (by omega)
  have hts2 : toSize ((payload.length : Int) + 2) = payload.length + 2 := by
    unfold toSize; omega
  have hts3 : toSize ((payload.length : Int) + 3) = payload.length + 3 := by
    unfold toSize; omega
  have hts4 : toSize ((payload.length : Int) + 4) = payload.length + 4 := by
    unfold toSize; omega
  have hu8 : u8 (payload.length : Int) = payload.length := by
    rw [u8_natCast]; omega
  have htk : List.take payload.length (payload ++ more) = payload := by
    rw [List.take_append_of_le_length (by omega), List.take_of_length_le (by omega)]
  have hbl1 : blit (blit w.BUF 0 [PKT_DATA]) 1 [payload.length]
      = 1 :: payload.length :: w.BUF.drop 2 := by
    rw [blit_flag]; simp [PKT_DATA]
  have hbl2 : blit (1 :: payload.length :: w.BUF.drop 2) 2 payload
      = (1 :: payload.length :: payload) ++ w.BUF.drop (2 + payload.length) := by
    have := blit_flag_len w.BUF 1 payload.length payload
    rw [← hbl1]
    simpa [PKT_DATA] using this
  have hlen2 : (1 :: payload.length :: payload).length = payload.length + 2 := by simp
  have hck : cksum_buf ((1 :: payload.length :: payload) ++ w.BUF.drop (2 + payload.length))
      (payload.length + 2) = some (wordsum (1 :: payload.length :: payload) 0) := by
    have := cksum_buf_even (1 :: payload.length :: payload) (w.BUF.drop (2 + payload.length))
      (by rw [hlen2]; omega) (by rw [hlen2]; omega)
    rwa [hlen2] at this
  have hbl3 : blit ((1 :: payload.length :: payload) ++ w.BUF.drop (2 + payload.length))
      (payload.length + 2) [lo (wordsum (1 :: payload.length :: payload) 0)]
      = (1 :: payload.length :: payload ++ [lo (wordsum (1 :: payload.length :: payload) 0)])
        ++ w.BUF.drop (3 + payload.length) := by
    have := blit_append (1 :: payload.length :: payload) (w.BUF.drop (2 + payload.length))
      [lo (wordsum (1 :: payload.length :: payload) 0)]
    rw [hlen2] at this
    rw [this]
    simp only [List.length_singleton, List.drop_drop, List.append_assoc, List.cons_append]
    rw [show 2 + payload.length + 1 = 3 + payload.length by omega]
  have hlen3 : (1 :: payload.length :: payload
      ++ [lo (wordsum (1 :: payload.length :: payload) 0)]).length = payload.length + 3 := by
    simp
  have hbl4 : blit ((1 :: payload.length :: payload
        ++ [lo (wordsum (1 :: payload.length :: payload) 0)])
        ++ w.BUF.drop (3 + payload.length))
      (payload.length + 3) [hi (wordsum (1 :: payload.length :: payload) 0)]
      = data_packet payload ++ w.BUF.drop (payload.length + 4) := by
    have := blit_append (1 :: payload.length :: payload
        ++ [lo (wordsum (1 :: payload.length :: payload) 0)])
      (w.BUF.drop (3 + payload.length))
      [hi (wordsum (1 :: payload.length :: payload) 0)]
    rw [hlen3] at this
    rw [this]
    simp only [List.length_singleton, List.drop_drop, List.append_assoc, List.cons_append,
      data_packet, List.singleton_append]
    rw [show 3 + payload.length + 1 = payload.length + 4 by omega]
    simp
  have hpl : (data_packet payload).length = payload.length + 4 := by
    simp [data_packet]
  have htk4 : List.take (payload.length + 4)
      (data_packet payload ++ w.BUF.drop (payload.length + 4)) = data_packet payload := by
    rw [List.take_append_of_le_length (by omega), List.take_of_length_le (by omega)]
  unfold send_data
  simp only [hts, hu8, hbl1]
  rw [read_buf_eq fuel _ .std payload.length (by simp [World.rdScript, hav])
    (by simpa [World.rdScript] using hf)]
  simp only [World.rdScript, hav, World.setRd, htk, lt_self_iff_false, if_false, hts2, hts3,
    hts4, hbl2, hck, hbl3, hbl4, htk4]
  rw [write_buf_eq fuel _ .tty _ (by simpa [World.wrScript] using hacc)
    (by simpa [World.wrScript] using hfw)]
  simp only [World.wrScript, World.setWr, hpl]
  have : ¬ (((payload.length + 4 : Nat) : Int) < (payload.length : Int) + 4) := by
    push_cast; omega
  simp only [this, if_false, List.append_assoc]

/-- The DATA round trip on the code, for the payloads it does handle: a payload
of even length (below 256) that `send_data` takes from standard input is written
as one packet, and `recv_data` fed with the bytes written returns the payload
length and writes exactly the payload to standard output. -/
theorem data_round_trip_even (fuel : Nat) (w wd : World) (payload more more2 : List Nat)
    (hav : avail w.stdIn = payload ++ more)
    (heven : payload.length % 2 = 0) (hn : payload.length < 256)
    (hf : w.stdIn.length < fuel)
    (hacc : Accepting w.ttyWr) (hfw : w.ttyWr.length + 1 < fuel)
    (hav2 : avail wd.ttyIn = data_packet payload ++ more2)
    (hfd : wd.ttyIn.length < fuel)
    (hacc2 : Accepting wd.stdWr) (hfw2 : wd.stdWr.length + 1 < fuel) :
    (∃ w1, send_data fuel w (payload.length : Int) = some (0, w1) ∧
      w1.ttyOut = w.ttyOut ++ data_packet payload) ∧
    (∃ wd1, recv_data fuel wd = some ((payload.length : Int), wd1) ∧
      wd1.stdOut = wd.stdOut ++ payload) := by
  refine ⟨⟨_, send_data_even fuel w payload more hav heven hn hf hacc hfw, rfl⟩, ?_⟩
  have hav3 : avail wd.ttyIn = 1 :: payload.length :: (payload ++
      [lo (wordsum (1 :: payload.length :: payload) 0),
       hi (wordsum (1 :: payload.length :: payload) 0)]) ++ more2 := by
    rw [hav2]; simp [data_packet]
  have hrd := recv_data_even fuel wd payload.length _ more2 hav3 (by simp) hfd heven hn
    hacc2 hfw2
  have htk : List.take payload.length (payload ++
      [lo (wordsum (1 :: payload.length :: payload) 0),
       hi (wordsum (1 :: payload.length :: payload) 0)]) = payload := by
    rw [List.take_append_of_le_length (by omega), List.take_of_length_le (by omega)]
  have hp0 : peek (payload ++
      [lo (wordsum (1 :: payload.length :: payload) 0),
       hi (wordsum (1 :: payload.length :: payload) 0)]) payload.length
      = lo (wordsum (1 :: payload.length :: payload) 0) := by
    have := peek_append_right payload
      [lo (wordsum (1 :: payload.length :: payload) 0),
       hi (wordsum (1 :: payload.length :: payload) 0)] 0
    simpa [peek] using this
  have hp1 : peek (payload ++
      [lo (wordsum (1 :: payload.length :: payload) 0),
       hi (wordsum (1 :: payload.length :: payload) 0)]) (payload.length + 1)
      = hi (wordsum (1 :: payload.length :: payload) 0) := by
    have := peek_append_right payload
      [lo (wordsum (1 :: payload.length :: payload) 0),
       hi (wordsum (1 :: payload.length :: payload) 0)] 1
    simpa [peek] using this
  simp only [htk, hp0, hp1, ne_eq, not_true_eq_false, or_self, if_false] at hrd
  exact ⟨_, hrd, rfl⟩


/-! ## Transport I/O: end of stream -/

/-- At end of stream every `read` returns 0, which `read_buf` adds to `p` and
subtracts from `count` before it loops again: the loop never ends. -/
theorem read_loop_eof (fuel : Nat) :
    ∀ (w : World) (fd : Fd) (n : Nat) (got : List Nat),
      w.rdScript fd = [] → read_loop fuel w fd (n + 1) got = none := by
  induction fuel with
  | zero => intro w fd n got _; rfl
  | succ f ih =>
    intro w fd n got hs
    have hstep : sys_read w fd (n + 1) =
        (some [], { w.setRd fd [] with log := w.log ++ [Sys.rd fd (n + 1) (some [])] }) := by
      simp [sys_read, hs, rdStep]
    have hscr : ({ w.setRd fd [] with
        log := w.log ++ [Sys.rd fd (n + 1) (some [])] } : World).rdScript fd = [] := by
      cases fd <;> simp [World.setRd, World.rdScript]
    have := ih _ fd n (got ++ []) hscr
    simp only [read_loop, Nat.zero_lt_succ, if_true, hstep, List.length_nil, Nat.sub_zero, this]

/-- C17 (code defect). `read_buf` does not fail on end of stream: when the
descriptor is at end of stream before the `n + 1` bytes asked for have arrived,
every `read` returns 0 and `read_buf` loops for ever instead of returning a
short count (only a `read` that returns -1 leaves the loop). This holds for
standard input and for the serial line, in every world and for every fuel. A
single `read` that returns 0 in the middle of the input is passed over in the
same way: the call goes on and returns the full count. -/
theorem read_buf_spins_at_end_of_stream :
    (∀ (fuel : Nat) (w : World) (n : Nat),
      read_buf fuel { w with stdIn := [] } .std (n + 1) = none) ∧
    (∀ (fuel : Nat) (w : World) (n : Nat),
      read_buf fuel { w with ttyIn := [] } .tty (n + 1) = none) ∧
    (read_buf 3 { world0 with stdIn := [.data [], .data [7]] } .std 1).map (fun r => r.1)
      = some [7] :=
  ⟨fun fuel w n => read_loop_eof fuel _ .std n [] rfl,
   fun fuel w n => read_loop_eof fuel _ .tty n [] rfl,
   by rw [read_buf_eq 3 _ .std 1 (by decide) (by decide)]; rfl⟩


/-! ## Packet codec: the length byte of a DATA packet -/

theorem data_packet_length (payload : List Nat) :
    (data_packet payload).length = payload.length + 4 := by
  simp [data_packet]

/-- The serial line delivers the DATA packet of a payload of even length (any
length below 256) and standard output accepts the writes: `recv_data` returns
the payload length after it has written the payload to standard output. -/
theorem recv_data_packet (fuel : Nat) (w : World) (payload more : List Nat)
    (hav : avail w.ttyIn = data_packet payload ++ more)
    (hf : w.ttyIn.length < fuel) (heven : payload.length % 2 = 0) (hn : payload.length < 256)
    (hacc : Accepting w.stdWr) (hfw : w.stdWr.length + 1 < fuel) :
    recv_data fuel w =
      some ((payload.length : Int), { w with
        RECV := 1
        BUF := data_packet payload ++ w.BUF.drop (payload.length + 4)
        ttyIn := rdRest (rdRest (rdRest w.ttyIn 1) 1) (payload.length + 2)
        stdWr := wrRest w.stdWr payload.length
        stdOut := w.stdOut ++ payload
        log := w.log ++ rdLog .tty w.ttyIn 1 ++ rdLog .tty (rdRest w.ttyIn 1) 1 ++
          rdLog .tty (rdRest (rdRest w.ttyIn 1) 1) (payload.length + 2) ++
          wrLog .std w.stdWr payload }) := by
  have hav3 : avail w.ttyIn = 1 :: payload.length :: (payload ++
      [lo (wordsum (1 :: payload.length :: payload) 0),
       hi (wordsum (1 :: payload.length :: payload) 0)]) ++ more := by
    rw [hav]; simp [data_packet]
  have hrd := recv_data_even fuel w payload.length _ more hav3 (by simp) hf heven hn hacc hfw
  have htk : List.take payload.length (payload ++
      [lo (wordsum (1 :: payload.length :: payload) 0),
       hi (wordsum (1 :: payload.length :: payload) 0)]) = payload := by
    rw [List.take_append_of_le_length (by omega), List.take_of_length_le (by omega)]
  have hp0 : peek (payload ++
      [lo (wordsum (1 :: payload.length :: payload) 0),
       hi (wordsum (1 :: payload.length :: payload) 0)]) payload.length
      = lo (wordsum (1 :: payload.length :: payload) 0) := by
    have := peek_append_right payload
      [lo (wordsum (1 :: payload.length :: payload) 0),
       hi (wordsum (1 :: payload.length :: payload) 0)] 0
    simpa [peek] using this
  have hp1 : peek (payload ++
      [lo (wordsum (1 :: payload.length :: payload) 0),
       hi (wordsum (1 :: payload.length :: payload) 0)]) (payload.length + 1)
      = hi (wordsum (1 :: payload.length :: payload) 0) := by
    have := peek_append_right payload
      [lo (wordsum (1 :: payload.length :: payload) 0),
       hi (wordsum (1 :: payload.length :: payload) 0)] 1
    simpa [peek] using this
  simp only [htk, hp0, hp1, ne_eq, not_true_eq_false, or_self, if_false] at hrd
  rw [hrd]
  simp [data_packet]

theorem avail_rdRest2 (s : List RdEv) (a b : Nat) (h : a + b ≤ (avail s).length) :
    avail (rdRest (rdRest s a) b) = (avail s).drop (a + b) := by
  have h1 : avail (rdRest s a) = (avail s).drop a := avail_rdRest s a (by omega)
  have h2 : b ≤ (avail (rdRest s a)).length := by
    rw [h1, List.length_drop]; omega
  rw [avail_rdRest _ b h2, h1, List.drop_drop, Nat.add_comm]

theorem avail_rdRest3 (s : List RdEv) (a b c : Nat) (h : a + b + c ≤ (avail s).length) :
    avail (rdRest (rdRest (rdRest s a) b) c) = (avail s).drop (a + b + c) := by
  have h1 : avail (rdRest (rdRest s a) b) = (avail s).drop (a + b) :=
    avail_rdRest2 s a b (by omega)
  have h2 : c ≤ (avail (rdRest (rdRest s a) b)).length := by
    rw [h1, List.length_drop]; omega
  rw [avail_rdRest _ c h2, h1, List.drop_drop, Nat.add_comm]

/-- C19, counterexample. A received DATA frame whose length byte is 130, greater
than 128, is not rejected: `recv_data` returns 130 and forwards the 130 payload
bytes to standard output. -/
theorem recv_data_accepts_length_130 :
    (recv_data 3 worldLong).map (fun r => (r.1, r.2.stdOut))
      = some (130, List.replicate 130 5) := by
  rw [recv_data_packet 3 worldLong (List.replicate 130 5) [] rfl (by decide) (by simp)
    (by simp) (fun e he => absurd he (List.not_mem_nil e)) (by decide)]
  rfl

/-- C19, amended. The DATA decoder has no check of the length byte: for every
received DATA frame whose length byte `n` is even, also when `n` is greater than
128 (up to 254), and whose trailing checksum is correct, `recv_data` accepts the
frame: it returns `n` and forwards the `n` payload bytes to the output. -/
theorem recv_data_accepts_every_even_length (fuel : Nat) (w : World)
    (payload more : List Nat)
    (hav : avail w.ttyIn = data_packet payload ++ more)
    (hf : w.ttyIn.length < fuel) (heven : payload.length % 2 = 0) (hn : payload.length < 256)
    (hacc : Accepting w.stdWr) (hfw : w.stdWr.length + 1 < fuel) :
    ∃ w1 : World, recv_data fuel w = some ((payload.length : Int), w1) ∧
      w1.stdOut = w.stdOut ++ payload ∧ avail w1.ttyIn = more := by
  refine ⟨_, recv_data_packet fuel w payload more hav hf heven hn hacc hfw, rfl, ?_⟩
  show avail (rdRest (rdRest (rdRest w.ttyIn 1) 1) (payload.length + 2)) = more
  have hlen : 1 + 1 + (payload.length + 2) ≤ (avail w.ttyIn).length := by
    rw [hav, List.length_append, data_packet_length]; omega
  rw [avail_rdRest3 _ _ _ _ hlen, hav]
  exact List.drop_left' (by rw [data_packet_length]; omega)

/-- Witness of C19 amended, on the packet with length byte 130. -/
theorem recv_data_accepts_every_even_length_witness :
    avail worldLong.ttyIn = data_packet (List.replicate 130 5) ++ [] ∧
    worldLong.ttyIn.length < 3 ∧ (List.replicate 130 5).length % 2 = 0 ∧
    (List.replicate 130 5).length < 256 ∧ Accepting worldLong.stdWr ∧
    worldLong.stdWr.length + 1 < 3 ∧
    ∃ w1 : World, recv_data 3 worldLong = some (((List.replicate 130 5).length : Int), w1) ∧
      w1.stdOut = worldLong.stdOut ++ List.replicate 130 5 ∧ avail w1.ttyIn = [] :=
  ⟨rfl, by decide, by simp, by simp, fun e he => absurd he (List.not_mem_nil e),
   by decide,
   recv_data_accepts_every_even_length 3 worldLong (List.replicate 130 5) [] rfl (by decide)
     (by simp) (by simp) (fun e he => absurd he (List.not_mem_nil e)) (by decide)⟩


/-! ## Link reset: lemmas -/

theorem wire_append (l1 l2 : List Sys) : wire (l1 ++ l2) = wire l1 ++ wire l2 := by
  induction l1 with
  | nil => simp [wire]
  | cons e r ih =>
    match e with
    | Sys.rd .tty _ (some _) => simp [wire, ih]
    | Sys.rd .tty _ none => simp [wire, ih]
    | Sys.rd .std _ _ => simp [wire, ih]
    | Sys.wr .tty _ (some _) => simp [wire, ih]
    | Sys.wr .tty _ none => simp [wire, ih]
    | Sys.wr .std _ _ => simp [wire, ih]
    | Sys.tc _ _ => simp [wire, ih]

theorem breaks_append (l1 l2 : List Sys) : breaks (l1 ++ l2) = breaks l1 + breaks l2 := by
  induction l1 with
  | nil => simp [breaks]
  | cons e r ih =>
    match e with
    | Sys.rd _ _ _ => simp [breaks, ih]
    | Sys.wr _ _ _ => simp [breaks, ih]
    | Sys.tc .drain _ => simp [breaks, ih]
    | Sys.tc .flush _ => simp [breaks, ih]
    | Sys.tc .sendbreak _ => simp [breaks, ih]; omega

theorem wire_rdLog_tty (s : List RdEv) :
    ∀ n, n ≤ (avail s).length →
      wire (rdLog .tty s n) = ((avail s).take n).map (fun b => (true, b)) := by
  induction s with
  | nil => intro n _; cases n <;> simp [rdLog, wire, avail]
  | cons e r ih =>
    intro n hn
    match n, e with
    | 0, _ => simp [rdLog, wire]
    | c + 1, .err => simp [avail] at hn
    | c + 1, .data bs =>
      simp only [avail, List.length_append] at hn
      simp only [rdLog, avail]
      split
      · rename_i hb
        rw [wire, ih _ (by omega), List.take_append_eq_append_take, List.take_of_length_le hb]
        simp
      · rename_i hb
        rw [wire, List.take_append_of_le_length (by omega)]
        simp [wire]

theorem wire_rdLog_std (s : List RdEv) : ∀ n, wire (rdLog .std s n) = [] := by
  induction s with
  | nil => intro n; cases n <;> simp [rdLog, wire]
  | cons e r ih =>
    intro n
    match n, e with
    | 0, _ => simp [rdLog, wire]
    | c + 1, .err => simp [rdLog, wire]
    | c + 1, .data bs =>
      simp only [rdLog]
      split <;> simp [wire, ih]

theorem wire_wrLog_tty (s : List WrEv) :
    ∀ bytes, Accepting s → wire (wrLog .tty s bytes) = bytes.map (fun b => (false, b)) := by
  induction s with
  | nil =>
    intro bytes _
    simp only [wrLog]
    split
    · rename_i h; simp [List.length_eq_zero.mp h, wire]
    · simp [wire]
  | cons e r ih =>
    intro bytes hacc
    have hr : Accepting r := fun e he => hacc e (List.mem_cons_of_mem _ he)
    match e with
    | .err => exact absurd rfl (hacc .err (List.mem_cons_self _ _))
    | .accept k =>
      simp only [wrLog]
      split
      · rename_i h; simp [List.length_eq_zero.mp h, wire]
      · split
        · simp [wire]
        · rw [wire, ih _ hr, ← List.map_append, List.take_append_drop]

theorem wire_wrLog_std (s : List WrEv) : ∀ bytes, wire (wrLog .std s bytes) = [] := by
  induction s with
  | nil => intro bytes; simp only [wrLog]; split <;> simp [wire]
  | cons e r ih =>
    intro bytes
    match e with
    | .err => simp only [wrLog]; split <;> simp [wire]
    | .accept k =>
      simp only [wrLog]
      split
      · simp [wire]
      · split <;> simp [wire, ih]

theorem breaks_rdLog (fd : Fd) (s : List RdEv) : ∀ n, breaks (rdLog fd s n) = 0 := by
  induction s with
  | nil => intro n; cases n <;> simp [rdLog, breaks]
  | cons e r ih =>
    intro n
    match n, e with
    | 0, _ => simp [rdLog, breaks]
    | c + 1, .err => simp [rdLog, breaks]
    | c + 1, .data bs =>
      simp only [rdLog]
      split <;> simp [breaks, ih]

theorem breaks_wrLog (fd : Fd) (s : List WrEv) : ∀ bytes, breaks (wrLog fd s bytes) = 0 := by
  induction s with
  | nil => intro bytes; simp only [wrLog]; split <;> simp [breaks]
  | cons e r ih =>
    intro bytes
    match e with
    | .err => simp only [wrLog]; split <;> simp [breaks]
    | .accept k =>
      simp only [wrLog]
      split
      · simp [breaks]
      · split <;> simp [breaks, ih]

theorem wire_breakLog : wire breakLog = [] := by simp [breakLog, wire]

theorem breaks_breakLog : breaks breakLog = 1 := by simp [breakLog, breaks]


/-- When the terminal-control calls succeed, `send_break` returns 0 after its
three calls. -/
theorem send_break_eq (w : World) (htc : w.tcFail = []) :
    send_break w = (0, { w with log := w.log ++ breakLog }) := by
  simp [send_break, sys_tc, htc, breakLog]

/-- On a serial line that accepts the writes, `send_init` writes the INIT
byte. -/
theorem send_init_eq (fuel : Nat) (w : World)
    (hacc : Accepting w.ttyWr) (hf : w.ttyWr.length + 1 < fuel) :
    send_init fuel w =
      some (0, { w with
        CMD := blit w.CMD 0 [4]
        ttyWr := wrRest w.ttyWr 1
        ttyOut := w.ttyOut ++ [4]
        log := w.log ++ wrLog .tty w.ttyWr [4] }) := by
  have htk : List.take 1 (blit w.CMD 0 [PKT_INIT]) = [4] := by
    rw [blit_zero]; simp [PKT_INIT]
  unfold send_init
  simp only [htk]
  rw [write_buf_eq fuel _ .tty _ (by simpa [World.wrScript] using hacc)
    (by simpa [World.wrScript] using hf)]
  simp [World.setWr, World.wrScript, PKT_INIT]

/-- The serial line delivers a CONT: `recv_continue` returns 0. -/
theorem recv_continue_cont (f : Nat) (w : World) (more : List Nat)
    (hav : avail w.ttyIn = 16 :: more) (hf : w.ttyIn.length < f + 1) :
    recv_continue (f + 1) w =
      some (0, { w with
        RECV := 16
        ttyIn := rdRest w.ttyIn 1
        log := w.log ++ rdLog .tty w.ttyIn 1 }) := by
  have h1 := read_buf_eq (f + 1) w .tty 1 (by simp [World.rdScript, hav])
    (by simpa [World.rdScript])
  simp only [World.rdScript, hav, World.setRd, List.take_succ_cons, List.take_zero] at h1
  simp only [recv_continue, h1, headD_blit_one, List.length_singleton, Nat.lt_irrefl,
    if_false, PKT_CONT, if_true]

/-- The serial line delivers a byte that is neither CONT nor INIT:
`recv_continue` returns -1 and there is no handshake. -/
theorem recv_continue_other (f : Nat) (w : World) (b : Nat) (more : List Nat)
    (hav : avail w.ttyIn = b :: more) (hb1 : b ≠ 16) (hb2 : b ≠ 4)
    (hf : w.ttyIn.length < f + 1) :
    recv_continue (f + 1) w =
      some (-1, { w with
        RECV := b
        ttyIn := rdRest w.ttyIn 1
        log := w.log ++ rdLog .tty w.ttyIn 1 }) := by
  have h1 := read_buf_eq (f + 1) w .tty 1 (by simp [World.rdScript, hav])
    (by simpa [World.rdScript])
  simp only [World.rdScript, hav, World.setRd, List.take_succ_cons, List.take_zero] at h1
  simp only [recv_continue, h1, headD_blit_one, List.length_singleton, Nat.lt_irrefl,
    if_false, PKT_CONT, PKT_INIT, hb1, hb2]

/-- The serial line delivers an INIT: `recv_continue` runs `do_init` and
returns -1, whatever `do_init` returns. -/
theorem recv_continue_init (f : Nat) (w : World) (more : List Nat)
    (hav : avail w.ttyIn = 4 :: more) (hf : w.ttyIn.length < f + 1) :
    recv_continue (f + 1) w =
      match do_init f { w with
          RECV := 4
          ttyIn := rdRest w.ttyIn 1
          log := w.log ++ rdLog .tty w.ttyIn 1 } with
      | none => none
      | some (_, w2) => some (-1, w2) := by
  have h1 := read_buf_eq (f + 1) w .tty 1 (by simp [World.rdScript, hav])
    (by simpa [World.rdScript])
  simp only [World.rdScript, hav, World.setRd, List.take_succ_cons, List.take_zero] at h1
  simp only [recv_continue, h1, headD_blit_one, List.length_singleton, Nat.lt_irrefl,
    if_false, PKT_CONT, PKT_INIT, show ((4 : Nat) = 16) = False by decide, if_true]

/-- The handshake up to its wait for CONT: when the break and the two INIT
writes succeed, `do_init` is the result of `recv_continue` in the world they
leave, with a negative result turned into -1. -/
theorem do_init_sends (f : Nat) (w : World) (htc : w.tcFail = [])
    (hacc : Accepting w.ttyWr) (hf : w.ttyWr.length + 1 < f + 1) :
    do_init (f + 1) w =
      match recv_continue f { w with
          CMD := blit (blit w.CMD 0 [4]) 0 [4]
          ttyWr := wrRest (wrRest w.ttyWr 1) 1
          ttyOut := w.ttyOut ++ [4] ++ [4]
          log := w.log ++ breakLog ++ wrLog .tty w.ttyWr [4] ++
            wrLog .tty (wrRest w.ttyWr 1) [4] } with
      | none => none
      | some (r3, w3) => if r3 < 0 then some (-1, w3) else some (0, w3) := by
  have hb := send_break_eq w htc
  have hacc1 : Accepting (wrRest w.ttyWr 1) := wrRest_accepting _ _ hacc
  have hf1 : (wrRest w.ttyWr 1).length + 1 < f + 1 :=
    Nat.lt_of_le_of_lt (Nat.add_le_add_right (wrRest_length_le _ _) 1) hf
  simp only [do_init, hb]
  rw [send_init_eq (f + 1) _ (by simpa using hacc) (by simpa using hf)]
  simp only [show ¬ ((0 : Int) < 0) by decide, if_false]
  rw [send_init_eq (f + 1) _ (by simpa using hacc1) (by simpa using hf1)]
  simp only [show ¬ ((0 : Int) < 0) by decide, if_false, List.append_assoc]


theorem avail_rdRest_cons (s : List RdEv) (b : Nat) (more : List Nat)
    (hav : avail s = b :: more) : avail (rdRest s 1) = more := by
  rw [avail_rdRest s 1 (by simp [hav]), hav]; rfl

theorem wire_rdLog_one (s : List RdEv) (b : Nat) (more : List Nat)
    (hav : avail s = b :: more) : wire (rdLog .tty s 1) = [(true, b)] := by
  rw [wire_rdLog_tty s 1 (by simp [hav]), hav]; rfl

/-- A run of `k` INIT bytes followed by another byte `b`, read where
`recv_continue` waits: every INIT byte starts a handshake (the handshake's own
wait for CONT is `recv_continue` again), so there are `k` handshakes; the result
is 0 only when there was no INIT and `b` is CONT. -/
theorem recv_continue_storm (k : Nat) :
    ∀ (f : Nat) (w : World) (b : Nat) (more : List Nat),
      w.tcFail = [] → Accepting w.ttyWr →
      avail w.ttyIn = List.replicate k 4 ++ b :: more → b ≠ 4 →
      w.ttyIn.length + 2 * k ≤ f → w.ttyWr.length + 2 * k ≤ f →
      ∃ w1, recv_continue (f + 1) w = some (if k = 0 ∧ b = 16 then 0 else -1, w1) ∧
        Handshook w w1 k b more := by
  induction k with
  | zero =>
    intro f w b more htc hacc hav hb hfi _
    simp only [List.replicate_zero, List.nil_append] at hav
    by_cases h16 : b = 16
    · subst h16
      refine ⟨_, recv_continue_cont f w more hav (by omega), ?_⟩
      refine ⟨by simp, avail_rdRest_cons _ _ _ hav,
        ⟨_, rfl, by simpa [storm] using wire_rdLog_one _ _ _ hav, breaks_rdLog _ _ _⟩,
        rfl, rfl, rfl, rfl, rfl, htc, hacc, Nat.le_refl _, rdRest_length_le _ _⟩
    · have := recv_continue_other f w b more hav h16 hb (by omega)
      refine ⟨_, by simpa [h16] using this, ?_⟩
      refine ⟨by simp, avail_rdRest_cons _ _ _ hav,
        ⟨_, rfl, by simpa [storm] using wire_rdLog_one _ _ _ hav, breaks_rdLog _ _ _⟩,
        rfl, rfl, rfl, rfl, rfl, htc, hacc, Nat.le_refl _, rdRest_length_le _ _⟩
  | succ j ih =>
    intro f w b more htc hacc hav hb hfi hfw
    have hav' : avail w.ttyIn = 4 :: (List.replicate j 4 ++ b :: more) := by
      rw [hav]; rfl
    obtain ⟨g, rfl⟩ : ∃ g, f = g + 2 := ⟨f - 2, by omega⟩
    have hstep := recv_continue_init (g + 2) w _ hav' (by omega)
    have hsend := do_init_sends (g + 1)
      { w with RECV := 4, ttyIn := rdRest w.ttyIn 1, log := w.log ++ rdLog .tty w.ttyIn 1 }
      htc hacc (by show w.ttyWr.length + 1 < g + 1 + 1; omega)
    have hlen1 : (rdRest w.ttyIn 1).length ≤ w.ttyIn.length := rdRest_length_le _ _
    have hlen2 : (wrRest (wrRest w.ttyWr 1) 1).length ≤ w.ttyWr.length :=
      Nat.le_trans (wrRest_length_le _ _) (wrRest_length_le _ _)
    obtain ⟨w1, hrc, hh⟩ := ih g
      { w with
        RECV := 4
        CMD := blit (blit w.CMD 0 [4]) 0 [4]
        ttyIn := rdRest w.ttyIn 1
        ttyWr := wrRest (wrRest w.ttyWr 1) 1
        ttyOut := w.ttyOut ++ [4] ++ [4]
        log := w.log ++ rdLog .tty w.ttyIn 1 ++ breakLog ++ wrLog .tty w.ttyWr [4] ++
          wrLog .tty (wrRest w.ttyWr 1) [4] }
      b more htc (wrRest_accepting _ _ (wrRest_accepting _ _ hacc))
      (avail_rdRest_cons _ _ _ hav') hb
      (by show (rdRest w.ttyIn 1).length + 2 * j ≤ g; omega)
      (by show (wrRest (wrRest w.ttyWr 1) 1).length + 2 * j ≤ g; omega)
    rw [hrc] at hsend
    rw [hsend] at hstep
    obtain ⟨hout, havl, ⟨L, hlog, hwire, hbr⟩, hses, hbuf, hin, hwr, hso, htc1, hacc1,
      hl1, hl2⟩ := hh
    refine ⟨w1, ?_, ?_⟩
    · rw [hstep]
      simp only [Nat.succ_ne_zero, false_and, if_false]
      split_ifs <;> rfl
    · refine ⟨?_, havl, ⟨rdLog .tty w.ttyIn 1 ++ breakLog ++ wrLog .tty w.ttyWr [4] ++
          wrLog .tty (wrRest w.ttyWr 1) [4] ++ L, ?_, ?_, ?_⟩,
        hses, hbuf, hin, hwr, hso, htc1, hacc1, Nat.le_trans hl1 hlen2,
        Nat.le_trans hl2 hlen1⟩
      · rw [hout, show 2 * (j + 1) = 2 * j + 1 + 1 by omega]
        simp [List.replicate_succ]
      · rw [hlog]; simp only [List.append_assoc]
      · simp only [wire_append, wire_rdLog_one _ _ _ hav', wire_breakLog,
          wire_wrLog_tty _ _ hacc, wire_wrLog_tty _ _ (wrRest_accepting _ _ hacc), hwire,
          storm]
        simp
      · simp only [breaks_append, breaks_rdLog, breaks_breakLog, breaks_wrLog, hbr]
        omega


/-- The first byte that `recv_end` reads is an INIT: it runs `do_init` and
returns -1. -/
theorem recv_end_init (fuel : Nat) (w : World) (more : List Nat)
    (hav : avail w.ttyIn = 4 :: more) (hf : w.ttyIn.length < fuel) :
    recv_end fuel w =
      match do_init fuel { w with
          RECV := 4
          ttyIn := rdRest w.ttyIn 1
          log := w.log ++ rdLog .tty w.ttyIn 1 } with
      | none => none
      | some (_, w2) => some (-1, w2) := by
  have h1 := read_buf_eq fuel w .tty 1 (by simp [World.rdScript, hav])
    (by simpa [World.rdScript])
  simp only [World.rdScript, hav, World.setRd, List.take_succ_cons, List.take_zero] at h1
  simp only [recv_end, h1, headD_blit_one, List.length_singleton, Nat.lt_irrefl,
    if_false, PKT_CMD, PKT_INIT, show ((4 : Nat) = 2) = False by decide, if_true]

/-- The first byte that `recv_data` reads is an INIT: it runs `do_init` and
returns -1. -/
theorem recv_data_init (fuel : Nat) (w : World) (more : List Nat)
    (hav : avail w.ttyIn = 4 :: more) (hf : w.ttyIn.length < fuel) :
    recv_data fuel w =
      match do_init fuel { w with
          RECV := 4
          ttyIn := rdRest w.ttyIn 1
          log := w.log ++ rdLog .tty w.ttyIn 1 } with
      | none => none
      | some (_, w2) => some (-1, w2) := by
  have h1 := read_buf_eq fuel w .tty 1 (by simp [World.rdScript, hav])
    (by simpa [World.rdScript])
  simp only [World.rdScript, hav, World.setRd, List.take_succ_cons, List.take_zero] at h1
  simp only [recv_data, h1, headD_blit_one, List.length_singleton, Nat.lt_irrefl,
    if_false, PKT_DATA, PKT_INIT, show ((4 : Nat) = 1) = False by decide, if_true]

/-- After an INIT byte has been read (the world `w0` is what the read left of
`w`), `do_init` with `j` more INIT bytes and then the byte `b` on the line makes
`j + 1` handshakes in all. -/
theorem do_init_storm (j f : Nat) (w : World) (b : Nat) (more : List Nat)
    (htc : w.tcFail = []) (hacc : Accepting w.ttyWr)
    (hav : avail w.ttyIn = 4 :: (List.replicate j 4 ++ b :: more)) (hb : b ≠ 4)
    (hfi : w.ttyIn.length + 2 * j + 1 ≤ f) (hfw : w.ttyWr.length + 2 * j + 2 ≤ f) :
    ∃ w1, do_init (f + 1) { w with
          RECV := 4
          ttyIn := rdRest w.ttyIn 1
          log := w.log ++ rdLog .tty w.ttyIn 1 }
        = some (if j = 0 ∧ b = 16 then 0 else -1, w1) ∧
      Handshook w w1 (j + 1) b more := by
  obtain ⟨g, rfl⟩ : ∃ g, f = g + 1 := ⟨f - 1, by omega⟩
  have hsend := do_init_sends (g + 1)
    { w with RECV := 4, ttyIn := rdRest w.ttyIn 1, log := w.log ++ rdLog .tty w.ttyIn 1 }
    htc hacc (by show w.ttyWr.length + 1 < g + 1 + 1; omega)
  have hlen1 : (rdRest w.ttyIn 1).length ≤ w.ttyIn.length := rdRest_length_le _ _
  have hlen2 : (wrRest (wrRest w.ttyWr 1) 1).length ≤ w.ttyWr.length :=
    Nat.le_trans (wrRest_length_le _ _) (wrRest_length_le _ _)
  obtain ⟨w1, hrc, hh⟩ := recv_continue_storm j g
    { w with
      RECV := 4
      CMD := blit (blit w.CMD 0 [4]) 0 [4]
      ttyIn := rdRest w.ttyIn 1
      ttyWr := wrRest (wrRest w.ttyWr 1) 1
      ttyOut := w.ttyOut ++ [4] ++ [4]
      log := w.log ++ rdLog .tty w.ttyIn 1 ++ breakLog ++ wrLog .tty w.ttyWr [4] ++
        wrLog .tty (wrRest w.ttyWr 1) [4] }
    b more htc (wrRest_accepting _ _ (wrRest_accepting _ _ hacc))
    (avail_rdRest_cons _ _ _ hav) hb
    (by show (rdRest w.ttyIn 1).length + 2 * j ≤ g; omega)
    (by show (wrRest (wrRest w.ttyWr 1) 1).length + 2 * j ≤ g; omega)
  rw [hrc] at hsend
  obtain ⟨hout, havl, ⟨L, hlog, hwire, hbr⟩, hses, hbuf, hin, hwr, hso, htc1, hacc1,
    hl1, hl2⟩ := hh
  refine ⟨w1, ?_, ?_⟩
  · rw [hsend]
    split_ifs <;> rfl
  · refine ⟨?_, havl, ⟨rdLog .tty w.ttyIn 1 ++ breakLog ++ wrLog .tty w.ttyWr [4] ++
        wrLog .tty (wrRest w.ttyWr 1) [4] ++ L, ?_, ?_, ?_⟩,
      hses, hbuf, hin, hwr, hso, htc1, hacc1, Nat.le_trans hl1 hlen2,
      Nat.le_trans hl2 hlen1⟩
    · rw [hout, show 2 * (j + 1) = 2 * j + 1 + 1 by omega]
      simp [List.replicate_succ]
    · rw [hlog]; simp only [List.append_assoc]
    · simp only [wire_append, wire_rdLog_one _ _ _ hav, wire_breakLog,
        wire_wrLog_tty _ _ hacc, wire_wrLog_tty _ _ (wrRest_accepting _ _ hacc), hwire,
        storm]
      simp
    · simp only [breaks_append, breaks_rdLog, breaks_breakLog, breaks_wrLog, hbr]
      omega


/-! ## Command sequencer: one step of each loop -/

theorem write_data_step (F n : Nat) (w : World) (ct : Int) (hct : 0 < ct) :
    write_data F (n + 1) w ct =
      match recv_continue F w with
      | none => none
      | some (r1, w1) =>
        if r1 < 0 then some (-1, w1)
        else
          match send_data F w1 (if ct > 128 then 128 else ct) with
          | none => none
          | some (r2, w2) =>
            if r2 < 0 then some (-1, w2)
            else write_data F n w2 (ct - (if ct > 128 then 128 else ct)) := by
  rw [write_data]
  simp only [gt_iff_lt, hct, if_true]

theorem write_data_done (F n : Nat) (w : World) (ct : Int) (hct : ct ≤ 0) :
    write_data F (n + 1) w ct = some (0, w) := by
  rw [write_data]
  simp only [gt_iff_lt, show ¬ (0 < ct) by omega, if_false]

theorem read_data_step (F n : Nat) (w : World) (ct : Int) (hct : 0 < ct) :
    read_data F (n + 1) w ct =
      match recv_data F w with
      | none => none
      | some (k, w1) => if k < 0 then some (-1, w1) else read_data F n w1 (ct - k) := by
  rw [read_data]
  simp only [gt_iff_lt, hct, if_true]

theorem read_data_done (F n : Nat) (w : World) (ct : Int) (hct : ct ≤ 0) :
    read_data F (n + 1) w ct = some (0, w) := by
  rw [read_data]
  simp only [gt_iff_lt, show ¬ (0 < ct) by omega, if_false]

theorem write_segments_step (F n : Nat) (w : World) (count mode : Int) (hc : 0 < count) :
    write_segments F (n + 1) w count mode =
      match send_write F w w.UNIT w.BNUM (seg_len w.BSIZE count) mode with
      | none => none
      | some (r1, w1) =>
        if r1 < 0 then some (-1, w1)
        else
          match write_data F F w1 (seg_len w.BSIZE count) with
          | none => none
          | some (r2, w2) =>
            if r2 < 0 then some (-1, w2)
            else
              match recv_end F { w2 with
                  BNUM := w2.BNUM + seg_blocks w2.BSIZE (seg_len w.BSIZE count) } with
              | none => none
              | some (ct2, w4) =>
                if ct2 < 0 then some (-1, w4)
                else if ct2 ≠ seg_len w.BSIZE count then some (-1, w4)
                else write_segments F n w4
                  (count - seg_blocks w2.BSIZE (seg_len w.BSIZE count)) mode := by
  rw [write_segments]
  simp only [gt_iff_lt, hc, if_true]

theorem read_segments_step (F n : Nat) (w : World) (count mode : Int) (hc : 0 < count) :
    read_segments F (n + 1) w count mode =
      match send_read F w w.UNIT w.BNUM (seg_len w.BSIZE count) mode with
      | none => none
      | some (r1, w1) =>
        if r1 < 0 then some (-1, w1)
        else
          match read_data F F w1 (seg_len w.BSIZE count) with
          | none => none
          | some (r2, w2) =>
            if r2 < 0 then some (-1, w2)
            else
              match recv_end F { w2 with
                  BNUM := w2.BNUM + seg_blocks w2.BSIZE (seg_len w.BSIZE count) } with
              | none => none
              | some (ct2, w4) =>
                if ct2 < 0 then some (-1, w4)
                else if ct2 ≠ seg_len w.BSIZE count then some (-1, w4)
                else read_segments F n w4
                  (count - seg_blocks w2.BSIZE (seg_len w.BSIZE count)) mode := by
  rw [read_segments]
  simp only [gt_iff_lt, hc, if_true]

theorem segments_done (F n : Nat) (w : World) (count mode : Int) (hc : count ≤ 0) :
    read_segments F (n + 1) w count mode = some (0, w) ∧
    write_segments F (n + 1) w count mode = some (0, w) := by
  constructor
  · rw [read_segments]; simp only [gt_iff_lt, show ¬ (0 < count) by omega, if_false]
  · rw [write_segments]; simp only [gt_iff_lt, show ¬ (0 < count) by omega, if_false]

theorem count_accepted (w : World) (count : Int) (h0 : 0 ≤ count)
    (h1 : count ≤ w.BCOUNT - w.BNUM) : count_rejected w count = false := by
  rw [← Bool.not_eq_true]
  simp only [count_rejected, Bool.or_eq_true, decide_eq_true_eq]; omega

/-! ## Link reset: the claims -/

/-- C13. The device sends INIT where a WRITE waits for CONT, and CONT as its
next byte: the data loop of `do_write` (at any chunk) makes exactly one
INIT/INIT/CONT exchange, that is one break signal, the two bytes 4, 4 written
and exactly one more byte read, and returns -1; no DATA packet is sent and
nothing is taken from the data source. In particular `do_write` itself, when
this happens at its first chunk, returns -1 having written its CMD frame and the
two INIT bytes only. -/
theorem write_wait_init_then_cont (fuel n : Nat) (w : World) (ct count mode : Int)
    (more : List Nat)
    (hct : 0 < ct)
    (hbs : (w.BSIZE = 128 ∧ count ≤ 2048) ∨ (w.BSIZE = 512 ∧ count ≤ 512))
    (hc1 : 1 ≤ count) (hc2 : count ≤ w.BCOUNT - w.BNUM)
    (htc : w.tcFail = []) (hacc : Accepting w.ttyWr)
    (hav : avail w.ttyIn = 4 :: 16 :: more)
    (hfi : w.ttyIn.length + 2 < fuel) (hfw : w.ttyWr.length + 2 < fuel) :
    (∃ w1, write_data fuel (n + 1) w ct = some (-1, w1) ∧
      w1.ttyOut = w.ttyOut ++ [4, 4] ∧ avail w1.ttyIn = more ∧
      (∃ L, w1.log = w.log ++ L ∧
        wire L = [(true, 4), (false, 4), (false, 4), (true, 16)] ∧ breaks L = 1) ∧
      w1.stdIn = w.stdIn ∧ w1.session = w.session) ∧
    (∃ w2, do_write fuel w count mode = some (-1, w2) ∧
      w2.ttyOut = w.ttyOut ++
        cmd_frame w CMD_WRITE w.UNIT w.BNUM (seg_len w.BSIZE count) mode ++ [4, 4] ∧
      avail w2.ttyIn = more ∧ w2.stdIn = w.stdIn ∧ breaks w2.log = breaks w.log + 1) := by
  obtain ⟨f, rfl⟩ : ∃ f, fuel = f + 1 := ⟨fuel - 1, by omega⟩
  constructor
  · obtain ⟨w1, hrc, hout, havl, hlog, hses, _, hin, _⟩ :=
      recv_continue_storm 1 f w 16 more htc hacc hav (by decide) (by omega) (by omega)
    have hrc1 : recv_continue (f + 1) w = some (-1, w1) := by simpa using hrc
    refine ⟨w1, ?_, by simpa using hout, havl, by simpa [storm] using hlog, hin, hses⟩
    rw [write_data_step _ _ _ _ hct, hrc1]
    rfl
  · have hseg := segment_length_pos w count hbs hc1
    have hrej := count_accepted w count (by omega) hc2
    have hsend := send_cmd_eq (f + 1) w CMD_WRITE w.UNIT w.BNUM (seg_len w.BSIZE count) mode
      hacc (by omega)
    obtain ⟨w1, hrc, hout, havl, ⟨L, hlog, _, hbr⟩, _, _, hin, _⟩ :=
      recv_continue_storm 1 f
        { w with
          CMD := cmd_frame w CMD_WRITE w.UNIT w.BNUM (seg_len w.BSIZE count) mode
            ++ w.CMD.drop 14
          ttyWr := wrRest w.ttyWr 14
          ttyOut := w.ttyOut ++
            cmd_frame w CMD_WRITE w.UNIT w.BNUM (seg_len w.BSIZE count) mode
          log := w.log ++ wrLog .tty w.ttyWr
            (cmd_frame w CMD_WRITE w.UNIT w.BNUM (seg_len w.BSIZE count) mode) }
        16 more htc (wrRest_accepting _ _ hacc) hav (by decide)
        (by show w.ttyIn.length + 2 * 1 ≤ f; omega)
        (by
          show (wrRest w.ttyWr 14).length + 2 * 1 ≤ f
          have := wrRest_length_le w.ttyWr 14
          omega)
    have hrc1 := hrc
    simp only [Nat.succ_ne_zero, false_and, if_false] at hrc1
    refine ⟨w1, ?_, by simpa using hout, havl, hin, ?_⟩
    · unfold do_write
      rw [hrej]
      simp only [Bool.false_eq_true, if_false]
      rw [write_segments_step _ _ _ _ _ (by omega)]
      unfold send_write
      rw [hsend]
      simp only [show ¬ ((0 : Int) < 0) by decide, if_false]
      rw [write_data_step _ _ _ _ hseg, hrc1]
      rfl
    · rw [hlog]
      simp only [breaks_append, breaks_wrLog, hbr]


/-- Witness of C13: a WRITE of one block of 512 bytes from the start world, on a
line that sends INIT and then CONT. -/
theorem write_wait_init_then_cont_witness :
    (0 : Int) < 128 ∧
    ((worldInit.BSIZE = 128 ∧ (1 : Int) ≤ 2048) ∨ (worldInit.BSIZE = 512 ∧ (1 : Int) ≤ 512)) ∧
    (1 : Int) ≤ 1 ∧ (1 : Int) ≤ worldInit.BCOUNT - worldInit.BNUM ∧
    worldInit.tcFail = [] ∧ Accepting worldInit.ttyWr ∧
    avail worldInit.ttyIn = 4 :: 16 :: [] ∧
    worldInit.ttyIn.length + 2 < 9 ∧ worldInit.ttyWr.length + 2 < 9 ∧
    (∃ w1, write_data 9 (0 + 1) worldInit 128 = some (-1, w1) ∧
      w1.ttyOut = worldInit.ttyOut ++ [4, 4] ∧ avail w1.ttyIn = [] ∧
      (∃ L, w1.log = worldInit.log ++ L ∧
        wire L = [(true, 4), (false, 4), (false, 4), (true, 16)] ∧ breaks L = 1) ∧
      w1.stdIn = worldInit.stdIn ∧ w1.session = worldInit.session) ∧
    (∃ w2, do_write 9 worldInit 1 0 = some (-1, w2) ∧
      w2.ttyOut = worldInit.ttyOut ++
        cmd_frame worldInit CMD_WRITE worldInit.UNIT worldInit.BNUM
          (seg_len worldInit.BSIZE 1) 0 ++ [4, 4] ∧
      avail w2.ttyIn = [] ∧ w2.stdIn = worldInit.stdIn ∧
      breaks w2.log = breaks worldInit.log + 1) :=
  ⟨by decide, Or.inr ⟨rfl, by decide⟩, by decide, by decide, rfl,
   fun e he => absurd he (List.not_mem_nil e), rfl, by decide, by decide,
   write_wait_init_then_cont 9 0 worldInit 128 1 0 [] (by decide)
     (Or.inr ⟨rfl, by decide⟩) (by decide) (by decide) rfl
     (fun e he => absurd he (List.not_mem_nil e)) rfl (by decide) (by decide)⟩

/-- C14, amended. Recovery from an unsolicited INIT is one handshake for every
INIT byte received, not one at most: a receive step (`recv_continue`,
`recv_end`, `recv_data`: the steps through which `do_read`, `do_write`,
`do_rewind` and `do_retension` observe the device) that reads an INIT byte runs
`do_init`, and `do_init` waits for CONT with `recv_continue`, so an INIT byte
that answers a handshake starts another one. When the device sends `k + 1` INIT
bytes in a row and then a byte `b` other than INIT, exactly `k + 1` handshakes
are run (`k + 1` break signals, `2 * (k + 1)` INIT bytes written) and the
receive step then returns -1; with a single INIT byte it is exactly one. -/
theorem handshake_per_init_byte (k f : Nat) (w : World) (b : Nat) (more : List Nat)
    (htc : w.tcFail = []) (hacc : Accepting w.ttyWr)
    (hav : avail w.ttyIn = List.replicate (k + 1) 4 ++ b :: more) (hb : b ≠ 4)
    (hfi : w.ttyIn.length + 2 * (k + 1) ≤ f) (hfw : w.ttyWr.length + 2 * (k + 1) ≤ f) :
    (∃ w1, recv_continue (f + 1) w = some (-1, w1) ∧ Handshook w w1 (k + 1) b more) ∧
    (∃ w1, recv_end (f + 1) w = some (-1, w1) ∧ Handshook w w1 (k + 1) b more) ∧
    (∃ w1, recv_data (f + 1) w = some (-1, w1) ∧ Handshook w w1 (k + 1) b more) := by
  have hav' : avail w.ttyIn = 4 :: (List.replicate k 4 ++ b :: more) := by
    rw [hav]; rfl
  obtain ⟨w1, hrc, hh⟩ := recv_continue_storm (k + 1) f w b more htc hacc hav hb hfi hfw
  obtain ⟨w2, hdi, hh2⟩ := do_init_storm k f w b more htc hacc hav' hb (by omega) (by omega)
  refine ⟨⟨w1, by simpa using hrc, hh⟩, ⟨w2, ?_, hh2⟩, ⟨w2, ?_, hh2⟩⟩
  · rw [recv_end_init (f + 1) w _ hav' (by omega), hdi]
  · rw [recv_data_init (f + 1) w _ hav' (by omega), hdi]

/-- Witness of C14 amended: two INIT bytes and then CONT give two handshakes. -/
theorem handshake_per_init_byte_witness :
    worldStorm.tcFail = [] ∧ Accepting worldStorm.ttyWr ∧
    avail worldStorm.ttyIn = List.replicate (1 + 1) 4 ++ 16 :: [] ∧ (16 : Nat) ≠ 4 ∧
    worldStorm.ttyIn.length + 2 * (1 + 1) ≤ 8 ∧ worldStorm.ttyWr.length + 2 * (1 + 1) ≤ 8 ∧
    (∃ w1, recv_continue (8 + 1) worldStorm = some (-1, w1) ∧
      Handshook worldStorm w1 (1 + 1) 16 []) ∧
    (∃ w1, recv_end (8 + 1) worldStorm = some (-1, w1) ∧
      Handshook worldStorm w1 (1 + 1) 16 []) ∧
    (∃ w1, recv_data (8 + 1) worldStorm = some (-1, w1) ∧
      Handshook worldStorm w1 (1 + 1) 16 []) :=
  ⟨rfl, fun e he => absurd he (List.not_mem_nil e), rfl, by decide, by decide, by decide,
   handshake_per_init_byte 1 8 worldStorm 16 [] rfl
     (fun e he => absurd he (List.not_mem_nil e)) rfl (by decide) (by decide) (by decide)⟩

/-- C14, counterexample. A rewind on a line that answers the SEEK command with
INIT, answers the handshake with INIT again and answers the next handshake with
CONT: `do_rewind` reports failure after the INIT handshake has run twice (two
break signals, four INIT bytes written after the command frame). -/
theorem do_rewind_two_handshakes :
    ∃ w1, do_rewind 9 worldStorm 0 = some (-1, w1) ∧ breaks w1.log = 2 ∧
      w1.ttyOut = cmd_frame worldStorm CMD_SEEK 0 0 0 0 ++ [4, 4, 4, 4] := by
  have hsend := send_cmd_eq 9 worldStorm CMD_SEEK 0 0 0 0
    (fun e he => absurd he (List.not_mem_nil e)) (by decide)
  obtain ⟨_, ⟨w1, hre, hout, _, ⟨L, hlog, _, hbr⟩, _⟩, _⟩ :=
    handshake_per_init_byte 1 8
      { worldStorm with
        CMD := cmd_frame worldStorm CMD_SEEK 0 0 0 0 ++ worldStorm.CMD.drop 14
        ttyWr := wrRest worldStorm.ttyWr 14
        ttyOut := worldStorm.ttyOut ++ cmd_frame worldStorm CMD_SEEK 0 0 0 0
        log := worldStorm.log ++ wrLog .tty worldStorm.ttyWr
          (cmd_frame worldStorm CMD_SEEK 0 0 0 0) }
      16 [] rfl (fun e he => absurd he (List.not_mem_nil e)) rfl (by decide) (by decide)
      (by decide)
  refine ⟨w1, ?_, ?_, ?_⟩
  · unfold do_rewind send_seek
    rw [if_neg (by decide), hsend]
    simp only [show ¬ ((0 : Int) < 0) by decide, if_false]
    rw [hre]
    rfl
  · rw [hlog, breaks_append, hbr]
    rfl
  · rw [hout]
    rfl


/-! ## Command sequencer: the data phase of a WRITE -/

/-- The data loop of `do_write` over `k` chunks of 128 bytes, on a line that
sends a CONT for every chunk: every chunk is taken from standard input after its
CONT has been read and is written as one DATA packet. -/
theorem write_data_chunks (k : Nat) :
    ∀ (F n : Nat) (w : World) (payload more more2 : List Nat),
      avail w.ttyIn = List.replicate k 16 ++ more →
      avail w.stdIn = payload ++ more2 → payload.length = 128 * k →
      Accepting w.ttyWr →
      w.ttyIn.length < F → w.stdIn.length < F → w.ttyWr.length + 1 < F → k < n →
      ∃ w1, write_data F n w ((128 * k : Nat) : Int) = some (0, w1) ∧
        WrotePhase w w1 (chunks 128 k payload) more more2 := by
  induction k with
  | zero =>
    intro F n w payload more more2 htty hstd hpl hacc _ _ _ hn
    obtain ⟨m, rfl⟩ : ∃ m, n = m + 1 := ⟨n - 1, by omega⟩
    have hp : payload = [] := List.length_eq_zero.mp (by omega)
    subst hp
    refine ⟨w, write_data_done F m w _ (by simp), ?_⟩
    refine ⟨by simp [chunks], by simpa using htty, by simpa using hstd,
      ⟨[], by simp, by simp [chunks, writeTraffic, wire], by simp [breaks]⟩,
      rfl, rfl, rfl, rfl, rfl, hacc, Nat.le_refl _, Nat.le_refl _, Nat.le_refl _⟩
  | succ j ih =>
    intro F n w payload more more2 htty hstd hpl hacc hfi hfs hfw hn
    obtain ⟨m, rfl⟩ : ∃ m, n = m + 1 := ⟨n - 1, by omega⟩
    obtain ⟨f, rfl⟩ : ∃ f, F = f + 1 := ⟨F - 1, by omega⟩
    have htty' : avail w.ttyIn = 16 :: (List.replicate j 16 ++ more) := by
      rw [htty]; rfl
    have hcont := recv_continue_cont f w _ htty' hfi
    have hclen : (payload.take 128).length = 128 := by
      rw [List.length_take]; omega
    have hstd' : avail w.stdIn = payload.take 128 ++ (payload.drop 128 ++ more2) := by
      rw [hstd, ← List.append_assoc, List.take_append_drop]
    have hsd := send_data_even (f + 1)
      { w with RECV := 16, ttyIn := rdRest w.ttyIn 1, log := w.log ++ rdLog .tty w.ttyIn 1 }
      (payload.take 128) (payload.drop 128 ++ more2) hstd' (by rw [hclen]) (by rw [hclen]; omega)
      hfs hacc hfw
    rw [hclen] at hsd
    have hct : (0 : Int) < ((128 * (j + 1) : Nat) : Int) := by push_cast; omega
    have hn128 : (if ((128 * (j + 1) : Nat) : Int) > 128 then (128 : Int)
        else ((128 * (j + 1) : Nat) : Int)) = ((128 : Nat) : Int) := by
      split_ifs with h
      · rfl
      · push_cast at h ⊢; omega
    have hrest : ((128 * (j + 1) : Nat) : Int) - ((128 : Nat) : Int) = ((128 * j : Nat) : Int) := by
      push_cast; omega
    obtain ⟨w1, hrun, hph⟩ := ih (f + 1) m
      { w with
        RECV := 16
        BUF := data_packet (payload.take 128) ++ w.BUF.drop (128 + 4)
        ttyIn := rdRest w.ttyIn 1
        stdIn := rdRest w.stdIn 128
        ttyWr := wrRest w.ttyWr (128 + 4)
        ttyOut := w.ttyOut ++ data_packet (payload.take 128)
        log := w.log ++ rdLog .tty w.ttyIn 1 ++ rdLog .std w.stdIn 128 ++
          wrLog .tty w.ttyWr (data_packet (payload.take 128)) }
      (payload.drop 128) more more2
      (show avail (rdRest w.ttyIn 1) = List.replicate j 16 ++ more from
        avail_rdRest_cons _ _ _ htty')
      (show avail (rdRest w.stdIn 128) = payload.drop 128 ++ more2 by
        rw [avail_rdRest _ 128 (by rw [hstd, List.length_append]; omega), hstd,
          List.drop_append_of_le_length (by omega)])
      (by rw [List.length_drop]; omega)
      (show Accepting (wrRest w.ttyWr (128 + 4)) from wrRest_accepting _ _ hacc)
      (show (rdRest w.ttyIn 1).length < f + 1 from
        Nat.lt_of_le_of_lt (rdRest_length_le _ _) hfi)
      (show (rdRest w.stdIn 128).length < f + 1 from
        Nat.lt_of_le_of_lt (rdRest_length_le _ _) hfs)
      (show (wrRest w.ttyWr (128 + 4)).length + 1 < f + 1 from
        Nat.lt_of_le_of_lt (Nat.add_le_add_right (wrRest_length_le _ _) 1) hfw)
      (by omega)
    refine ⟨w1, ?_, ?_⟩
    · rw [write_data_step _ _ _ _ hct, hcont]
      simp only [show ¬ ((0 : Int) < 0) by decide, if_false, hn128]
      rw [hsd]
      simp only [show ¬ ((0 : Int) < 0) by decide, if_false, hrest]
      exact hrun
    · obtain ⟨hout, havl, havs, ⟨L, hlog, hwire, hbr⟩, hses, hcmd, hsw, hso, htc, hacc1,
        hl1, hl2, hl3⟩ := hph
      refine ⟨?_, havl, havs,
        ⟨rdLog .tty w.ttyIn 1 ++ rdLog .std w.stdIn 128 ++
          wrLog .tty w.ttyWr (data_packet (payload.take 128)) ++ L, ?_, ?_, ?_⟩,
        hses, hcmd, hsw, hso, htc, hacc1,
        Nat.le_trans hl1 (wrRest_length_le _ _), Nat.le_trans hl2 (rdRest_length_le _ _),
        Nat.le_trans hl3 (rdRest_length_le _ _)⟩
      · rw [hout]; simp [chunks, List.append_assoc]
      · rw [hlog]; simp only [List.append_assoc]
      · simp only [wire_append, wire_rdLog_one _ _ _ htty', wire_rdLog_std,
          wire_wrLog_tty _ _ hacc, hwire, writeTraffic, chunks, List.flatMap_cons]
        simp
      · simp only [breaks_append, breaks_rdLog, breaks_wrLog, hbr]


/-! ## Command sequencer: the data phase of a READ -/

/-- Three reads in a row that together take the bytes `xs` from the line put
exactly `xs` on the wire. -/
theorem wire_rdLog_three (s : List RdEv) (a b c : Nat) (xs more : List Nat)
    (hav : avail s = xs ++ more) (hlen : xs.length = a + b + c) :
    wire (rdLog .tty s a ++ rdLog .tty (rdRest s a) b ++
      rdLog .tty (rdRest (rdRest s a) b) c) = xs.map (fun x => (true, x)) := by
  have hl : (avail s).length = a + b + c + more.length := by
    rw [hav, List.length_append, hlen]
  have h1 : a ≤ (avail s).length := by omega
  have h2 : b ≤ (avail (rdRest s a)).length := by
    rw [avail_rdRest _ a h1, List.length_drop]; omega
  have h3 : c ≤ (avail (rdRest (rdRest s a) b)).length := by
    rw [avail_rdRest2 _ a b (by omega), List.length_drop]; omega
  rw [wire_append, wire_append, wire_rdLog_tty _ _ h1, wire_rdLog_tty _ _ h2,
    wire_rdLog_tty _ _ h3, avail_rdRest _ a h1, avail_rdRest2 _ a b (by omega),
    ← List.map_append, ← List.map_append, ← List.take_add, ← List.take_add, hav,
    List.take_append_of_le_length (by omega), List.take_of_length_le (by omega)]

/-- The data loop of `do_read` on a line that delivers the DATA packets with the
payloads `ps`, each of even length below 256 and with a valid checksum: every
payload is written to standard output, in order, and the loop ends with 0. -/
theorem read_data_packets (ps : List (List Nat)) :
    ∀ (F n : Nat) (w : World) (ct : Int) (more : List Nat),
      avail w.ttyIn = ps.flatMap data_packet ++ more →
      (∀ p ∈ ps, p.length % 2 = 0 ∧ p.length < 256) → Fills ct ps →
      Accepting w.stdWr →
      w.ttyIn.length < F → w.stdWr.length + 1 < F → ps.length < n →
      ∃ w1, read_data F n w ct = some (0, w1) ∧ ReadPhase w w1 ps more := by
  induction ps with
  | nil =>
    intro F n w ct more htty _ hfill hacc _ _ hn
    obtain ⟨m, rfl⟩ : ∃ m, n = m + 1 := ⟨n - 1, by simp at hn; omega⟩
    refine ⟨w, read_data_done F m w ct hfill, ?_⟩
    exact ⟨by simp, by simpa using htty,
      ⟨[], by simp, by simp [readTraffic, wire], by simp [breaks]⟩,
      rfl, rfl, rfl, rfl, rfl, rfl, hacc, Nat.le_refl _, Nat.le_refl _⟩
  | cons p ps ih =>
    intro F n w ct more htty hps hfill hacc hfi hfw hn
    obtain ⟨m, rfl⟩ : ∃ m, n = m + 1 := ⟨n - 1, by simp at hn; omega⟩
    obtain ⟨hct, hfill'⟩ := hfill
    obtain ⟨hev, hlt⟩ := hps p (List.mem_cons_self _ _)
    have htty' : avail w.ttyIn = data_packet p ++ (ps.flatMap data_packet ++ more) := by
      rw [htty, List.flatMap_cons, List.append_assoc]
    have hrd := recv_data_packet F w p _ htty' hfi hev hlt hacc hfw
    have hlen : 1 + 1 + (p.length + 2) ≤ (avail w.ttyIn).length := by
      rw [htty', List.length_append, data_packet_length]; omega
    obtain ⟨w1, hrun, hph⟩ := ih F m
      { w with
        RECV := 1
        BUF := data_packet p ++ w.BUF.drop (p.length + 4)
        ttyIn := rdRest (rdRest (rdRest w.ttyIn 1) 1) (p.length + 2)
        stdWr := wrRest w.stdWr p.length
        stdOut := w.stdOut ++ p
        log := w.log ++ rdLog .tty w.ttyIn 1 ++ rdLog .tty (rdRest w.ttyIn 1) 1 ++
          rdLog .tty (rdRest (rdRest w.ttyIn 1) 1) (p.length + 2) ++
          wrLog .std w.stdWr p }
      (ct - (p.length : Int)) more
      (show avail (rdRest (rdRest (rdRest w.ttyIn 1) 1) (p.length + 2)) =
          ps.flatMap data_packet ++ more by
        rw [avail_rdRest3 _ _ _ _ hlen, htty',
          List.drop_append_of_le_length (by rw [data_packet_length]; omega),
          List.drop_of_length_le (by rw [data_packet_length]; omega), List.nil_append])
      (fun q hq => hps q (List.mem_cons_of_mem _ hq)) hfill'
      (show Accepting (wrRest w.stdWr p.length) from wrRest_accepting _ _ hacc)
      (show (rdRest (rdRest (rdRest w.ttyIn 1) 1) (p.length + 2)).length < F from
        Nat.lt_of_le_of_lt (Nat.le_trans (rdRest_length_le _ _)
          (Nat.le_trans (rdRest_length_le _ _) (rdRest_length_le _ _))) hfi)
      (show (wrRest w.stdWr p.length).length + 1 < F from
        Nat.lt_of_le_of_lt (Nat.add_le_add_right (wrRest_length_le _ _) 1) hfw)
      (by simp at hn; omega)
    refine ⟨w1, ?_, ?_⟩
    · rw [read_data_step _ _ _ _ hct, hrd]
      simp only [show ¬ ((p.length : Int) < 0) by omega, if_false]
      exact hrun
    · obtain ⟨hout, havl, ⟨L, hlog, hwire, hbr⟩, hses, hcmd, hto, htw, hsi, htc, hacc1,
        hl1, hl2⟩ := hph
      refine ⟨?_, havl,
        ⟨rdLog .tty w.ttyIn 1 ++ rdLog .tty (rdRest w.ttyIn 1) 1 ++
          rdLog .tty (rdRest (rdRest w.ttyIn 1) 1) (p.length + 2) ++
          wrLog .std w.stdWr p ++ L, ?_, ?_, ?_⟩,
        hses, hcmd, hto, htw, hsi, htc, hacc1,
        Nat.le_trans hl1 (wrRest_length_le _ _),
        Nat.le_trans hl2 (Nat.le_trans (rdRest_length_le _ _)
          (Nat.le_trans (rdRest_length_le _ _) (rdRest_length_le _ _)))⟩
      · rw [hout]; simp [List.append_assoc]
      · rw [hlog]; simp only [List.append_assoc]
      · simp only [wire_append, wire_wrLog_std, List.append_nil, hwire]
        rw [← wire_append, ← wire_append,
          wire_rdLog_three _ 1 1 (p.length + 2) (data_packet p) _ htty'
            (by rw [data_packet_length]; omega)]
        simp [readTraffic]
      · simp only [breaks_append, breaks_rdLog, breaks_wrLog, hbr]


/-! ## Command sequencer: one segment -/

/-- The session globals one by one. -/
theorem session_eq (w w1 : World) (h : w1.session = w.session) :
    w1.MODE = w.MODE ∧ w1.UMAX = w.UMAX ∧ w1.UNIT = w.UNIT ∧ w1.BNUM = w.BNUM ∧
    w1.BSIZE = w.BSIZE ∧ w1.BCOUNT = w.BCOUNT := by
  simpa [World.session] using h

/-- The two reads of `recv_end` that take a 14-byte frame put exactly the frame
on the wire. -/
theorem wire_rdLog_frame (s : List RdEv) (frame more : List Nat)
    (hav : avail s = frame ++ more) (hlen : frame.length = 14) :
    wire (rdLog .tty s 1 ++ rdLog .tty (rdRest s 1) 13) =
      frame.map (fun x => (true, x)) := by
  have h := wire_rdLog_three s 1 13 0 frame more hav (by omega)
  rw [wire_append] at h
  have h0 : wire (rdLog .tty (rdRest (rdRest s 1) 13) 0) = [] := by
    rw [wire_rdLog_tty _ 0 (Nat.zero_le _)]; rfl
  rw [h0, List.append_nil] at h
  exact h

/-- One turn of the segment loop of `do_read` on a line that takes the command
and answers it with the DATA packets of the payloads `ps`, each of even length
below 256 and with a valid checksum, which fill the segment, and then with a
14-byte frame that starts with the CMD flag: the data phase ends in a world
`w2`, and the turn is decided by the value `end_result` reads off the frame. -/
theorem read_segment (F n : Nat) (w : World) (count mode : Int)
    (ps : List (List Nat)) (body more : List Nat)
    (hc : 0 < count)
    (hacc : Accepting w.ttyWr) (hfw : w.ttyWr.length + 1 < F)
    (htty : avail w.ttyIn = ps.flatMap data_packet ++ (2 :: body ++ more))
    (hps : ∀ p ∈ ps, p.length % 2 = 0 ∧ p.length < 256)
    (hfill : Fills (seg_len w.BSIZE count) ps) (hbody : body.length = 13)
    (hsacc : Accepting w.stdWr) (hfi : w.ttyIn.length < F) (hfs : w.stdWr.length + 1 < F)
    (hn : ps.length < F) :
    ∃ w2,
      read_data F F (w.sentCmd CMD_READ w.UNIT w.BNUM (seg_len w.BSIZE count) mode)
        (seg_len w.BSIZE count) = some (0, w2) ∧
      ReadPhase (w.sentCmd CMD_READ w.UNIT w.BNUM (seg_len w.BSIZE count) mode) w2 ps
        (2 :: body ++ more) ∧
      read_segments F (n + 1) w count mode =
        if end_result (2 :: body) < 0 ∨ end_result (2 :: body) ≠ seg_len w.BSIZE count then
          some (-1, w2.gotEnd (seg_blocks w.BSIZE (seg_len w.BSIZE count)) (2 :: body))
        else
          read_segments F n
            (w2.gotEnd (seg_blocks w.BSIZE (seg_len w.BSIZE count)) (2 :: body))
            (count - seg_blocks w.BSIZE (seg_len w.BSIZE count)) mode := by
  have hsend := send_cmd_eq F w CMD_READ w.UNIT w.BNUM (seg_len w.BSIZE count) mode hacc hfw
  obtain ⟨w2, hrun, hph⟩ := read_data_packets ps F F
    (w.sentCmd CMD_READ w.UNIT w.BNUM (seg_len w.BSIZE count) mode)
    (seg_len w.BSIZE count) (2 :: body ++ more) htty hps hfill hsacc hfi hfs hn
  refine ⟨w2, hrun, hph, ?_⟩
  obtain ⟨_, havl, _, hses, _, _, _, _, _, _, _, hl2⟩ := hph
  obtain ⟨_, _, _, _, hbs, _⟩ := session_eq _ _ hses
  have hbs' : w2.BSIZE = w.BSIZE := hbs
  have hend := recv_end_cmd F
    { w2 with BNUM := w2.BNUM + seg_blocks w2.BSIZE (seg_len w.BSIZE count) } body more
    havl hbody (Nat.lt_of_le_of_lt hl2 hfi)
  unfold World.sentCmd at hrun
  rw [read_segments_step _ _ _ _ _ hc]
  unfold send_read
  rw [hsend]
  simp only [show ¬ ((0 : Int) < 0) by decide, if_false]
  rw [hrun]
  simp only [show ¬ ((0 : Int) < 0) by decide, if_false]
  rw [hend]
  simp only [World.gotEnd, hbs']
  by_cases h1 : end_result (2 :: body) < 0
  · simp [h1]
  · by_cases h2 : end_result (2 :: body) ≠ seg_len w.BSIZE count
    · simp [h1, h2]
    · simp [h1, h2]


/-- One turn of the segment loop of `do_write` for a segment of `k` chunks of
128 bytes, on a line that takes everything written, sends a CONT for every chunk
and then a 14-byte frame that starts with the CMD flag, with the `128 * k`
payload bytes on standard input: the data phase ends in a world `w2`, and the
turn is decided by the value `end_result` reads off the frame. -/
theorem write_segment (F n : Nat) (w : World) (count mode : Int) (k : Nat)
    (payload body more more2 : List Nat)
    (hc : 0 < count) (hk : seg_len w.BSIZE count = ((128 * k : Nat) : Int))
    (hacc : Accepting w.ttyWr) (hfw : w.ttyWr.length + 1 < F)
    (htty : avail w.ttyIn = List.replicate k 16 ++ (2 :: body ++ more))
    (hstd : avail w.stdIn = payload ++ more2) (hpl : payload.length = 128 * k)
    (hbody : body.length = 13)
    (hfi : w.ttyIn.length < F) (hfs : w.stdIn.length < F) (hn : k < F) :
    ∃ w2,
      write_data F F (w.sentCmd CMD_WRITE w.UNIT w.BNUM (seg_len w.BSIZE count) mode)
        (seg_len w.BSIZE count) = some (0, w2) ∧
      WrotePhase (w.sentCmd CMD_WRITE w.UNIT w.BNUM (seg_len w.BSIZE count) mode) w2
        (chunks 128 k payload) (2 :: body ++ more) more2 ∧
      write_segments F (n + 1) w count mode =
        if end_result (2 :: body) < 0 ∨ end_result (2 :: body) ≠ seg_len w.BSIZE count then
          some (-1, w2.gotEnd (seg_blocks w.BSIZE (seg_len w.BSIZE count)) (2 :: body))
        else
          write_segments F n
            (w2.gotEnd (seg_blocks w.BSIZE (seg_len w.BSIZE count)) (2 :: body))
            (count - seg_blocks w.BSIZE (seg_len w.BSIZE count)) mode := by
  have hsend := send_cmd_eq F w CMD_WRITE w.UNIT w.BNUM (seg_len w.BSIZE count) mode hacc hfw
  obtain ⟨w2, hrun, hph⟩ := write_data_chunks k F F
    (w.sentCmd CMD_WRITE w.UNIT w.BNUM (seg_len w.BSIZE count) mode)
    payload (2 :: body ++ more) more2 htty hstd hpl
    (show Accepting (wrRest w.ttyWr 14) from wrRest_accepting _ _ hacc) hfi hfs
    (show (wrRest w.ttyWr 14).length + 1 < F from
      Nat.lt_of_le_of_lt (Nat.add_le_add_right (wrRest_length_le _ _) 1) hfw) hn
  rw [← hk] at hrun
  refine ⟨w2, hrun, hph, ?_⟩
  obtain ⟨_, havl, _, _, hses, _, _, _, _, _, _, hl2, _⟩ := hph
  obtain ⟨_, _, _, _, hbs, _⟩ := session_eq _ _ hses
  have hbs' : w2.BSIZE = w.BSIZE := hbs
  have hend := recv_end_cmd F
    { w2 with BNUM := w2.BNUM + seg_blocks w2.BSIZE (seg_len w.BSIZE count) } body more
    havl hbody (Nat.lt_of_le_of_lt hl2 hfi)
  unfold World.sentCmd at hrun
  rw [write_segments_step _ _ _ _ _ hc]
  unfold send_write
  rw [hsend]
  simp only [show ¬ ((0 : Int) < 0) by decide, if_false]
  rw [hrun]
  simp only [show ¬ ((0 : Int) < 0) by decide, if_false]
  rw [hend]
  simp only [World.gotEnd, hbs']
  by_cases h1 : end_result (2 :: body) < 0
  · simp [h1]
  · by_cases h2 : end_result (2 :: body) ≠ seg_len w.BSIZE count
    · simp [h1, h2]
    · simp [h1, h2]

/-- A segment length is a whole number of chunks of 128 bytes. -/
theorem seg_len_chunks (bs : Nat) (count : Int) (hbs : bs = 128 ∨ bs = 512)
    (h1 : 1 ≤ count) (h2 : count ≤ 2048) :
    seg_len bs count = ((128 * ((seg_len bs count).toNat / 128) : Nat) : Int) := by
  rw [seg_len_eq bs count hbs h1 h2]
  rcases hbs with rfl | rfl <;> split_ifs <;> push_cast <;> omega


/-! ## Command sequencer: the END response -/

/-- The behaviour that C11 describes, for DATA packets of even length (see
`read_corrupt_end_odd_packet_never_returns` for a packet of odd length). A READ
segment whose DATA packets arrive intact (payloads `ps`, of even length, written
to standard output in order) and whose 14-byte response has a wrong checksum:
the segment loop of `do_read`, at any turn, and `do_read` itself at its first
turn, return -1, and the world they leave is the world `w2` in which the data
phase ended changed only by the position update of line 392 and the two reads
(of 1 and 13 bytes) that took the response. Nothing is written after the READ
command: the line output is the old one followed by that one frame; the traffic
of the call is the command, the DATA packets and the 14 bytes of the response,
with no break signal; and the line input after the response is still to come. -/
theorem read_end_corrupt_stops (F n : Nat) (w : World) (count mode : Int)
    (ps : List (List Nat)) (body more : List Nat)
    (hc : 0 < count)
    (hacc : Accepting w.ttyWr) (hfw : w.ttyWr.length + 1 < F)
    (htty : avail w.ttyIn = ps.flatMap data_packet ++ (2 :: body ++ more))
    (hps : ∀ p ∈ ps, p.length % 2 = 0 ∧ p.length < 256)
    (hfill : Fills (seg_len w.BSIZE count) ps) (hbody : body.length = 13)
    (hsacc : Accepting w.stdWr) (hfi : w.ttyIn.length < F) (hfs : w.stdWr.length + 1 < F)
    (hn : ps.length < F)
    (hbad : peek (2 :: body) 12 ≠ lo (wordsum ((2 :: body).take 12) 0) ∨
      peek (2 :: body) 13 ≠ hi (wordsum ((2 :: body).take 12) 0)) :
    ∃ w2,
      read_data F F (w.sentCmd CMD_READ w.UNIT w.BNUM (seg_len w.BSIZE count) mode)
        (seg_len w.BSIZE count) = some (0, w2) ∧
      read_segments F (n + 1) w count mode =
        some (-1, w2.gotEnd (seg_blocks w.BSIZE (seg_len w.BSIZE count)) (2 :: body)) ∧
      (count ≤ w.BCOUNT - w.BNUM → do_read F w count mode =
        some (-1, w2.gotEnd (seg_blocks w.BSIZE (seg_len w.BSIZE count)) (2 :: body))) ∧
      (w2.gotEnd (seg_blocks w.BSIZE (seg_len w.BSIZE count)) (2 :: body)).ttyOut =
        w.ttyOut ++ cmd_frame w CMD_READ w.UNIT w.BNUM (seg_len w.BSIZE count) mode ∧
      (w2.gotEnd (seg_blocks w.BSIZE (seg_len w.BSIZE count)) (2 :: body)).stdOut =
        w.stdOut ++ ps.flatten ∧
      (∃ L, (w2.gotEnd (seg_blocks w.BSIZE (seg_len w.BSIZE count)) (2 :: body)).log =
          w.log ++ L ∧
        wire L =
          (cmd_frame w CMD_READ w.UNIT w.BNUM (seg_len w.BSIZE count) mode).map
            (fun b => (false, b)) ++ readTraffic ps ++ (2 :: body).map (fun b => (true, b)) ∧
        breaks L = 0) ∧
      avail (w2.gotEnd (seg_blocks w.BSIZE (seg_len w.BSIZE count)) (2 :: body)).ttyIn =
        more := by
  have hres : end_result (2 :: body) = -2 := by
    simp only [end_result, ne_eq, hbad, if_true]
  have hif : end_result (2 :: body) < 0 ∨ end_result (2 :: body) ≠ seg_len w.BSIZE count :=
    Or.inl (by rw [hres]; decide)
  obtain ⟨f, rfl⟩ : ∃ f, F = f + 1 := ⟨F - 1, by omega⟩
  obtain ⟨w2, hrun, hph, hseg⟩ := read_segment (f + 1) n w count mode ps body more hc hacc hfw
    htty hps hfill hbody hsacc hfi hfs hn
  obtain ⟨w2', hrun', _, hseg'⟩ := read_segment (f + 1) f w count mode ps body more hc hacc
    hfw htty hps hfill hbody hsacc hfi hfs hn
  have hw : w2' = w2 := by
    rw [hrun] at hrun'
    exact (Prod.mk.inj (Option.some.inj hrun')).2.symm
  subst hw
  rw [if_pos hif] at hseg hseg'
  obtain ⟨hout, havl, ⟨L, hlog, hwire, hbr⟩, _, _, hto, _, _, _, _, _, _⟩ := hph
  have havl' : avail w2'.ttyIn = (2 :: body) ++ more := havl
  refine ⟨w2', hrun, hseg, ?_, hto, hout, ⟨wrLog .tty w.ttyWr
      (cmd_frame w CMD_READ w.UNIT w.BNUM (seg_len w.BSIZE count) mode) ++ L ++
      (rdLog .tty w2'.ttyIn 1 ++ rdLog .tty (rdRest w2'.ttyIn 1) 13), ?_, ?_, ?_⟩, ?_⟩
  · intro hc2
    unfold do_read
    rw [count_accepted w count (by omega) hc2]
    simp only [Bool.false_eq_true, if_false]
    exact hseg'
  · show w2'.log ++ rdLog .tty w2'.ttyIn 1 ++ rdLog .tty (rdRest w2'.ttyIn 1) 13 = _
    rw [hlog]
    simp only [World.sentCmd, List.append_assoc]
  · rw [wire_append, wire_append, wire_wrLog_tty _ _ hacc, hwire,
      wire_rdLog_frame _ _ _ havl' (by simp [hbody])]
  · simp only [breaks_append, breaks_rdLog, breaks_wrLog, hbr]
  · show avail (rdRest (rdRest w2'.ttyIn 1) 13) = more
    rw [avail_rdRest2 _ 1 13 (by rw [havl']; simp [hbody]), havl']
    exact List.drop_left' (by simp [hbody])


/-- An instance of `read_end_corrupt_stops`: a READ of one block of 128 bytes
whose DATA packet is intact and whose END frame carries the checksum bytes
0, 0. -/
theorem read_end_corrupt_stops_witness :
    (0 : Int) < 1 ∧ Accepting worldBadEnd.ttyWr ∧ worldBadEnd.ttyWr.length + 1 < 5 ∧
    avail worldBadEnd.ttyIn = [List.replicate 128 7].flatMap data_packet ++
      (2 :: [10, 64, 0, 0, 0, 0, 0, 128, 0, 0, 0, 0, 0] ++ []) ∧
    (∀ p ∈ [List.replicate 128 7], p.length % 2 = 0 ∧ p.length < 256) ∧
    Fills (seg_len worldBadEnd.BSIZE 1) [List.replicate 128 7] ∧
    [10, 64, 0, 0, 0, 0, 0, 128, 0, 0, 0, 0, 0].length = 13 ∧
    Accepting worldBadEnd.stdWr ∧ worldBadEnd.ttyIn.length < 5 ∧
    worldBadEnd.stdWr.length + 1 < 5 ∧ [List.replicate 128 7].length < 5 ∧
    (peek (2 :: [10, 64, 0, 0, 0, 0, 0, 128, 0, 0, 0, 0, 0]) 12 ≠
        lo (wordsum ((2 :: [10, 64, 0, 0, 0, 0, 0, 128, 0, 0, 0, 0, 0]).take 12) 0) ∨
      peek (2 :: [10, 64, 0, 0, 0, 0, 0, 128, 0, 0, 0, 0, 0]) 13 ≠
        hi (wordsum ((2 :: [10, 64, 0, 0, 0, 0, 0, 128, 0, 0, 0, 0, 0]).take 12) 0)) ∧
    (1 : Int) ≤ worldBadEnd.BCOUNT - worldBadEnd.BNUM ∧
    ∃ w2 : World, do_read 5 worldBadEnd 1 0 =
        some (-1, w2.gotEnd (seg_blocks worldBadEnd.BSIZE (seg_len worldBadEnd.BSIZE 1))
          (2 :: [10, 64, 0, 0, 0, 0, 0, 128, 0, 0, 0, 0, 0])) ∧
      (w2.gotEnd (seg_blocks worldBadEnd.BSIZE (seg_len worldBadEnd.BSIZE 1))
          (2 :: [10, 64, 0, 0, 0, 0, 0, 128, 0, 0, 0, 0, 0])).ttyOut =
        worldBadEnd.ttyOut ++ cmd_frame worldBadEnd CMD_READ worldBadEnd.UNIT
          worldBadEnd.BNUM (seg_len worldBadEnd.BSIZE 1) 0 ∧
      (w2.gotEnd (seg_blocks worldBadEnd.BSIZE (seg_len worldBadEnd.BSIZE 1))
          (2 :: [10, 64, 0, 0, 0, 0, 0, 128, 0, 0, 0, 0, 0])).stdOut =
        worldBadEnd.stdOut ++ [List.replicate 128 7].flatten ∧
      avail (w2.gotEnd (seg_blocks worldBadEnd.BSIZE (seg_len worldBadEnd.BSIZE 1))
          (2 :: [10, 64, 0, 0, 0, 0, 0, 128, 0, 0, 0, 0, 0])).ttyIn = [] :=
  have hps : ∀ p ∈ [List.replicate 128 7], p.length % 2 = 0 ∧ p.length < 256 := by
    intro p hp
    rw [List.mem_singleton] at hp
    subst hp
    simp
  have hfill : Fills (seg_len worldBadEnd.BSIZE 1) [List.replicate 128 7] := by
    show 0 < seg_len 128 1 ∧ seg_len 128 1 - ((List.replicate 128 7).length : Int) ≤ 0
    rw [seg_len_eq 128 1 (Or.inl rfl) (by decide) (by decide)]
    simp
  have hbad : peek (2 :: [10, 64, 0, 0, 0, 0, 0, 128, 0, 0, 0, 0, 0]) 12 ≠
        lo (wordsum ((2 :: [10, 64, 0, 0, 0, 0, 0, 128, 0, 0, 0, 0, 0]).take 12) 0) ∨
      peek (2 :: [10, 64, 0, 0, 0, 0, 0, 128, 0, 0, 0, 0, 0]) 13 ≠
        hi (wordsum ((2 :: [10, 64, 0, 0, 0, 0, 0, 128, 0, 0, 0, 0, 0]).take 12) 0) :=
    Or.inl (by decide)
  ⟨by decide, fun e he => absurd he (List.not_mem_nil e), by decide, rfl, hps, hfill, rfl,
   fun e he => absurd he (List.not_mem_nil e), by decide, by decide, by decide, hbad,
   by decide,
   (read_end_corrupt_stops 5 0 worldBadEnd 1 0 [List.replicate 128 7]
      [10, 64, 0, 0, 0, 0, 0, 128, 0, 0, 0, 0, 0] [] (by decide)
      (fun e he => absurd he (List.not_mem_nil e)) (by decide) rfl hps hfill rfl
      (fun e he => absurd he (List.not_mem_nil e)) (by decide) (by decide) (by decide)
      hbad).elim fun w2 h => ⟨w2, h.2.2.1 (by decide), h.2.2.2.1, h.2.2.2.2.1, h.2.2.2.2.2.2⟩⟩


/-- A READ segment whose response, a 14-byte frame that starts with the CMD
flag, is refused by the test of lines 395-396: the segment loop and `do_read`
return -1 in the world the data phase left, changed by the position update and
the two reads of the response only. -/
theorem read_segment_stops (F n : Nat) (w : World) (count mode : Int)
    (ps : List (List Nat)) (body more : List Nat)
    (hc : 0 < count)
    (hacc : Accepting w.ttyWr) (hfw : w.ttyWr.length + 1 < F)
    (htty : avail w.ttyIn = ps.flatMap data_packet ++ (2 :: body ++ more))
    (hps : ∀ p ∈ ps, p.length % 2 = 0 ∧ p.length < 256)
    (hfill : Fills (seg_len w.BSIZE count) ps) (hbody : body.length = 13)
    (hsacc : Accepting w.stdWr) (hfi : w.ttyIn.length < F) (hfs : w.stdWr.length + 1 < F)
    (hn : ps.length < F)
    (hif : end_result (2 :: body) < 0 ∨ end_result (2 :: body) ≠ seg_len w.BSIZE count) :
    ∃ w2,
      read_data F F (w.sentCmd CMD_READ w.UNIT w.BNUM (seg_len w.BSIZE count) mode)
        (seg_len w.BSIZE count) = some (0, w2) ∧
      read_segments F (n + 1) w count mode =
        some (-1, w2.gotEnd (seg_blocks w.BSIZE (seg_len w.BSIZE count)) (2 :: body)) ∧
      (count ≤ w.BCOUNT - w.BNUM → do_read F w count mode =
        some (-1, w2.gotEnd (seg_blocks w.BSIZE (seg_len w.BSIZE count)) (2 :: body))) ∧
      w2.ttyOut =
        w.ttyOut ++ cmd_frame w CMD_READ w.UNIT w.BNUM (seg_len w.BSIZE count) mode ∧
      w2.stdOut = w.stdOut ++ ps.flatten ∧
      avail (rdRest (rdRest w2.ttyIn 1) 13) = more := by
  obtain ⟨f, rfl⟩ : ∃ f, F = f + 1 := ⟨F - 1, by omega⟩
  obtain ⟨w2, hrun, hph, hseg⟩ := read_segment (f + 1) n w count mode ps body more hc hacc hfw
    htty hps hfill hbody hsacc hfi hfs hn
  obtain ⟨w2', hrun', _, hseg'⟩ := read_segment (f + 1) f w count mode ps body more hc hacc
    hfw htty hps hfill hbody hsacc hfi hfs hn
  have hw : w2' = w2 := by
    rw [hrun] at hrun'
    exact (Prod.mk.inj (Option.some.inj hrun')).2.symm
  subst hw
  rw [if_pos hif] at hseg hseg'
  obtain ⟨hout, havl, _, _, _, hto, _, _, _, _, _, _⟩ := hph
  have havl' : avail w2'.ttyIn = (2 :: body) ++ more := havl
  refine ⟨w2', hrun, hseg, ?_, hto, hout, ?_⟩
  · intro hc2
    unfold do_read
    rw [count_accepted w count (by omega) hc2]
    simp only [Bool.false_eq_true, if_false]
    exact hseg'
  · rw [avail_rdRest2 _ 1 13 (by rw [havl']; simp [hbody]), havl']
    exact List.drop_left' (by simp [hbody])

/-- A WRITE segment whose response, a 14-byte frame that starts with the CMD
flag, is refused by the test of lines 421-422: the segment loop and `do_write`
return -1 in the world the data phase left, changed by the position update and
the two reads of the response only. -/
theorem write_segment_stops (F n : Nat) (w : World) (count mode : Int) (k : Nat)
    (payload body more more2 : List Nat)
    (hc : 0 < count) (hk : seg_len w.BSIZE count = ((128 * k : Nat) : Int))
    (hacc : Accepting w.ttyWr) (hfw : w.ttyWr.length + 1 < F)
    (htty : avail w.ttyIn = List.replicate k 16 ++ (2 :: body ++ more))
    (hstd : avail w.stdIn = payload ++ more2) (hpl : payload.length = 128 * k)
    (hbody : body.length = 13)
    (hfi : w.ttyIn.length < F) (hfs : w.stdIn.length < F) (hn : k < F)
    (hif : end_result (2 :: body) < 0 ∨ end_result (2 :: body) ≠ seg_len w.BSIZE count) :
    ∃ w2,
      write_data F F (w.sentCmd CMD_WRITE w.UNIT w.BNUM (seg_len w.BSIZE count) mode)
        (seg_len w.BSIZE count) = some (0, w2) ∧
      write_segments F (n + 1) w count mode =
        some (-1, w2.gotEnd (seg_blocks w.BSIZE (seg_len w.BSIZE count)) (2 :: body)) ∧
      (count ≤ w.BCOUNT - w.BNUM → do_write F w count mode =
        some (-1, w2.gotEnd (seg_blocks w.BSIZE (seg_len w.BSIZE count)) (2 :: body))) ∧
      w2.ttyOut =
        w.ttyOut ++ cmd_frame w CMD_WRITE w.UNIT w.BNUM (seg_len w.BSIZE count) mode ++
          (chunks 128 k payload).flatMap data_packet ∧
      avail (rdRest (rdRest w2.ttyIn 1) 13) = more := by
  obtain ⟨f, rfl⟩ : ∃ f, F = f + 1 := ⟨F - 1, by omega⟩
  obtain ⟨w2, hrun, hph, hseg⟩ := write_segment (f + 1) n w count mode k payload body more
    more2 hc hk hacc hfw htty hstd hpl hbody hfi hfs hn
  obtain ⟨w2', hrun', _, hseg'⟩ := write_segment (f + 1) f w count mode k payload body more
    more2 hc hk hacc hfw htty hstd hpl hbody hfi hfs hn
  have hw : w2' = w2 := by
    rw [hrun] at hrun'
    exact (Prod.mk.inj (Option.some.inj hrun')).2.symm
  subst hw
  rw [if_pos hif] at hseg hseg'
  obtain ⟨hout, havl, _, _, _, _, _, _, _, _, _, _, _⟩ := hph
  have havl' : avail w2'.ttyIn = (2 :: body) ++ more := havl
  refine ⟨w2', hrun, hseg, ?_, hout, ?_⟩
  · intro hc2
    unfold do_write
    rw [count_accepted w count (by omega) hc2]
    simp only [Bool.false_eq_true, if_false]
    exact hseg'
  · rw [avail_rdRest2 _ 1 13 (by rw [havl']; simp [hbody]), havl']
    exact List.drop_left' (by simp [hbody])

/-- A frame with a valid checksum whose byte-count field differs from `len` is
refused by the test `ct < 0` or `ct != len`, whatever its opcode. -/
theorem end_result_mismatch (frame : List Nat) (len : Int)
    (hck : peek frame 12 = lo (wordsum (frame.take 12) 0) ∧
      peek frame 13 = hi (wordsum (frame.take 12) 0))
    (hne : (peek frame 8 : Int) + (peek frame 9 : Int) * 256 ≠ len) :
    end_result frame < 0 ∨ end_result frame ≠ len := by
  have h1 : ¬ (peek frame 12 ≠ lo (wordsum (frame.take 12) 0) ∨
      peek frame 13 ≠ hi (wordsum (frame.take 12) 0)) := by
    rw [not_or]; exact ⟨not_not.mpr hck.1, not_not.mpr hck.2⟩
  unfold end_result
  rw [if_neg h1]
  split_ifs with h2
  · exact Or.inr hne
  · exact Or.inl (by decide)


/-- The behaviour that C12 describes, for a WRITE and for a READ whose DATA
packets have even length (see `read_count_mismatch_odd_packet_never_returns` for
a packet of odd length). A READ or WRITE segment (block size `bs`, `count`
blocks to go) whose response is a 14-byte CMD frame with a valid checksum and a
byte-count field
that differs from the segment length `seg_len bs count` sent in the command:
the segment loop, at any turn, and `do_read` / `do_write` at their first turn,
return -1. The world they leave has on the line output the command of this
segment (for a WRITE followed by its DATA packets) and nothing after it, so no
further segment command is sent, and the line input after the response is still
to come. -/
theorem end_count_mismatch_stops (F n bs : Nat) (count mode : Int) (body : List Nat)
    (hc : 0 < count) (hbody : body.length = 13)
    (hck : peek (2 :: body) 12 = lo (wordsum ((2 :: body).take 12) 0) ∧
      peek (2 :: body) 13 = hi (wordsum ((2 :: body).take 12) 0))
    (hne : (peek (2 :: body) 8 : Int) + (peek (2 :: body) 9 : Int) * 256 ≠
      seg_len bs count) :
    (∀ (w : World) (ps : List (List Nat)) (more : List Nat),
      w.BSIZE = bs → Accepting w.ttyWr → w.ttyWr.length + 1 < F →
      avail w.ttyIn = ps.flatMap data_packet ++ (2 :: body ++ more) →
      (∀ p ∈ ps, p.length % 2 = 0 ∧ p.length < 256) → Fills (seg_len bs count) ps →
      Accepting w.stdWr → w.ttyIn.length < F → w.stdWr.length + 1 < F → ps.length < F →
      ∃ w2 : World,
        read_segments F (n + 1) w count mode =
          some (-1, w2.gotEnd (seg_blocks bs (seg_len bs count)) (2 :: body)) ∧
        (count ≤ w.BCOUNT - w.BNUM → do_read F w count mode =
          some (-1, w2.gotEnd (seg_blocks bs (seg_len bs count)) (2 :: body))) ∧
        (w2.gotEnd (seg_blocks bs (seg_len bs count)) (2 :: body)).ttyOut =
          w.ttyOut ++ cmd_frame w CMD_READ w.UNIT w.BNUM (seg_len bs count) mode ∧
        avail (w2.gotEnd (seg_blocks bs (seg_len bs count)) (2 :: body)).ttyIn = more) ∧
    (∀ (w : World) (k : Nat) (payload more more2 : List Nat),
      w.BSIZE = bs → seg_len bs count = ((128 * k : Nat) : Int) →
      Accepting w.ttyWr → w.ttyWr.length + 1 < F →
      avail w.ttyIn = List.replicate k 16 ++ (2 :: body ++ more) →
      avail w.stdIn = payload ++ more2 → payload.length = 128 * k →
      w.ttyIn.length < F → w.stdIn.length < F → k < F →
      ∃ w2 : World,
        write_segments F (n + 1) w count mode =
          some (-1, w2.gotEnd (seg_blocks bs (seg_len bs count)) (2 :: body)) ∧
        (count ≤ w.BCOUNT - w.BNUM → do_write F w count mode =
          some (-1, w2.gotEnd (seg_blocks bs (seg_len bs count)) (2 :: body))) ∧
        (w2.gotEnd (seg_blocks bs (seg_len bs count)) (2 :: body)).ttyOut =
          w.ttyOut ++ cmd_frame w CMD_WRITE w.UNIT w.BNUM (seg_len bs count) mode ++
            (chunks 128 k payload).flatMap data_packet ∧
        avail (w2.gotEnd (seg_blocks bs (seg_len bs count)) (2 :: body)).ttyIn = more) := by
  have hif := end_result_mismatch (2 :: body) (seg_len bs count) hck hne
  constructor
  · intro w ps more hbs hacc hfw htty hps hfill hsacc hfi hfs hn
    subst hbs
    obtain ⟨w2, _, hseg, hdo, hout, _, hav⟩ := read_segment_stops F n w count mode ps body
      more hc hacc hfw htty hps hfill hbody hsacc hfi hfs hn hif
    exact ⟨w2, hseg, hdo, hout, hav⟩
  · intro w k payload more more2 hbs hk hacc hfw htty hstd hpl hfi hfs hn
    subst hbs
    obtain ⟨w2, _, hseg, hdo, hout, hav⟩ := write_segment_stops F n w count mode k payload
      body more more2 hc hk hacc hfw htty hstd hpl hbody hfi hfs hn hif
    exact ⟨w2, hseg, hdo, hout, hav⟩

/-- An instance of `end_count_mismatch_stops`: a READ and a WRITE of one block
of 128 bytes answered by a valid END frame with the byte count 64. -/
theorem end_count_mismatch_stops_witness :
    (0 : Int) < 1 ∧ [10, 64, 0, 0, 0, 0, 0, 64, 0, 0, 0, 130, 10].length = 13 ∧
    (peek (2 :: [10, 64, 0, 0, 0, 0, 0, 64, 0, 0, 0, 130, 10]) 12 =
        lo (wordsum ((2 :: [10, 64, 0, 0, 0, 0, 0, 64, 0, 0, 0, 130, 10]).take 12) 0) ∧
      peek (2 :: [10, 64, 0, 0, 0, 0, 0, 64, 0, 0, 0, 130, 10]) 13 =
        hi (wordsum ((2 :: [10, 64, 0, 0, 0, 0, 0, 64, 0, 0, 0, 130, 10]).take 12) 0)) ∧
    ((peek (2 :: [10, 64, 0, 0, 0, 0, 0, 64, 0, 0, 0, 130, 10]) 8 : Int) +
      (peek (2 :: [10, 64, 0, 0, 0, 0, 0, 64, 0, 0, 0, 130, 10]) 9 : Int) * 256 ≠
      seg_len 128 1) ∧
    (∃ w2 : World,
      do_read 5 worldShortRead 1 0 = some (-1, w2.gotEnd (seg_blocks 128 (seg_len 128 1))
        (2 :: [10, 64, 0, 0, 0, 0, 0, 64, 0, 0, 0, 130, 10])) ∧
      (w2.gotEnd (seg_blocks 128 (seg_len 128 1))
          (2 :: [10, 64, 0, 0, 0, 0, 0, 64, 0, 0, 0, 130, 10])).ttyOut =
        worldShortRead.ttyOut ++ cmd_frame worldShortRead CMD_READ worldShortRead.UNIT
          worldShortRead.BNUM (seg_len 128 1) 0) ∧
    (∃ w2 : World,
      do_write 5 worldShortWrite 1 0 = some (-1, w2.gotEnd (seg_blocks 128 (seg_len 128 1))
        (2 :: [10, 64, 0, 0, 0, 0, 0, 64, 0, 0, 0, 130, 10])) ∧
      (w2.gotEnd (seg_blocks 128 (seg_len 128 1))
          (2 :: [10, 64, 0, 0, 0, 0, 0, 64, 0, 0, 0, 130, 10])).ttyOut =
        worldShortWrite.ttyOut ++ cmd_frame worldShortWrite CMD_WRITE worldShortWrite.UNIT
          worldShortWrite.BNUM (seg_len 128 1) 0 ++
          (chunks 128 1 (List.replicate 128 7)).flatMap data_packet) :=
  have hlen : seg_len 128 1 = 128 := by
    rw [seg_len_eq 128 1 (Or.inl rfl) (by decide) (by decide)]; decide
  have hck : peek (2 :: [10, 64, 0, 0, 0, 0, 0, 64, 0, 0, 0, 130, 10]) 12 =
        lo (wordsum ((2 :: [10, 64, 0, 0, 0, 0, 0, 64, 0, 0, 0, 130, 10]).take 12) 0) ∧
      peek (2 :: [10, 64, 0, 0, 0, 0, 0, 64, 0, 0, 0, 130, 10]) 13 =
        hi (wordsum ((2 :: [10, 64, 0, 0, 0, 0, 0, 64, 0, 0, 0, 130, 10]).take 12) 0) :=
    ⟨by decide, by decide⟩
  have hne : (peek (2 :: [10, 64, 0, 0, 0, 0, 0, 64, 0, 0, 0, 130, 10]) 8 : Int) +
      (peek (2 :: [10, 64, 0, 0, 0, 0, 0, 64, 0, 0, 0, 130, 10]) 9 : Int) * 256 ≠
      seg_len 128 1 := by
    rw [hlen]; decide
  have hps : ∀ p ∈ [List.replicate 128 7], p.length % 2 = 0 ∧ p.length < 256 := by
    intro p hp
    rw [List.mem_singleton] at hp
    subst hp
    simp
  have hfill : Fills (seg_len 128 1) [List.replicate 128 7] := by
    show 0 < seg_len 128 1 ∧ seg_len 128 1 - ((List.replicate 128 7).length : Int) ≤ 0
    rw [hlen]
    simp
  have h := end_count_mismatch_stops 5 0 128 1 0 [10, 64, 0, 0, 0, 0, 0, 64, 0, 0, 0, 130, 10]
    (by decide) rfl hck hne
  ⟨by decide, rfl, hck, hne,
   (h.1 worldShortRead [List.replicate 128 7] [] rfl
      (fun e he => absurd he (List.not_mem_nil e)) (by decide) rfl hps hfill
      (fun e he => absurd he (List.not_mem_nil e)) (by decide) (by decide) (by decide)).elim
     fun w2 hw => ⟨w2, hw.2.1 (by decide), hw.2.2.1⟩,
   (h.2 worldShortWrite 1 (List.replicate 128 7) [] [] rfl (by rw [hlen]; rfl)
      (fun e he => absurd he (List.not_mem_nil e)) (by decide) rfl rfl (by simp)
      (by decide) (by decide) (by decide)).elim
     fun w2 hw => ⟨w2, hw.2.1 (by decide), hw.2.2.1⟩⟩


/-! ## Command sequencer: the chunks of a WRITE -/

theorem chunks_length (n k : Nat) : ∀ xs : List Nat, (chunks n k xs).length = k := by
  induction k with
  | zero => intro xs; rfl
  | succ j ih => intro xs; simp [chunks, ih]

/-- The chunks of a list of `n * k` bytes, one after the other, are the list. -/
theorem chunks_flatten (n k : Nat) :
    ∀ xs : List Nat, xs.length = n * k → (chunks n k xs).flatten = xs := by
  induction k with
  | zero =>
    intro xs h
    have : xs = [] := List.length_eq_zero.mp (by simpa using h)
    subst this
    rfl
  | succ j ih =>
    intro xs h
    have hd : (xs.drop n).length = n * j := by
      rw [List.length_drop, h, Nat.mul_succ]; omega
    simp only [chunks, List.flatten_cons, ih _ hd, List.take_append_drop]

/-- Every chunk of a list of `n * k` bytes has `n` bytes. -/
theorem chunks_mem_length (n k : Nat) :
    ∀ xs : List Nat, xs.length = n * k → ∀ c ∈ chunks n k xs, c.length = n := by
  induction k with
  | zero => intro xs _ c hc; simp [chunks] at hc
  | succ j ih =>
    intro xs h c hc
    have hd : (xs.drop n).length = n * j := by
      rw [List.length_drop, h, Nat.mul_succ]; omega
    simp only [chunks, List.mem_cons] at hc
    rcases hc with rfl | hc
    · rw [List.length_take, h, Nat.mul_succ]; omega
    · exact ih _ hd c hc

/-- The DATA packet of a payload of even length carries a valid checksum:
`cksum_buf` over its flag, length byte and payload gives the word sum whose low
and high byte are the last two bytes of the packet. -/
theorem data_packet_valid (c : List Nat) (heven : c.length % 2 = 0) (hlt : c.length < 256) :
    cksum_buf (data_packet c) (c.length + 2) = some (wordsum (1 :: c.length :: c) 0) ∧
    (data_packet c).drop (c.length + 2) =
      [lo (wordsum (1 :: c.length :: c) 0), hi (wordsum (1 :: c.length :: c) 0)] := by
  have hl : (1 :: c.length :: c).length = c.length + 2 := by simp
  constructor
  · have h := cksum_buf_even (1 :: c.length :: c)
      [lo (wordsum (1 :: c.length :: c) 0), hi (wordsum (1 :: c.length :: c) 0)]
      (by rw [hl]; omega) (by rw [hl]; omega)
    rw [hl] at h
    exact h
  · show List.drop (c.length + 2) ((1 :: c.length :: c) ++ _) = _
    rw [List.drop_left' hl]


/-- C15. WRITE flow control and chunking. At any turn of the segment loop of
`do_write` (block size 128 or 512, `count` blocks to go, segment length
`len = seg_len w.BSIZE count`), against a line that sends one CONT byte for
every chunk and then an END frame with a valid checksum and the byte count
`len`, and with `len` payload bytes on standard input: after the WRITE command
the data phase writes the DATA packets of the chunks of the payload, which are
`len / 128` in number, of 128 bytes each, make up the payload in order, and
carry a valid checksum; the traffic of the data phase is, chunk after chunk, one
CONT byte read and then the DATA packet written; and the loop goes on to the
next turn with the blocks of the segment taken off. When the whole transfer is
one segment, `do_write` returns 0. -/
theorem write_chunks_after_cont (F n : Nat) (w : World) (count mode : Int)
    (payload body more more2 : List Nat)
    (hbs : (w.BSIZE = 128 ∧ count ≤ 2048) ∨ (w.BSIZE = 512 ∧ count ≤ 512))
    (hc1 : 1 ≤ count)
    (hacc : Accepting w.ttyWr) (hfw : w.ttyWr.length + 1 < F)
    (htty : avail w.ttyIn =
      List.replicate ((seg_len w.BSIZE count).toNat / 128) 16 ++ (2 :: body ++ more))
    (hstd : avail w.stdIn = payload ++ more2)
    (hpl : payload.length = (seg_len w.BSIZE count).toNat)
    (hbody : body.length = 13) (hend : end_result (2 :: body) = seg_len w.BSIZE count)
    (hfi : w.ttyIn.length < F) (hfs : w.stdIn.length < F)
    (hn : (seg_len w.BSIZE count).toNat / 128 < F) :
    ∃ w2 : World,
      write_data F F (w.sentCmd CMD_WRITE w.UNIT w.BNUM (seg_len w.BSIZE count) mode)
        (seg_len w.BSIZE count) = some (0, w2) ∧
      w2.ttyOut =
        w.ttyOut ++ cmd_frame w CMD_WRITE w.UNIT w.BNUM (seg_len w.BSIZE count) mode ++
          (chunks 128 ((seg_len w.BSIZE count).toNat / 128) payload).flatMap data_packet ∧
      (chunks 128 ((seg_len w.BSIZE count).toNat / 128) payload).length =
        (seg_len w.BSIZE count).toNat / 128 ∧
      (chunks 128 ((seg_len w.BSIZE count).toNat / 128) payload).flatten = payload ∧
      (∀ c ∈ chunks 128 ((seg_len w.BSIZE count).toNat / 128) payload,
        c.length = 128 ∧
        ∃ s, cksum_buf (data_packet c) 130 = some s ∧
          (data_packet c).drop 130 = [lo s, hi s]) ∧
      (∃ L, w2.log = w.log ++ wrLog .tty w.ttyWr
            (cmd_frame w CMD_WRITE w.UNIT w.BNUM (seg_len w.BSIZE count) mode) ++ L ∧
        wire L = writeTraffic (chunks 128 ((seg_len w.BSIZE count).toNat / 128) payload) ∧
        breaks L = 0) ∧
      avail w2.stdIn = more2 ∧
      write_segments F (n + 1) w count mode =
        write_segments F n
          (w2.gotEnd (seg_blocks w.BSIZE (seg_len w.BSIZE count)) (2 :: body))
          (count - seg_blocks w.BSIZE (seg_len w.BSIZE count)) mode ∧
      (count * w.BSIZE ≤ 65535 → count ≤ w.BCOUNT - w.BNUM →
        do_write F w count mode =
          some (0, w2.gotEnd (seg_blocks w.BSIZE (seg_len w.BSIZE count)) (2 :: body))) := by
  revert hend
  have hb : w.BSIZE = 128 ∨ w.BSIZE = 512 := hbs.elim (fun h => Or.inl h.1) (fun h => Or.inr h.1)
  have hc2 : count ≤ 2048 := hbs.elim (fun h => h.2) (fun h => by have := h.2; omega)
  have hk := seg_len_chunks w.BSIZE count hb hc1 hc2
  have hlen := seg_len_eq w.BSIZE count hb hc1 hc2
  generalize hkdef : (seg_len w.BSIZE count).toNat / 128 = k at *
  have hpl' : payload.length = 128 * k := by rw [hpl, hk]; exact Int.toNat_ofNat _
  obtain ⟨f, rfl⟩ : ∃ f, F = f + 1 := ⟨F - 1, by omega⟩
  obtain ⟨g, rfl⟩ : ∃ g, f = g + 1 := ⟨f - 1, by omega⟩
  have hc0 : 0 < count := by omega
  have hblk : count * (w.BSIZE : Int) ≤ 65535 →
      seg_blocks w.BSIZE (seg_len w.BSIZE count) = count := by
    intro hone
    have hl : seg_len w.BSIZE count = count * (w.BSIZE : Int) := by
      rw [hlen, if_neg (by omega)]
    rw [seg_blocks_eq w.BSIZE _ hb (by rw [hl]; rcases hb with h | h <;> rw [h] <;> omega)
      (by rw [hl]; exact hone), hl]
    rcases hb with h | h <;> rw [h] <;> omega
  intro hend
  have hnot : ¬ (end_result (2 :: body) < 0 ∨ end_result (2 :: body) ≠ seg_len w.BSIZE count) := by
    rw [hend, hk]; simp
  clear hend
  obtain ⟨w2, hrun, hph, hseg⟩ := write_segment (g + 1 + 1) n w count mode k payload body more
    more2 hc0 hk hacc hfw htty hstd hpl' hbody hfi hfs hn
  obtain ⟨w2', hrun', _, hseg'⟩ := write_segment (g + 1 + 1) (g + 1) w count mode k payload body
    more more2 hc0 hk hacc hfw htty hstd hpl' hbody hfi hfs hn
  have hw : w2' = w2 := by
    rw [hrun] at hrun'
    exact (Prod.mk.inj (Option.some.inj hrun')).2.symm
  subst hw
  rw [if_neg hnot] at hseg hseg'
  clear hnot
  obtain ⟨hout, _, havs, ⟨L, hlog, hwire, hbr⟩, _, _, _, _, _, _, _, _, _⟩ := hph
  refine ⟨w2', hrun, hout, chunks_length _ _ _, chunks_flatten _ _ _ hpl', ?_,
    ⟨L, hlog, hwire, hbr⟩, havs, hseg, ?_⟩
  · intro c hc
    have hcl := chunks_mem_length 128 k payload hpl' c hc
    have hv := data_packet_valid c (by rw [hcl]) (by rw [hcl]; decide)
    rw [hcl] at hv
    exact ⟨hcl, _, hv.1, hv.2⟩
  · intro hone hguard
    unfold do_write
    rw [count_accepted w count (by omega) hguard]
    simp only [Bool.false_eq_true, if_false]
    rw [hseg', hblk hone, sub_self]
    exact (segments_done _ g _ 0 mode (Int.le_refl 0)).2


/-- Witness of C15: a WRITE of 3 blocks of 512 bytes is one segment of 1536
bytes, sent as exactly 12 DATA packets, and `do_write` returns 0. -/
theorem write_chunks_after_cont_witness :
    ((worldWrite3.BSIZE = 128 ∧ (3 : Int) ≤ 2048) ∨
      (worldWrite3.BSIZE = 512 ∧ (3 : Int) ≤ 512)) ∧
    (1 : Int) ≤ 3 ∧ Accepting worldWrite3.ttyWr ∧ worldWrite3.ttyWr.length + 1 < 20 ∧
    avail worldWrite3.ttyIn =
      List.replicate ((seg_len worldWrite3.BSIZE 3).toNat / 128) 16 ++
        (2 :: [10, 64, 0, 0, 0, 0, 0, 0, 6, 0, 0, 66, 16] ++ []) ∧
    avail worldWrite3.stdIn = List.replicate 1536 7 ++ [] ∧
    (List.replicate 1536 7).length = (seg_len worldWrite3.BSIZE 3).toNat ∧
    [10, 64, 0, 0, 0, 0, 0, 0, 6, 0, 0, 66, 16].length = 13 ∧
    end_result (2 :: [10, 64, 0, 0, 0, 0, 0, 0, 6, 0, 0, 66, 16]) =
      seg_len worldWrite3.BSIZE 3 ∧
    worldWrite3.ttyIn.length < 20 ∧ worldWrite3.stdIn.length < 20 ∧
    (seg_len worldWrite3.BSIZE 3).toNat / 128 < 20 ∧
    (seg_len worldWrite3.BSIZE 3).toNat / 128 = 12 ∧
    ∃ w2 : World,
      do_write 20 worldWrite3 3 0 =
        some (0, w2.gotEnd (seg_blocks worldWrite3.BSIZE (seg_len worldWrite3.BSIZE 3))
          (2 :: [10, 64, 0, 0, 0, 0, 0, 0, 6, 0, 0, 66, 16])) ∧
      w2.ttyOut = worldWrite3.ttyOut ++
        cmd_frame worldWrite3 CMD_WRITE worldWrite3.UNIT worldWrite3.BNUM
          (seg_len worldWrite3.BSIZE 3) 0 ++
        (chunks 128 ((seg_len worldWrite3.BSIZE 3).toNat / 128)
          (List.replicate 1536 7)).flatMap data_packet ∧
      (chunks 128 ((seg_len worldWrite3.BSIZE 3).toNat / 128)
        (List.replicate 1536 7)).length = (seg_len worldWrite3.BSIZE 3).toNat / 128 :=
  have hlen : seg_len worldWrite3.BSIZE 3 = 1536 := by
    show seg_len 512 3 = 1536
    rw [seg_len_eq 512 3 (Or.inr rfl) (by decide) (by decide)]; decide
  have hk : (seg_len worldWrite3.BSIZE 3).toNat / 128 = 12 := by rw [hlen]; rfl
  have htty : avail worldWrite3.ttyIn =
      List.replicate ((seg_len worldWrite3.BSIZE 3).toNat / 128) 16 ++
        (2 :: [10, 64, 0, 0, 0, 0, 0, 0, 6, 0, 0, 66, 16] ++ []) := by
    rw [hk]; rfl
  have hpl : (List.replicate 1536 7).length = (seg_len worldWrite3.BSIZE 3).toNat := by
    rw [hlen, List.length_replicate]; rfl
  have hend : end_result (2 :: [10, 64, 0, 0, 0, 0, 0, 0, 6, 0, 0, 66, 16]) =
      seg_len worldWrite3.BSIZE 3 := by
    rw [hlen]; decide
  have hn : (seg_len worldWrite3.BSIZE 3).toNat / 128 < 20 := by rw [hk]; decide
  ⟨Or.inr ⟨rfl, by decide⟩, by decide, fun e he => absurd he (List.not_mem_nil e),
   by decide, htty, rfl, hpl, rfl, hend, by decide, by decide, hn, hk,
   (write_chunks_after_cont 20 0 worldWrite3 3 0 (List.replicate 1536 7)
      [10, 64, 0, 0, 0, 0, 0, 0, 6, 0, 0, 66, 16] [] []
      (Or.inr ⟨rfl, by decide⟩) (by decide) (fun e he => absurd he (List.not_mem_nil e))
      (by decide) htty rfl hpl rfl hend (by decide) (by decide) hn).elim
     fun w2 h => ⟨w2, h.2.2.2.2.2.2.2.2 (by decide) (by decide), h.2.1, h.2.2.1⟩⟩


/-! ## Command sequencer: a transfer of one segment -/

/-- A transfer that fits one segment: the segment length is `count * bs` and
the segment has `count` blocks. -/
theorem seg_one_segment (bs : Nat) (count : Int) (hb : bs = 128 ∨ bs = 512)
    (h1 : 1 ≤ count) (hone : count * (bs : Int) ≤ 65535) :
    seg_len bs count = count * (bs : Int) ∧ seg_blocks bs (seg_len bs count) = count := by
  have h2 : count ≤ 2048 := by rcases hb with h | h <;> rw [h] at hone <;> omega
  have hl : seg_len bs count = count * (bs : Int) := by
    rw [seg_len_eq bs count hb h1 h2, if_neg (not_lt.mpr hone)]
  refine ⟨hl, ?_⟩
  rw [hl, seg_blocks_eq bs _ hb (by rcases hb with h | h <;> rw [h] <;> omega) hone]
  rcases hb with h | h <;> rw [h] <;> omega

/-- A READ of `count` blocks that fits one segment, on a line that takes the
command and answers it with DATA packets of even length that fill the segment
and with an END frame with a valid checksum and the byte count of the segment:
`do_read` returns 0, the payloads have gone to standard output in order, and the
position has advanced by `count`. -/
theorem read_one_segment (F : Nat) (w : World) (count mode : Int)
    (ps : List (List Nat)) (body more : List Nat)
    (hb : w.BSIZE = 128 ∨ w.BSIZE = 512) (hc1 : 1 ≤ count)
    (hone : count * (w.BSIZE : Int) ≤ 65535) (hguard : count ≤ w.BCOUNT - w.BNUM)
    (hacc : Accepting w.ttyWr) (hfw : w.ttyWr.length + 1 < F)
    (htty : avail w.ttyIn = ps.flatMap data_packet ++ (2 :: body ++ more))
    (hps : ∀ p ∈ ps, p.length % 2 = 0 ∧ p.length < 256)
    (hfill : Fills (seg_len w.BSIZE count) ps) (hbody : body.length = 13)
    (hend : end_result (2 :: body) = seg_len w.BSIZE count)
    (hsacc : Accepting w.stdWr) (hfi : w.ttyIn.length < F) (hfs : w.stdWr.length + 1 < F)
    (hn : ps.length < F) :
    ∃ w2 : World,
      do_read F w count mode = some (0, w2.gotEnd count (2 :: body)) ∧
      (w2.gotEnd count (2 :: body)).BNUM = w.BNUM + count ∧
      (w2.gotEnd count (2 :: body)).BSIZE = w.BSIZE ∧
      (w2.gotEnd count (2 :: body)).BCOUNT = w.BCOUNT ∧
      (w2.gotEnd count (2 :: body)).stdOut = w.stdOut ++ ps.flatten ∧
      (w2.gotEnd count (2 :: body)).ttyOut =
        w.ttyOut ++ cmd_frame w CMD_READ w.UNIT w.BNUM (seg_len w.BSIZE count) mode ∧
      avail (w2.gotEnd count (2 :: body)).ttyIn = more := by
  revert hend
  obtain ⟨hl, hblk⟩ := seg_one_segment w.BSIZE count hb hc1 hone
  have hc0 : 0 < count := lt_of_lt_of_le Int.zero_lt_one hc1
  have hrej := count_accepted w count (le_of_lt hc0) hguard
  have hF : 2 ≤ F := Nat.succ_le_of_lt (Nat.lt_of_le_of_lt (Nat.le_add_left 1 _) hfw)
  obtain ⟨g, rfl⟩ : ∃ g, F = g + 1 + 1 := ⟨F - 2, (Nat.sub_add_cancel hF).symm⟩
  have hpos : 0 ≤ seg_len w.BSIZE count := by
    rw [hl]; exact Int.mul_nonneg (le_of_lt hc0) (Int.ofNat_nonneg _)
  intro hend
  have hnot : ¬ (end_result (2 :: body) < 0 ∨ end_result (2 :: body) ≠ seg_len w.BSIZE count) := by
    rw [hend, not_or]; exact ⟨not_lt.mpr hpos, not_not.mpr rfl⟩
  clear hend
  obtain ⟨w2, _, hph, hseg⟩ := read_segment (g + 1 + 1) (g + 1) w count mode ps body more hc0
    hacc hfw htty hps hfill hbody hsacc hfi hfs hn
  rw [if_neg hnot, hblk, sub_self] at hseg
  clear hnot
  obtain ⟨hout, havl, _, hses, _, hto, _, _, _, _, _, _⟩ := hph
  obtain ⟨_, _, _, hbn, hbsz, hbc⟩ := session_eq _ _ hses
  have havl' : avail w2.ttyIn = (2 :: body) ++ more := havl
  refine ⟨w2, ?_, ?_, hbsz, hbc, hout, hto, ?_⟩
  · unfold do_read
    rw [hrej]
    simp only [Bool.false_eq_true, if_false]
    rw [hseg]
    exact (segments_done _ g _ 0 mode (Int.le_refl 0)).1
  · show w2.BNUM + count = w.BNUM + count
    rw [hbn]; rfl
  · show avail (rdRest (rdRest w2.ttyIn 1) 13) = more
    rw [avail_rdRest2 _ 1 13 (by rw [havl']; simp [hbody]), havl']
    exact List.drop_left' (by simp [hbody])

/-! ## Command sequencer: a READ answered with a packet of odd length -/

/-- A READ segment whose first DATA packet has an odd length byte: the checksum
call of `recv_data` overruns and the segment loop does not return. -/
theorem read_segment_odd (F n : Nat) (w : World) (count mode : Int) (len1 : Nat)
    (body more : List Nat)
    (hc : 0 < count) (hpos : 0 < seg_len w.BSIZE count)
    (hacc : Accepting w.ttyWr) (hfw : w.ttyWr.length + 1 < F)
    (htty : avail w.ttyIn = 1 :: len1 :: body ++ more) (hlen : body.length = len1 + 2)
    (hfi : w.ttyIn.length < F) (hodd : len1 % 2 = 1) :
    read_segments F (n + 1) w count mode = none := by
  obtain ⟨f, rfl⟩ : ∃ f, F = f + 1 := ⟨F - 1, by omega⟩
  have hsend := send_cmd_eq (f + 1) w CMD_READ w.UNIT w.BNUM (seg_len w.BSIZE count) mode
    hacc hfw
  have hrd := recv_data_odd (f + 1)
    (w.sentCmd CMD_READ w.UNIT w.BNUM (seg_len w.BSIZE count) mode) len1 body more
    htty hlen hfi hodd
  unfold World.sentCmd at hrd
  rw [read_segments_step _ _ _ _ _ hc]
  unfold send_read
  rw [hsend]
  simp only [show ¬ ((0 : Int) < 0) by decide, if_false]
  rw [read_data_step _ _ _ _ hpos, hrd]

set_option maxRecDepth 100000 in
/-- C16 (code defect, the one of C1 and C2). A READ is not completed when the
device answers with a DATA packet of odd length, however valid its checksum. The
line of `worldOddRead` answers the READ of one block of 512 bytes with five DATA
packets whose payloads total 512 bytes, each with the checksum of the wire
format, and then a valid END frame with the byte count 512; the first payload
has one byte. `do_read` does not return, with any fuel: `recv_data` runs
`cksum_buf` over the 3 bytes of the first packet, an odd count, which
overruns. -/
theorem read_odd_packet_never_returns :
    (oddPayloads.map List.length).sum = 512 ∧
    seg_len worldOddRead.BSIZE 1 = 512 ∧
    end_result [2, 10, 64, 0, 0, 0, 0, 0, 0, 2, 0, 0, 66, 12] = 512 ∧
    avail worldOddRead.ttyIn =
      oddPayloads.flatMap data_packet ++ [2, 10, 64, 0, 0, 0, 0, 0, 0, 2, 0, 0, 66, 12] ∧
    data_packet [7] = [1, 1, 7, 8, 1] ∧
    ∀ fuel : Nat, do_read fuel worldOddRead 1 0 = none := by
  have hlen : seg_len worldOddRead.BSIZE 1 = 512 := by
    show seg_len 512 1 = 512
    rw [seg_len_eq 512 1 (Or.inr rfl) (by decide) (by decide)]; decide
  refine ⟨by simp [oddPayloads], hlen, by decide, rfl, by decide, ?_⟩
  intro fuel
  have hrej : count_rejected worldOddRead 1 = false :=
    count_accepted worldOddRead 1 (by decide) (by decide)
  unfold do_read
  rw [hrej]
  simp only [Bool.false_eq_true, if_false]
  match fuel with
  | 0 => rfl
  | 1 => rfl
  | f + 2 =>
    exact read_segment_odd (f + 2) (f + 1) worldOddRead 1 0 1 [7, 8, 1]
      ((List.drop 1 oddPayloads).flatMap data_packet ++
        [2, 10, 64, 0, 0, 0, 0, 0, 0, 2, 0, 0, 66, 12])
      (by decide) (by rw [hlen]; decide) (fun e he => absurd he (List.not_mem_nil e))
      (by show 0 + 1 < f + 2; omega) rfl rfl (by show 1 < f + 2; omega) (by decide)


/-! ## Session state: what the routines leave alone -/

theorem sys_read_session (w : World) (fd : Fd) (count : Nat) :
    (sys_read w fd count).2.session = w.session := by
  cases fd <;> rfl

theorem sys_write_session (w : World) (fd : Fd) (offered : List Nat) :
    (sys_write w fd offered).2.session = w.session := by
  cases fd <;> rfl

theorem sys_tc_session (w : World) (c : TcCall) : (sys_tc w c).2.session = w.session := by
  unfold sys_tc
  split <;> rfl

theorem read_loop_session (fuel : Nat) :
    ∀ (w : World) (fd : Fd) (count : Nat) (got r : List Nat) (w1 : World),
      read_loop fuel w fd count got = some (r, w1) → w1.session = w.session := by
  induction fuel with
  | zero => intro w fd count got r w1 h; simp [read_loop] at h
  | succ f ih =>
    intro w fd count got r w1 h
    rw [read_loop] at h
    split at h
    · have hs := sys_read_session w fd count
      split at h
      · rename_i w0 heq
        rw [heq] at hs
        cases h
        exact hs
      · rename_i bs w0 heq
        rw [heq] at hs
        exact (ih _ _ _ _ _ _ h).trans hs
    · cases h
      rfl

theorem read_buf_session (fuel : Nat) (w : World) (fd : Fd) (count : Nat) (r : List Nat)
    (w1 : World) (h : read_buf fuel w fd count = some (r, w1)) : w1.session = w.session :=
  read_loop_session fuel w fd count [] r w1 h

theorem write_loop_session (fuel : Nat) :
    ∀ (w : World) (fd : Fd) (todo : List Nat) (p r : Nat) (w1 : World),
      write_loop fuel w fd todo p = some (r, w1) → w1.session = w.session := by
  induction fuel with
  | zero => intro w fd todo p r w1 h; simp [write_loop] at h
  | succ f ih =>
    intro w fd todo p r w1 h
    rw [write_loop] at h
    split at h
    · have hs := sys_write_session w fd todo
      split at h
      · rename_i w0 heq
        rw [heq] at hs
        cases h
        exact hs
      · rename_i n w0 heq
        rw [heq] at hs
        exact (ih _ _ _ _ _ _ h).trans hs
    · cases h
      rfl

theorem write_buf_session (fuel : Nat) (w : World) (fd : Fd) (bytes : List Nat) (r : Nat)
    (w1 : World) (h : write_buf fuel w fd bytes = some (r, w1)) : w1.session = w.session :=
  write_loop_session fuel w fd bytes 0 r w1 h

theorem send_break_session (w : World) : (send_break w).2.session = w.session := by
  unfold send_break
  rcases e1 : sys_tc w .drain with ⟨r1, wa⟩
  have h1 : wa.session = w.session := by
    have := sys_tc_session w .drain
    rw [e1] at this
    exact this
  simp only
  split_ifs
  · exact h1
  · exact (sys_tc_session wa .sendbreak).trans h1
  · exact (sys_tc_session _ .flush).trans ((sys_tc_session wa .sendbreak).trans h1)


theorem send_init_session (fuel : Nat) (w : World) (r : Int) (w1 : World)
    (h : send_init fuel w = some (r, w1)) : w1.session = w.session := by
  unfold send_init at h
  simp only at h
  split at h
  · cases h
  · rename_i p w2 heq
    have hs := write_buf_session _ _ _ _ _ _ heq
    split_ifs at h <;> cases h <;> exact hs

theorem send_boot_session (fuel : Nat) (w : World) (dnum r : Int) (w1 : World)
    (h : send_boot fuel w dnum = some (r, w1)) : w1.session = w.session := by
  unfold send_boot at h
  simp only at h
  split at h
  · cases h
  · rename_i p w2 heq
    have hs := write_buf_session _ _ _ _ _ _ heq
    split_ifs at h <;> cases h <;> exact hs

theorem send_cmd_session (fuel : Nat) (w : World) (op dnum bnum count mod r : Int)
    (w1 : World) (h : send_cmd fuel w op dnum bnum count mod = some (r, w1)) :
    w1.session = w.session := by
  unfold send_cmd at h
  simp only at h
  split at h
  · cases h
  · split at h
    · cases h
    · rename_i p w2 heq
      have hs := write_buf_session _ _ _ _ _ _ heq
      split_ifs at h <;> cases h <;> exact hs

theorem send_data_session (fuel : Nat) (w : World) (count r : Int) (w1 : World)
    (h : send_data fuel w count = some (r, w1)) : w1.session = w.session := by
  unfold send_data at h
  simp only at h
  split at h
  · cases h
  · rename_i got wa heq
    have hs := read_buf_session _ _ _ _ _ _ heq
    split_ifs at h
    · cases h
      exact hs
    · split at h
      · cases h
      · split at h
        · cases h
        · rename_i p wb heq2
          have hs2 := write_buf_session _ _ _ _ _ _ heq2
          split_ifs at h <;> cases h <;> exact hs2.trans hs


theorem handshake_session (fuel : Nat) :
    (∀ (w : World) (r : Int) (w1 : World),
      do_init fuel w = some (r, w1) → w1.session = w.session) ∧
    (∀ (w : World) (r : Int) (w1 : World),
      recv_continue fuel w = some (r, w1) → w1.session = w.session) := by
  induction fuel with
  | zero => constructor <;> intro w r w1 h <;> simp [do_init, recv_continue] at h
  | succ f ih =>
    constructor
    · intro w r w1 h
      rw [do_init] at h
      have h0 := send_break_session w
      rcases e0 : send_break w with ⟨r0, w0⟩
      rw [e0] at h h0
      simp only at h h0
      split_ifs at h
      · cases h
        exact h0
      · split at h
        · cases h
        · rename_i ra wa heqa
          have ha := send_init_session _ _ _ _ heqa
          split_ifs at h
          · cases h
            exact ha.trans h0
          · split at h
            · cases h
            · rename_i rb wb heqb
              have hb := send_init_session _ _ _ _ heqb
              split_ifs at h
              · cases h
                exact hb.trans (ha.trans h0)
              · split at h
                · cases h
                · rename_i rc wc heqc
                  have hc := ih.2 _ _ _ heqc
                  split_ifs at h <;> cases h <;> exact hc.trans (hb.trans (ha.trans h0))
    · intro w r w1 h
      rw [recv_continue] at h
      split at h
      · cases h
      · rename_i got wa heqa
        have ha := read_buf_session _ _ _ _ _ _ heqa
        simp only at h
        split_ifs at h
        · cases h
          exact ha
        · cases h
          exact ha
        · split at h
          · cases h
          · rename_i rb wb heqb
            have hb := ih.1 _ _ _ heqb
            cases h
            exact hb.trans ha
        · cases h
          exact ha

theorem do_init_session (fuel : Nat) (w : World) (r : Int) (w1 : World)
    (h : do_init fuel w = some (r, w1)) : w1.session = w.session :=
  (handshake_session fuel).1 w r w1 h

theorem recv_continue_session (fuel : Nat) (w : World) (r : Int) (w1 : World)
    (h : recv_continue fuel w = some (r, w1)) : w1.session = w.session :=
  (handshake_session fuel).2 w r w1 h


theorem recv_end_session (fuel : Nat) (w : World) (r : Int) (w1 : World)
    (h : recv_end fuel w = some (r, w1)) : w1.session = w.session := by
  unfold recv_end at h
  split at h
  · cases h
  · rename_i got wa heqa
    have ha := read_buf_session _ _ _ _ _ _ heqa
    simp only at h
    split at h
    · cases h
      exact ha
    · split at h
      · split at h
        · cases h
        · rename_i got2 wb heqb
          have hb := read_buf_session _ _ _ _ _ _ heqb
          repeat' (split at h)
          all_goals first
            | (cases h; exact hb.trans ha)
            | (rename_i rc wc heqc; cases h
               exact (do_init_session _ _ _ _ heqc).trans (hb.trans ha))
            | cases h
      · repeat' (split at h)
        all_goals first
          | (cases h; exact ha)
          | (rename_i rc wc heqc; cases h
             exact (do_init_session _ _ _ _ heqc).trans ha)
          | cases h

theorem recv_data_session (fuel : Nat) (w : World) (r : Int) (w1 : World)
    (h : recv_data fuel w = some (r, w1)) : w1.session = w.session := by
  unfold recv_data at h
  split at h
  · cases h
  · rename_i got wa heqa
    have ha := read_buf_session _ _ _ _ _ _ heqa
    simp only at h
    split at h
    · cases h
      exact ha
    · split at h
      · split at h
        · cases h
        · rename_i got2 wb heqb
          have hb := read_buf_session _ _ _ _ _ _ heqb
          split at h
          · cases h
            exact hb.trans ha
          · split at h
            · cases h
            · rename_i got3 wc heqc
              have hc := read_buf_session _ _ _ _ _ _ heqc
              repeat' (split at h)
              all_goals first
                | (cases h; exact hc.trans (hb.trans ha))
                | (rename_i p wd heqd; cases h
                   exact (write_buf_session _ _ _ _ _ _ heqd).trans (hc.trans (hb.trans ha)))
                | cases h
      · repeat' (split at h)
        all_goals first
          | (cases h; exact ha)
          | (rename_i rc wc heqc; cases h
             exact (do_init_session _ _ _ _ heqc).trans ha)
          | cases h


theorem recv_bytes_session (F n : Nat) :
    ∀ (w : World) (count r : Int) (w1 : World),
      recv_bytes F n w count = some (r, w1) → w1.session = w.session := by
  induction n with
  | zero => intro w count r w1 h; simp [recv_bytes] at h
  | succ m ih =>
    intro w count r w1 h
    rw [recv_bytes] at h
    split at h
    · simp only at h
      split at h
      · cases h
      · rename_i got wa heqa
        have ha := read_buf_session _ _ _ _ _ _ heqa
        split at h
        · cases h
        · rename_i k wb heqb
          have hb : wb.session = wa.session := by
            split at heqb
            · split at heqb
              · cases heqb
              · rename_i p wc heqc
                cases heqb
                have := write_buf_session _ _ _ _ _ _ heqc
                exact this
            · cases heqb
              rfl
          repeat' (split at h)
          all_goals first
            | (cases h; exact hb.trans ha)
            | exact (ih _ _ _ _ h).trans (hb.trans ha)
    · cases h
      rfl

theorem do_boot_session (fuel : Nat) (w : World) (dnum r : Int) (w1 : World)
    (h : do_boot fuel w dnum = some (r, w1)) : w1.session = w.session := by
  unfold do_boot at h
  split at h
  · cases h
    rfl
  · have h0 := send_break_session w
    rcases e0 : send_break w with ⟨r0, w0⟩
    rw [e0] at h h0
    simp only at h h0
    split at h
    · cases h
      exact h0
    · split at h
      · cases h
      · rename_i ra wa heqa
        have ha := send_init_session _ _ _ _ heqa
        split at h
        · cases h
          exact ha.trans h0
        · split at h
          · cases h
          · rename_i rb wb heqb
            have hb := send_boot_session _ _ _ _ _ heqb
            split at h
            · cases h
              exact hb.trans (ha.trans h0)
            · split at h
              · cases h
              · rename_i rc wc heqc
                have hc := recv_bytes_session _ _ _ _ _ _ heqc
                split at h <;> cases h <;> exact hc.trans (hb.trans (ha.trans h0))

theorem do_rewind_session (fuel : Nat) (w : World) (dnum r : Int) (w1 : World)
    (h : do_rewind fuel w dnum = some (r, w1)) : w1.session = w.session := by
  unfold do_rewind send_seek at h
  split at h
  · cases h
    rfl
  · split at h
    · cases h
    · rename_i ra wa heqa
      have ha := send_cmd_session _ _ _ _ _ _ _ _ _ heqa
      split at h
      · cases h
        exact ha
      · split at h
        · cases h
        · rename_i rb wb heqb
          have hb := recv_end_session _ _ _ _ heqb
          split at h <;> cases h <;> exact hb.trans ha

theorem do_retension_session (fuel : Nat) (w : World) (dnum r : Int) (w1 : World)
    (h : do_retension fuel w dnum = some (r, w1)) : w1.session = w.session := by
  unfold do_retension send_seek at h
  split at h
  · cases h
    rfl
  · split at h
    · cases h
    · rename_i ra wa heqa
      have ha := send_cmd_session _ _ _ _ _ _ _ _ _ heqa
      split at h
      · cases h
        exact ha
      · split at h
        · cases h
        · rename_i rb wb heqb
          have hb := recv_end_session _ _ _ _ heqb
          split at h
          · cases h
            exact hb.trans ha
          · split at h
            · cases h
            · rename_i rc wc heqc
              have hc := send_cmd_session _ _ _ _ _ _ _ _ _ heqc
              split at h
              · cases h
                exact hc.trans (hb.trans ha)
              · split at h
                · cases h
                · rename_i rd wd heqd
                  have hd := recv_end_session _ _ _ _ heqd
                  split at h <;> cases h <;> exact hd.trans (hc.trans (hb.trans ha))

theorem read_data_session (F n : Nat) :
    ∀ (w : World) (ct r : Int) (w1 : World),
      read_data F n w ct = some (r, w1) → w1.session = w.session := by
  induction n with
  | zero => intro w ct r w1 h; simp [read_data] at h
  | succ m ih =>
    intro w ct r w1 h
    rw [read_data] at h
    split at h
    · split at h
      · cases h
      · rename_i k wa heqa
        have ha := recv_data_session _ _ _ _ heqa
        split at h
        · cases h
          exact ha
        · exact (ih _ _ _ _ h).trans ha
    · cases h
      rfl

theorem write_data_session (F n : Nat) :
    ∀ (w : World) (ct r : Int) (w1 : World),
      write_data F n w ct = some (r, w1) → w1.session = w.session := by
  induction n with
  | zero => intro w ct r w1 h; simp [write_data] at h
  | succ m ih =>
    intro w ct r w1 h
    rw [write_data] at h
    split at h
    · simp only at h
      split at h
      · cases h
      · rename_i ra wa heqa
        have ha := recv_continue_session _ _ _ _ heqa
        split at h
        · cases h
          exact ha
        · split at h
          · cases h
          · rename_i rb wb heqb
            have hb := send_data_session _ _ _ _ _ heqb
            split at h
            · cases h
              exact hb.trans ha
            · exact (ih _ _ _ _ h).trans (hb.trans ha)
    · cases h
      rfl


/-! ## Session state: the position after a transfer -/

/-- A segment has at least one block and at most the blocks still to go. -/
theorem seg_blocks_le (bs : Nat) (count : Int) (hb : bs = 128 ∨ bs = 512)
    (h1 : 1 ≤ count) (h2 : count ≤ 2048) :
    1 ≤ seg_blocks bs (seg_len bs count) ∧ seg_blocks bs (seg_len bs count) ≤ count := by
  rw [seg_len_eq bs count hb h1 h2]
  split_ifs with h
  · rw [seg_blocks_eq bs _ hb (by rcases hb with e | e <;> rw [e] <;> omega)
      (by rcases hb with e | e <;> rw [e] <;> omega)]
    rcases hb with e | e <;> rw [e] at h ⊢ <;> omega
  · rw [seg_blocks_eq bs _ hb (by rcases hb with e | e <;> rw [e] <;> omega) (by omega)]
    rcases hb with e | e <;> rw [e] at h ⊢ <;> omega

/-- The segment loop of `do_read`, on every path on which it returns: block
size and block count are as they were, and the position has advanced by at most
the `count` blocks asked for. -/
theorem read_segments_bound (F n : Nat) :
    ∀ (w : World) (count mode r : Int) (w1 : World),
      (w.BSIZE = 128 ∨ w.BSIZE = 512) → 0 ≤ count → count ≤ 2048 →
      read_segments F n w count mode = some (r, w1) →
      w1.BSIZE = w.BSIZE ∧ w1.BCOUNT = w.BCOUNT ∧
      w.BNUM ≤ w1.BNUM ∧ w1.BNUM ≤ w.BNUM + count := by
  induction n with
  | zero => intro w count mode r w1 _ _ _ h; simp [read_segments] at h
  | succ m ih =>
    intro w count mode r w1 hb h0 h2 h
    by_cases hc : 0 < count
    · rw [read_segments_step _ _ _ _ _ hc] at h
      unfold send_read at h
      split at h
      · cases h
      · rename_i ra wa heqa
        obtain ⟨_, _, _, hna, hsa, hca⟩ := session_eq _ _ (send_cmd_session _ _ _ _ _ _ _ _ _ heqa)
        split at h
        · cases h
          exact ⟨hsa, hca, by rw [hna], by rw [hna]; exact le_add_of_nonneg_right h0⟩
        · split at h
          · cases h
          · rename_i rb wb heqb
            obtain ⟨_, _, _, hnb, hsb, hcb⟩ := session_eq _ _ (read_data_session _ _ _ _ _ _ heqb)
            have hct : 1 ≤ seg_blocks wb.BSIZE (seg_len w.BSIZE count) ∧
                seg_blocks wb.BSIZE (seg_len w.BSIZE count) ≤ count := by
              rw [hsb, hsa]
              exact seg_blocks_le w.BSIZE count hb hc h2
            generalize seg_blocks wb.BSIZE (seg_len w.BSIZE count) = ct at h hct
            split at h
            · cases h
              exact ⟨hsb.trans hsa, hcb.trans hca, by rw [hnb, hna],
                by rw [hnb, hna]; exact le_add_of_nonneg_right h0⟩
            · split at h
              · cases h
              · rename_i rc wc heqc
                obtain ⟨_, _, _, hnc, hsc, hcc⟩ := session_eq _ _ (recv_end_session _ _ _ _ heqc)
                have hnc' : wc.BNUM = w.BNUM + ct := by
                  rw [← hna, ← hnb]; exact hnc
                have hsc' : wc.BSIZE = w.BSIZE := hsc.trans (hsb.trans hsa)
                have hcc' : wc.BCOUNT = w.BCOUNT := hcc.trans (hcb.trans hca)
                repeat' (split at h)
                all_goals first
                  | (cases h
                     exact ⟨hsc', hcc', by linarith only [hnc', hct.1],
                       by linarith only [hnc', hct.2]⟩)
                  | (obtain ⟨i1, i2, i3, i4⟩ := ih _ _ _ _ _ (by rw [hsc']; exact hb)
                       (by linarith only [hct.2]) (by linarith only [hct.1, h2]) h
                     exact ⟨i1.trans hsc', i2.trans hcc', by linarith only [hnc', hct.1, i3],
                       by linarith only [hnc', i4]⟩)
    · have hd := (segments_done F m w count mode (not_lt.mp hc)).1
      rw [hd] at h
      cases h
      exact ⟨rfl, rfl, le_refl _, le_add_of_nonneg_right h0⟩

/-- The segment loop of `do_write`, on every path on which it returns: block
size and block count are as they were, and the position has advanced by at most
the `count` blocks asked for. -/
theorem write_segments_bound (F n : Nat) :
    ∀ (w : World) (count mode r : Int) (w1 : World),
      (w.BSIZE = 128 ∨ w.BSIZE = 512) → 0 ≤ count → count ≤ 2048 →
      write_segments F n w count mode = some (r, w1) →
      w1.BSIZE = w.BSIZE ∧ w1.BCOUNT = w.BCOUNT ∧
      w.BNUM ≤ w1.BNUM ∧ w1.BNUM ≤ w.BNUM + count := by
  induction n with
  | zero => intro w count mode r w1 _ _ _ h; simp [write_segments] at h
  | succ m ih =>
    intro w count mode r w1 hb h0 h2 h
    by_cases hc : 0 < count
    · rw [write_segments_step _ _ _ _ _ hc] at h
      unfold send_write at h
      split at h
      · cases h
      · rename_i ra wa heqa
        obtain ⟨_, _, _, hna, hsa, hca⟩ := session_eq _ _ (send_cmd_session _ _ _ _ _ _ _ _ _ heqa)
        split at h
        · cases h
          exact ⟨hsa, hca, by rw [hna], by rw [hna]; exact le_add_of_nonneg_right h0⟩
        · split at h
          · cases h
          · rename_i rb wb heqb
            obtain ⟨_, _, _, hnb, hsb, hcb⟩ := session_eq _ _ (write_data_session _ _ _ _ _ _ heqb)
            have hct : 1 ≤ seg_blocks wb.BSIZE (seg_len w.BSIZE count) ∧
                seg_blocks wb.BSIZE (seg_len w.BSIZE count) ≤ count := by
              rw [hsb, hsa]
              exact seg_blocks_le w.BSIZE count hb hc h2
            generalize seg_blocks wb.BSIZE (seg_len w.BSIZE count) = ct at h hct
            split at h
            · cases h
              exact ⟨hsb.trans hsa, hcb.trans hca, by rw [hnb, hna],
                by rw [hnb, hna]; exact le_add_of_nonneg_right h0⟩
            · split at h
              · cases h
              · rename_i rc wc heqc
                obtain ⟨_, _, _, hnc, hsc, hcc⟩ := session_eq _ _ (recv_end_session _ _ _ _ heqc)
                have hnc' : wc.BNUM = w.BNUM + ct := by
                  rw [← hna, ← hnb]; exact hnc
                have hsc' : wc.BSIZE = w.BSIZE := hsc.trans (hsb.trans hsa)
                have hcc' : wc.BCOUNT = w.BCOUNT := hcc.trans (hcb.trans hca)
                repeat' (split at h)
                all_goals first
                  | (cases h
                     exact ⟨hsc', hcc', by linarith only [hnc', hct.1],
                       by linarith only [hnc', hct.2]⟩)
                  | (obtain ⟨i1, i2, i3, i4⟩ := ih _ _ _ _ _ (by rw [hsc']; exact hb)
                       (by linarith only [hct.2]) (by linarith only [hct.1, h2]) h
                     exact ⟨i1.trans hsc', i2.trans hcc', by linarith only [hnc', hct.1, i3],
                       by linarith only [hnc', i4]⟩)
    · have hd := (segments_done F m w count mode (not_lt.mp hc)).2
      rw [hd] at h
      cases h
      exact ⟨rfl, rfl, le_refl _, le_add_of_nonneg_right h0⟩


/-! ## Session state: the position invariant -/

/-- A routine that leaves the session globals alone keeps geometry and
position bounds. -/
theorem positioned_of_session (w w1 : World) (h : w1.session = w.session)
    (hg : Geometry w) (h0 : 0 ≤ w.BNUM) (h1 : w.BNUM ≤ w.BCOUNT) :
    Geometry w1 ∧ 0 ≤ w1.BNUM ∧ w1.BNUM ≤ w1.BCOUNT := by
  obtain ⟨_, _, _, hn, hs, hc⟩ := session_eq _ _ h
  unfold Geometry
  rw [hn, hs, hc]
  exact ⟨hg, h0, h1⟩

/-- A transfer that advances the position by at most `count`, with `count`
within the blocks left, keeps geometry and position bounds. -/
theorem positioned_of_bound (w w1 : World) (count : Int)
    (hb : w1.BSIZE = w.BSIZE ∧ w1.BCOUNT = w.BCOUNT ∧
      w.BNUM ≤ w1.BNUM ∧ w1.BNUM ≤ w.BNUM + count)
    (hguard : count ≤ w.BCOUNT - w.BNUM) (hg : Geometry w) (h0 : 0 ≤ w.BNUM) :
    Geometry w1 ∧ 0 ≤ w1.BNUM ∧ w1.BNUM ≤ w1.BCOUNT := by
  obtain ⟨hs, hc, hlo, hhi⟩ := hb
  unfold Geometry
  rw [hs, hc]
  exact ⟨hg, le_trans h0 hlo, by linarith only [hhi, hguard]⟩

theorem count_rejected_false (w : World) (count : Int) (h : count_rejected w count = false) :
    0 ≤ count ∧ count ≤ w.BCOUNT - w.BNUM := by
  unfold count_rejected at h
  rw [Bool.or_eq_false_iff, decide_eq_false_iff_not, decide_eq_false_iff_not] at h
  exact ⟨not_lt.mp h.1, not_lt.mp h.2⟩

theorem geometry_count (w : World) (hg : Geometry w) :
    (w.BSIZE = 128 ∨ w.BSIZE = 512) ∧ w.BCOUNT ≤ 2048 := by
  rcases hg with ⟨h1, h2⟩ | ⟨h1, h2⟩
  · exact ⟨Or.inl h1, by rw [h2]⟩
  · exact ⟨Or.inr h1, by rw [h2]; decide⟩


/-- C18, amended. The position satisfies `0 ≤ BNUM ≤ BCOUNT` (not
`BNUM ≤ BCOUNT - 1`: a transfer up to the end of the tape leaves
`BNUM = BCOUNT`), with block size and block count one of the two pairs that
`main` sets. Every sequencer operation that returns, on any line and with any
result, keeps this: `do_read`, `do_write`, `do_rewind`, `do_retension`,
`do_init`, `do_boot`. The `seek` command, when it accepts its number, sets a
position in `0 .. BCOUNT - 1`. The `blocksize` command, when it accepts its
number, sets the geometry and leaves the position as it is, so the bound
holds after it exactly when the new size is 128 or the position is at most
512. -/
theorem position_within_block_count (fuel : Nat) (w : World)
    (hg : Geometry w) (h0 : 0 ≤ w.BNUM) (h1 : w.BNUM ≤ w.BCOUNT) :
    (∀ (count mode r : Int) (w1 : World), do_read fuel w count mode = some (r, w1) →
      Geometry w1 ∧ 0 ≤ w1.BNUM ∧ w1.BNUM ≤ w1.BCOUNT) ∧
    (∀ (count mode r : Int) (w1 : World), do_write fuel w count mode = some (r, w1) →
      Geometry w1 ∧ 0 ≤ w1.BNUM ∧ w1.BNUM ≤ w1.BCOUNT) ∧
    (∀ (dnum r : Int) (w1 : World), do_rewind fuel w dnum = some (r, w1) →
      Geometry w1 ∧ 0 ≤ w1.BNUM ∧ w1.BNUM ≤ w1.BCOUNT) ∧
    (∀ (dnum r : Int) (w1 : World), do_retension fuel w dnum = some (r, w1) →
      Geometry w1 ∧ 0 ≤ w1.BNUM ∧ w1.BNUM ≤ w1.BCOUNT) ∧
    (∀ (r : Int) (w1 : World), do_init fuel w = some (r, w1) →
      Geometry w1 ∧ 0 ≤ w1.BNUM ∧ w1.BNUM ≤ w1.BCOUNT) ∧
    (∀ (dnum r : Int) (w1 : World), do_boot fuel w dnum = some (r, w1) →
      Geometry w1 ∧ 0 ≤ w1.BNUM ∧ w1.BNUM ≤ w1.BCOUNT) ∧
    (∀ (num : Int) (w1 : World), cmd_seek w num = some w1 →
      Geometry w1 ∧ 0 ≤ w1.BNUM ∧ w1.BNUM ≤ w1.BCOUNT - 1) ∧
    (∀ (num : Int) (w1 : World), cmd_blocksize w num = some w1 →
      Geometry w1 ∧ w1.BNUM = w.BNUM ∧
      (w1.BNUM ≤ w1.BCOUNT ↔ (num = 128 ∨ w.BNUM ≤ 512))) := by
  obtain ⟨hbs, hbc⟩ := geometry_count w hg
  refine ⟨?_, ?_, ?_, ?_, ?_, ?_, ?_, ?_⟩
  · intro count mode r w1 h
    unfold do_read at h
    split at h
    · cases h
      exact ⟨hg, h0, h1⟩
    · rename_i hrej
      obtain ⟨hc0, hc1⟩ := count_rejected_false w count (by simpa using hrej)
      exact positioned_of_bound w w1 count
        (read_segments_bound fuel fuel w count mode r w1 hbs hc0
          (by linarith only [hc1, hbc, h0]) h) hc1 hg h0
  · intro count mode r w1 h
    unfold do_write at h
    split at h
    · cases h
      exact ⟨hg, h0, h1⟩
    · rename_i hrej
      obtain ⟨hc0, hc1⟩ := count_rejected_false w count (by simpa using hrej)
      exact positioned_of_bound w w1 count
        (write_segments_bound fuel fuel w count mode r w1 hbs hc0
          (by linarith only [hc1, hbc, h0]) h) hc1 hg h0
  · intro dnum r w1 h
    exact positioned_of_session w w1 (do_rewind_session _ _ _ _ _ h) hg h0 h1
  · intro dnum r w1 h
    exact positioned_of_session w w1 (do_retension_session _ _ _ _ _ h) hg h0 h1
  · intro r w1 h
    exact positioned_of_session w w1 (do_init_session _ _ _ _ h) hg h0 h1
  · intro dnum r w1 h
    exact positioned_of_session w w1 (do_boot_session _ _ _ _ _ h) hg h0 h1
  · intro num w1 h
    unfold cmd_seek at h
    split at h
    · cases h
    · rename_i hnum
      cases h
      rw [not_or, not_lt, not_le] at hnum
      exact ⟨hg, hnum.1, Int.le_sub_one_of_lt hnum.2⟩
  · intro num w1 h
    unfold cmd_blocksize at h
    split at h
    · cases h
    · rename_i hnum
      cases h
      have hnum' : num = 128 ∨ num = 512 := by
        by_cases e : num = 128
        · exact Or.inl e
        · exact Or.inr (not_not.mp fun e2 => hnum ⟨e, e2⟩)
      rcases hnum' with rfl | rfl
      · refine ⟨Or.inl ⟨rfl, rfl⟩, rfl, ?_⟩
        show w.BNUM ≤ 2048 ↔ _
        exact ⟨fun _ => Or.inl rfl, fun _ => le_trans h1 hbc⟩
      · refine ⟨Or.inr ⟨rfl, rfl⟩, rfl, ?_⟩
        show w.BNUM ≤ 512 ↔ _
        exact ⟨fun h => Or.inr h, fun h => h.elim (fun e => absurd e (by decide)) id⟩


set_option maxRecDepth 100000 in
/-- The READ of the last block of a tape of 512 blocks of 512 bytes, answered
with four DATA packets of 128 bytes and a valid END frame: `do_read` returns 0
and the position is 512, the block count. -/
theorem read_last_block :
    ∃ w1 : World, do_read 9 worldReadLast 1 0 = some (0, w1) ∧
      w1.BNUM = 512 ∧ w1.BCOUNT = 512 := by
  have hlen : seg_len worldReadLast.BSIZE 1 = 512 := by
    show seg_len 512 1 = 512
    rw [seg_len_eq 512 1 (Or.inr rfl) (by decide) (by decide)]; decide
  obtain ⟨w2, hrun, hn, _, hc, _⟩ := read_one_segment 9 worldReadLast 1 0
    [List.replicate 128 7, List.replicate 128 7, List.replicate 128 7, List.replicate 128 7]
    [10, 64, 0, 0, 0, 0, 0, 0, 2, 0, 0, 66, 12] []
    (Or.inr rfl) (by decide) (by decide) (by decide)
    (fun e he => absurd he (List.not_mem_nil e)) (by decide) rfl (by simp)
    (by rw [hlen]; simp [Fills]) rfl (by rw [hlen]; decide)
    (fun e he => absurd he (List.not_mem_nil e)) (by decide) (by decide) (by decide)
  exact ⟨_, hrun, hn, hc⟩

/-- C18, counterexample. The position does not stay in `0 .. BCOUNT - 1`. A
READ of one block started on the last block (position 511 of 512 blocks, inside
the range) returns 0 and leaves the position at 512, the block count. And the
commands `blocksize 128`, `seek 2047`, `blocksize 512`, all accepted from the
start world, leave the position at 2047 with a block count of 512. -/
theorem position_leaves_block_range :
    (0 ≤ worldReadLast.BNUM ∧ worldReadLast.BNUM ≤ worldReadLast.BCOUNT - 1) ∧
    (∃ w1 : World, do_read 9 worldReadLast 1 0 = some (0, w1) ∧
      w1.BNUM = 512 ∧ w1.BCOUNT = 512 ∧ ¬ (w1.BNUM ≤ w1.BCOUNT - 1)) ∧
    ((cmd_blocksize world0 128).bind fun wa =>
      (cmd_seek wa 2047).bind fun wb =>
        (cmd_blocksize wb 512).map fun wc => (wc.BNUM, wc.BSIZE, wc.BCOUNT)) =
      some (2047, 512, 512) := by
  refine ⟨⟨by decide, by decide⟩, ?_, by decide⟩
  obtain ⟨w1, hrun, hn, hc⟩ := read_last_block
  exact ⟨w1, hrun, hn, hc, by rw [hn, hc]; decide⟩

/-- Witness of C18 amended: the READ of the last block, which ends at the
block count. -/
theorem position_within_block_count_witness :
    Geometry worldReadLast ∧ 0 ≤ worldReadLast.BNUM ∧
    worldReadLast.BNUM ≤ worldReadLast.BCOUNT ∧
    ∃ w1 : World, do_read 9 worldReadLast 1 0 = some (0, w1) ∧
      Geometry w1 ∧ 0 ≤ w1.BNUM ∧ w1.BNUM ≤ w1.BCOUNT :=
  ⟨Or.inr ⟨rfl, rfl⟩, by decide, by decide,
   read_last_block.elim fun w1 h =>
     ⟨w1, h.1, (position_within_block_count 9 worldReadLast (Or.inr ⟨rfl, rfl⟩)
       (by decide) (by decide)).1 1 0 0 w1 h.1⟩⟩


/-! ## Checksum engine: the value over an even span -/

theorem carry_mod (s : Nat) : carry s % 65535 = s % 65535 := by
  unfold carry
  split
  · omega
  · rfl

theorem carry_eq_zero (s : Nat) : carry s = 0 ↔ s = 0 := by
  unfold carry
  split <;> omega

/-- Over a span of even length the word sum with end-around carry is congruent
modulo 65535 to the plain sum of the words. -/
theorem wordsum_mod (s : List Nat) :
    ∀ acc, s.length % 2 = 0 → wordsum s acc % 65535 = (acc + (words s).sum) % 65535 := by
  generalize hn : s.length = n
  induction n using Nat.strong_induction_on generalizing s with
  | _ n ih =>
    intro acc heven
    match s, hn with
    | [], _ => simp [wordsum, words]
    | [b0], hlen => subst hlen; simp at heven
    | b0 :: b1 :: ys, hlen =>
      subst hlen
      simp only [List.length_cons] at heven
      have h := ih ys.length (by simp only [List.length_cons]; omega) ys rfl
        (carry (acc + b0 + b1 * 256)) (by omega)
      simp only [wordsum, words, List.sum_cons]
      rw [h, Nat.add_mod, carry_mod, ← Nat.add_mod]
      congr 1
      omega

/-- Over a span of even length the word sum with end-around carry is 0 exactly
when it started from 0 and every byte is 0. -/
theorem wordsum_eq_zero (s : List Nat) :
    ∀ acc, s.length % 2 = 0 → (wordsum s acc = 0 ↔ acc = 0 ∧ ∀ b ∈ s, b = 0) := by
  generalize hn : s.length = n
  induction n using Nat.strong_induction_on generalizing s with
  | _ n ih =>
    intro acc heven
    match s, hn with
    | [], _ => simp [wordsum]
    | [b0], hlen => subst hlen; simp at heven
    | b0 :: b1 :: ys, hlen =>
      subst hlen
      simp only [List.length_cons] at heven
      have h := ih ys.length (by simp only [List.length_cons]; omega) ys rfl
        (carry (acc + b0 + b1 * 256)) (by omega)
      simp only [wordsum, List.mem_cons, forall_eq_or_imp]
      rw [h, carry_eq_zero]
      constructor
      · rintro ⟨h1, h2⟩
        exact ⟨by omega, by omega, by omega, h2⟩
      · rintro ⟨h1, h2, h3, h4⟩
        exact ⟨by omega, h4⟩

/-- C21. For every span `s` of bytes (values below 256) of even length, at the
start of a buffer, `cksum_buf` over the span returns a value `c` that lies in
`0 .. 65535`, is congruent modulo 65535 to the sum of the 16-bit little-endian
words of the span, and is 0 if and only if every byte of the span is 0. -/
theorem cksum_buf_even_span_value (s rest : List Nat)
    (heven : s.length % 2 = 0) (hlt : s.length < 2 ^ 64) (hb : ∀ b ∈ s, b < 256) :
    ∃ c, cksum_buf (s ++ rest) s.length = some c ∧ c ≤ 65535 ∧
      c % 65535 = (words s).sum % 65535 ∧ (c = 0 ↔ ∀ b ∈ s, b = 0) := by
  refine ⟨wordsum s 0, cksum_buf_even s rest heven hlt, wordsum_le s 0 (by omega) hb, ?_, ?_⟩
  · rw [wordsum_mod s 0 heven, Nat.zero_add]
  · rw [wordsum_eq_zero s 0 heven]
    exact ⟨fun h => h.2, fun h => ⟨rfl, h⟩⟩

/-- Witness of C21 on the span `[255, 255, 3, 4]`, whose words 65535 and 1027
sum to 66562: the checksum is 1027. -/
theorem cksum_buf_even_span_value_witness :
    [255, 255, 3, 4].length % 2 = 0 ∧ [255, 255, 3, 4].length < 2 ^ 64 ∧
    (∀ b ∈ [255, 255, 3, 4], b < 256) ∧
    ∃ c, cksum_buf ([255, 255, 3, 4] ++ [9]) [255, 255, 3, 4].length = some c ∧ c ≤ 65535 ∧
      c % 65535 = (words [255, 255, 3, 4]).sum % 65535 ∧
      (c = 0 ↔ ∀ b ∈ [255, 255, 3, 4], b = 0) :=
  ⟨by decide, by decide, by decide,
   cksum_buf_even_span_value [255, 255, 3, 4] [9] (by decide) (by decide) (by decide)⟩


/-! ## Command sequencer: the position when the END response fails -/

/-- A segment length lies in `1 .. 65535`. -/
theorem seg_len_range (bs : Nat) (count : Int) (hb : bs = 128 ∨ bs = 512)
    (h1 : 1 ≤ count) (h2 : count ≤ 2048) :
    0 < seg_len bs count ∧ seg_len bs count ≤ 65535 := by
  rw [seg_len_eq bs count hb h1 h2]
  split_ifs with h
  · rcases hb with e | e <;> rw [e] <;> exact ⟨by decide, by decide⟩
  · refine ⟨?_, not_lt.mp h⟩
    rcases hb with e | e <;> rw [e] <;> push_cast <;> omega

/-- The position update of lines 392-393 and 418-419, seen at the world
`recv_end` leaves: the position is the old one plus `len / BSIZE`, which is at
least one block. -/
theorem position_after_end (F : Nat) (w w2 w4 : World) (count ct2 : Int)
    (hb : w.BSIZE = 128 ∨ w.BSIZE = 512) (h1 : 1 ≤ count) (h2 : count ≤ 2048)
    (hses : w2.session = w.session)
    (hend : recv_end F
      { w2 with BNUM := w2.BNUM + seg_blocks w2.BSIZE (seg_len w.BSIZE count) } =
        some (ct2, w4)) :
    w4.BNUM = w.BNUM + seg_len w.BSIZE count / (w.BSIZE : Int) ∧ w.BNUM < w4.BNUM := by
  obtain ⟨_, _, _, hn2, hs2, _⟩ := session_eq _ _ hses
  obtain ⟨_, _, _, hn4, _, _⟩ := session_eq _ _ (recv_end_session _ _ _ _ hend)
  have hn4' : w4.BNUM = w2.BNUM + seg_blocks w2.BSIZE (seg_len w.BSIZE count) := hn4
  rw [hn2, hs2] at hn4'
  obtain ⟨hl0, hl1⟩ := seg_len_range w.BSIZE count hb h1 h2
  have hblk := seg_blocks_eq w.BSIZE (seg_len w.BSIZE count) hb (le_of_lt hl0) hl1
  have hct := (seg_blocks_le w.BSIZE count hb h1 h2).1
  rw [hblk] at hn4' hct
  clear hend hblk hl0 hl1 hn4 hn2 hs2 hses
  generalize seg_len w.BSIZE count / (w.BSIZE : Int) = q at hn4' hct
  exact ⟨hn4', by linarith only [hn4', hct]⟩


/-- C22. The block position is advanced before the END response is judged. In
a turn of the segment loop of `do_read` or `do_write` (block size 128 or 512,
`count` blocks to go, segment length `len = seg_len w.BSIZE count`) whose command
was sent and whose data phase returned without failure, let `recv_end` return
`ct2` in the world `w4`. If `ct2` is negative (bad checksum, wrong packet kind
or opcode, a short read) or differs from `len` (byte-count mismatch), then the
segment loop, at any loop fuel, and `do_read` / `do_write` at their first turn,
return -1 in `w4`, and the position in `w4` is the old one plus
`len / BSIZE`, at least one block further. -/
theorem position_advanced_before_end (F : Nat) (w : World) (count mode : Int)
    (hb : w.BSIZE = 128 ∨ w.BSIZE = 512) (h1 : 1 ≤ count) (h2 : count ≤ 2048) :
    (∀ (r1 r2 ct2 : Int) (w1 w2 w4 : World),
      send_read F w w.UNIT w.BNUM (seg_len w.BSIZE count) mode = some (r1, w1) → ¬ r1 < 0 →
      read_data F F w1 (seg_len w.BSIZE count) = some (r2, w2) → ¬ r2 < 0 →
      recv_end F
        { w2 with BNUM := w2.BNUM + seg_blocks w2.BSIZE (seg_len w.BSIZE count) } =
          some (ct2, w4) →
      (ct2 < 0 ∨ ct2 ≠ seg_len w.BSIZE count) →
      (∀ n, read_segments F (n + 1) w count mode = some (-1, w4)) ∧
      (count ≤ w.BCOUNT - w.BNUM → do_read F w count mode = some (-1, w4)) ∧
      w4.BNUM = w.BNUM + seg_len w.BSIZE count / (w.BSIZE : Int) ∧ w.BNUM < w4.BNUM) ∧
    (∀ (r1 r2 ct2 : Int) (w1 w2 w4 : World),
      send_write F w w.UNIT w.BNUM (seg_len w.BSIZE count) mode = some (r1, w1) → ¬ r1 < 0 →
      write_data F F w1 (seg_len w.BSIZE count) = some (r2, w2) → ¬ r2 < 0 →
      recv_end F
        { w2 with BNUM := w2.BNUM + seg_blocks w2.BSIZE (seg_len w.BSIZE count) } =
          some (ct2, w4) →
      (ct2 < 0 ∨ ct2 ≠ seg_len w.BSIZE count) →
      (∀ n, write_segments F (n + 1) w count mode = some (-1, w4)) ∧
      (count ≤ w.BCOUNT - w.BNUM → do_write F w count mode = some (-1, w4)) ∧
      w4.BNUM = w.BNUM + seg_len w.BSIZE count / (w.BSIZE : Int) ∧ w.BNUM < w4.BNUM) := by
  have hc : 0 < count := lt_of_lt_of_le Int.zero_lt_one h1
  constructor
  · intro r1 r2 ct2 w1 w2 w4 hsend hr1 hdata hr2 hend hfail
    have hseg : ∀ n, read_segments F (n + 1) w count mode = some (-1, w4) := by
      intro n
      rw [read_segments_step _ _ _ _ _ hc, hsend]
      simp only [hr1, if_false]
      rw [hdata]
      simp only [hr2, if_false]
      rw [hend]
      rcases hfail with hf | hf
      · simp only [hf, if_true]
      · by_cases hneg : ct2 < 0
        · simp only [hneg, if_true]
        · simp only [hneg, if_false, ne_eq, hf, not_false_eq_true, if_true]
    have hF : F ≠ 0 := by
      intro e
      subst e
      simp [read_data] at hdata
    obtain ⟨f, rfl⟩ : ∃ f, F = f + 1 := ⟨F - 1, (Nat.succ_pred_eq_of_ne_zero hF).symm⟩
    have hses : w2.session = w.session :=
      (read_data_session _ _ _ _ _ _ hdata).trans (send_cmd_session _ _ _ _ _ _ _ _ _ hsend)
    refine ⟨hseg, ?_, position_after_end (f + 1) w w2 w4 count ct2 hb h1 h2 hses hend⟩
    intro hguard
    unfold do_read
    rw [count_accepted w count (le_of_lt hc) hguard]
    simp only [Bool.false_eq_true, if_false]
    exact hseg f
  · intro r1 r2 ct2 w1 w2 w4 hsend hr1 hdata hr2 hend hfail
    have hseg : ∀ n, write_segments F (n + 1) w count mode = some (-1, w4) := by
      intro n
      rw [write_segments_step _ _ _ _ _ hc, hsend]
      simp only [hr1, if_false]
      rw [hdata]
      simp only [hr2, if_false]
      rw [hend]
      rcases hfail with hf | hf
      · simp only [hf, if_true]
      · by_cases hneg : ct2 < 0
        · simp only [hneg, if_true]
        · simp only [hneg, if_false, ne_eq, hf, not_false_eq_true, if_true]
    have hF : F ≠ 0 := by
      intro e
      subst e
      simp [write_data] at hdata
    obtain ⟨f, rfl⟩ : ∃ f, F = f + 1 := ⟨F - 1, (Nat.succ_pred_eq_of_ne_zero hF).symm⟩
    have hses : w2.session = w.session :=
      (write_data_session _ _ _ _ _ _ hdata).trans (send_cmd_session _ _ _ _ _ _ _ _ _ hsend)
    refine ⟨hseg, ?_, position_after_end (f + 1) w w2 w4 count ct2 hb h1 h2 hses hend⟩
    intro hguard
    unfold do_write
    rw [count_accepted w count (le_of_lt hc) hguard]
    simp only [Bool.false_eq_true, if_false]
    exact hseg f


set_option maxRecDepth 100000 in
/-- Witness of C22: a READ of one block of 128 bytes whose END frame has a wrong
checksum, and a WRITE of one block of 128 bytes whose END frame carries the byte
count 64; both return -1 with the position advanced from 0 to 1. -/
theorem position_advanced_before_end_witness :
    (worldBadEnd.BSIZE = 128 ∨ worldBadEnd.BSIZE = 512) ∧
    (worldShortWrite.BSIZE = 128 ∨ worldShortWrite.BSIZE = 512) ∧
    (1 : Int) ≤ 1 ∧ (1 : Int) ≤ 2048 ∧
    (∃ w4 : World, do_read 5 worldBadEnd 1 0 = some (-1, w4) ∧
      w4.BNUM = worldBadEnd.BNUM + seg_len worldBadEnd.BSIZE 1 / (worldBadEnd.BSIZE : Int) ∧
      worldBadEnd.BNUM < w4.BNUM ∧ w4.BNUM = 1) ∧
    (∃ w4 : World, do_write 5 worldShortWrite 1 0 = some (-1, w4) ∧
      w4.BNUM =
        worldShortWrite.BNUM + seg_len worldShortWrite.BSIZE 1 / (worldShortWrite.BSIZE : Int) ∧
      worldShortWrite.BNUM < w4.BNUM ∧ w4.BNUM = 1) := by
  have hlen : seg_len 128 1 = 128 := by
    rw [seg_len_eq 128 1 (Or.inl rfl) (by decide) (by decide)]; decide
  have hnil : Accepting ([] : List WrEv) := fun e he => absurd he (List.not_mem_nil e)
  refine ⟨Or.inl rfl, Or.inl rfl, by decide, by decide, ?_, ?_⟩
  · have hps : ∀ p ∈ [List.replicate 128 7], p.length % 2 = 0 ∧ p.length < 256 := by
      intro p hp
      rw [List.mem_singleton] at hp
      subst hp
      simp
    have hfill : Fills (seg_len worldBadEnd.BSIZE 1) [List.replicate 128 7] := by
      show 0 < seg_len 128 1 ∧ seg_len 128 1 - ((List.replicate 128 7).length : Int) ≤ 0
      rw [hlen]
      simp
    obtain ⟨w2, hrun, hph, _⟩ := read_segment 5 0 worldBadEnd 1 0 [List.replicate 128 7]
      [10, 64, 0, 0, 0, 0, 0, 128, 0, 0, 0, 0, 0] [] (by decide) hnil (by decide) rfl hps hfill
      rfl hnil (by decide) (by decide) (by decide)
    obtain ⟨_, havl, _, _, _, _, _, _, _, _, _, hl2⟩ := hph
    have hend := recv_end_corrupt 5
      { w2 with BNUM := w2.BNUM + seg_blocks w2.BSIZE (seg_len worldBadEnd.BSIZE 1) }
      [10, 64, 0, 0, 0, 0, 0, 128, 0, 0, 0, 0, 0] [] havl rfl
      (Nat.lt_of_le_of_lt hl2 (by decide)) (Or.inl (by decide))
    obtain ⟨_, hdo, hpos, hlt⟩ := (position_advanced_before_end 5 worldBadEnd 1 0 (Or.inl rfl)
      (by decide) (by decide)).1 0 0 (-2) _ w2 _
      (send_cmd_eq 5 worldBadEnd CMD_READ worldBadEnd.UNIT worldBadEnd.BNUM
        (seg_len worldBadEnd.BSIZE 1) 0 hnil (by decide))
      (by decide) hrun (by decide) hend (Or.inl (by decide))
    refine ⟨_, hdo (by decide), hpos, hlt, ?_⟩
    rw [hpos]
    show (0 : Int) + seg_len 128 1 / ((128 : Nat) : Int) = 1
    rw [hlen]
    decide
  · have hres : end_result (2 :: [10, 64, 0, 0, 0, 0, 0, 64, 0, 0, 0, 130, 10]) = 64 := by
      decide
    obtain ⟨w2, hrun, hph, _⟩ := write_segment 5 0 worldShortWrite 1 0 1
      (List.replicate 128 7) [10, 64, 0, 0, 0, 0, 0, 64, 0, 0, 0, 130, 10] [] []
      (by decide) (by show seg_len 128 1 = _; rw [hlen]; rfl) hnil (by decide) rfl rfl
      (by simp) rfl (by decide) (by decide) (by decide)
    obtain ⟨_, havl, _, _, _, _, _, _, _, _, _, hl2, _⟩ := hph
    have hend := recv_end_cmd 5
      { w2 with BNUM := w2.BNUM + seg_blocks w2.BSIZE (seg_len worldShortWrite.BSIZE 1) }
      [10, 64, 0, 0, 0, 0, 0, 64, 0, 0, 0, 130, 10] [] havl rfl
      (Nat.lt_of_le_of_lt hl2 (by decide))
    rw [hres] at hend
    obtain ⟨_, hdo, hpos, hlt⟩ := (position_advanced_before_end 5 worldShortWrite 1 0
      (Or.inl rfl) (by decide) (by decide)).2 0 0 64 _ w2 _
      (send_cmd_eq 5 worldShortWrite CMD_WRITE worldShortWrite.UNIT worldShortWrite.BNUM
        (seg_len worldShortWrite.BSIZE 1) 0 hnil (by decide))
      (by decide) hrun (by decide) hend
      (Or.inr (by show (64 : Int) ≠ seg_len 128 1; rw [hlen]; decide))
    refine ⟨_, hdo (by decide), hpos, hlt, ?_⟩
    rw [hpos]
    show (0 : Int) + seg_len 128 1 / ((128 : Nat) : Int) = 1
    rw [hlen]
    decide


/-! ## Packet codec: the result code of an END frame -/

/-- A frame with a valid checksum and the opcode END: the value `recv_end`
reads off it is the byte-count field. -/
theorem end_result_end (frame : List Nat)
    (hck : peek frame 12 = lo (wordsum (frame.take 12) 0) ∧
      peek frame 13 = hi (wordsum (frame.take 12) 0))
    (hop : peek frame 2 = CMD_END) :
    end_result frame = (peek frame 8 : Int) + (peek frame 9 : Int) * 256 := by
  have h1 : ¬ (peek frame 12 ≠ lo (wordsum (frame.take 12) 0) ∨
      peek frame 13 ≠ hi (wordsum (frame.take 12) 0)) := by
    rw [not_or]; exact ⟨not_not.mpr hck.1, not_not.mpr hck.2⟩
  unfold end_result
  rw [if_neg h1, if_pos hop]

/-- C23. The outcome of `recv_end` does not depend on the result code of the
device. For every received 14-byte CMD frame with a valid checksum and the
opcode END, whatever its other bytes are (the result code in byte 3, the unit in
byte 4, the status word in bytes 10 and 11), `recv_end` returns the byte-count
field `frame[8] + 256 * frame[9]`, which is not negative. So `do_rewind`, on a
line that takes the SEEK command and answers with such a frame, returns 0, also
when the result code of the frame is an error code. -/
theorem recv_end_ignores_result_code (fuel : Nat) (w : World) (body more : List Nat)
    (hav : avail w.ttyIn = 2 :: body ++ more) (hlen : body.length = 13)
    (hf : w.ttyIn.length < fuel)
    (hck : peek (2 :: body) 12 = lo (wordsum ((2 :: body).take 12) 0) ∧
      peek (2 :: body) 13 = hi (wordsum ((2 :: body).take 12) 0))
    (hop : peek (2 :: body) 2 = CMD_END) :
    recv_end fuel w =
      some ((peek (2 :: body) 8 : Int) + (peek (2 :: body) 9 : Int) * 256, { w with
        RECV := 2
        CMD := 2 :: body ++ w.CMD.drop 14
        ttyIn := rdRest (rdRest w.ttyIn 1) 13
        log := w.log ++ rdLog .tty w.ttyIn 1 ++ rdLog .tty (rdRest w.ttyIn 1) 13 }) ∧
    (0 : Int) ≤ (peek (2 :: body) 8 : Int) + (peek (2 :: body) 9 : Int) * 256 ∧
    (∀ dnum : Int, 0 ≤ dnum → dnum ≤ w.UMAX → Accepting w.ttyWr →
      w.ttyWr.length + 1 < fuel →
      ∃ w1 : World, do_rewind fuel w dnum = some (0, w1) ∧
        w1.ttyOut = w.ttyOut ++ cmd_frame w CMD_SEEK dnum 0 0 0 ∧
        w1.CMD = 2 :: body ++ (w.sentCmd CMD_SEEK dnum 0 0 0).CMD.drop 14) := by
  have hres := end_result_end (2 :: body) hck hop
  have hpos : (0 : Int) ≤ (peek (2 :: body) 8 : Int) + (peek (2 :: body) 9 : Int) * 256 :=
    Int.add_nonneg (Int.ofNat_nonneg _)
      (Int.mul_nonneg (Int.ofNat_nonneg _) (by decide))
  refine ⟨?_, hpos, ?_⟩
  · rw [recv_end_cmd fuel w body more hav hlen hf, hres]
  · intro dnum hd0 hd1 hacc hfw
    have hsend := send_cmd_eq fuel w CMD_SEEK dnum 0 0 0 hacc hfw
    have hend := recv_end_cmd fuel (w.sentCmd CMD_SEEK dnum 0 0 0) body more hav hlen hf
    rw [hres] at hend
    unfold World.sentCmd at hend
    refine ⟨{ w.sentCmd CMD_SEEK dnum 0 0 0 with
        RECV := 2
        CMD := 2 :: body ++ (w.sentCmd CMD_SEEK dnum 0 0 0).CMD.drop 14
        ttyIn := rdRest (rdRest w.ttyIn 1) 13
        log := (w.sentCmd CMD_SEEK dnum 0 0 0).log ++ rdLog .tty w.ttyIn 1 ++
          rdLog .tty (rdRest w.ttyIn 1) 13 }, ?_, rfl, rfl⟩
    unfold do_rewind send_seek
    rw [if_neg (by rw [not_or]; exact ⟨not_lt.mpr hd0, not_lt.mpr hd1⟩), hsend]
    simp only [show ¬ ((0 : Int) < 0) by decide, if_false]
    rw [hend]
    simp only [not_lt.mpr hpos, if_false]
    rfl


/-- Witness of C23: an END frame with the result code 255 (-1 as a signed
byte), unit 7 and status word 0x1234 is taken by `recv_end` as the byte count
0, and `do_rewind` returns 0 on it with the error code sitting in `CMD[3]`. -/
theorem recv_end_ignores_result_code_witness :
    avail worldEndError.ttyIn = 2 :: [10, 64, 255, 7, 0, 0, 0, 0, 0, 52, 18, 126, 27] ++ [] ∧
    [10, 64, 255, 7, 0, 0, 0, 0, 0, 52, 18, 126, 27].length = 13 ∧
    worldEndError.ttyIn.length < 5 ∧
    (peek (2 :: [10, 64, 255, 7, 0, 0, 0, 0, 0, 52, 18, 126, 27]) 12 =
        lo (wordsum ((2 :: [10, 64, 255, 7, 0, 0, 0, 0, 0, 52, 18, 126, 27]).take 12) 0) ∧
      peek (2 :: [10, 64, 255, 7, 0, 0, 0, 0, 0, 52, 18, 126, 27]) 13 =
        hi (wordsum ((2 :: [10, 64, 255, 7, 0, 0, 0, 0, 0, 52, 18, 126, 27]).take 12) 0)) ∧
    peek (2 :: [10, 64, 255, 7, 0, 0, 0, 0, 0, 52, 18, 126, 27]) 2 = CMD_END ∧
    peek (2 :: [10, 64, 255, 7, 0, 0, 0, 0, 0, 52, 18, 126, 27]) 3 = 255 ∧
    (recv_end 5 worldEndError).map Prod.fst = some 0 ∧
    ∃ w1 : World, do_rewind 5 worldEndError 0 = some (0, w1) ∧ peek w1.CMD 3 = 255 :=
  have hck : peek (2 :: [10, 64, 255, 7, 0, 0, 0, 0, 0, 52, 18, 126, 27]) 12 =
        lo (wordsum ((2 :: [10, 64, 255, 7, 0, 0, 0, 0, 0, 52, 18, 126, 27]).take 12) 0) ∧
      peek (2 :: [10, 64, 255, 7, 0, 0, 0, 0, 0, 52, 18, 126, 27]) 13 =
        hi (wordsum ((2 :: [10, 64, 255, 7, 0, 0, 0, 0, 0, 52, 18, 126, 27]).take 12) 0) :=
    ⟨by decide, by decide⟩
  have h := recv_end_ignores_result_code 5 worldEndError
    [10, 64, 255, 7, 0, 0, 0, 0, 0, 52, 18, 126, 27] [] rfl rfl (by decide) hck (by decide)
  ⟨rfl, rfl, by decide, hck, by decide, by decide,
   by rw [h.1]; rfl,
   (h.2.2 0 (by decide) (by decide) (fun e he => absurd he (List.not_mem_nil e))
      (by decide)).elim fun w1 hw => ⟨w1, hw.1, by rw [hw.2.2]; rfl⟩⟩


/-! ## Command sequencer: a failing END after a packet of odd length -/

set_option maxRecDepth 100000 in
/-- C11 (code defect, the one of C1 and C2). A READ whose DATA packets arrive
intact and whose END response has a corrupted checksum does not report failure
when one of the packets has odd length. The line of `worldOddBadEnd` answers the
READ of one block of 512 bytes with five DATA packets whose payloads total 512
bytes, each with the checksum of the wire format, and then an END frame whose
checksum bytes are wrong (`end_result` gives -2 on it); the first payload has
one byte. `do_read` does not return, with any fuel: `recv_data` runs `cksum_buf`
over the 3 bytes of the first packet, an odd count, which overruns, so the END
response is never read and -1 is never returned. -/
theorem read_corrupt_end_odd_packet_never_returns :
    (oddPayloads.map List.length).sum = 512 ∧
    seg_len worldOddBadEnd.BSIZE 1 = 512 ∧
    end_result [2, 10, 64, 0, 0, 0, 0, 0, 0, 2, 0, 0, 0, 0] = -2 ∧
    avail worldOddBadEnd.ttyIn =
      oddPayloads.flatMap data_packet ++ [2, 10, 64, 0, 0, 0, 0, 0, 0, 2, 0, 0, 0, 0] ∧
    ∀ fuel : Nat, do_read fuel worldOddBadEnd 1 0 = none := by
  have hlen : seg_len worldOddBadEnd.BSIZE 1 = 512 := by
    show seg_len 512 1 = 512
    rw [seg_len_eq 512 1 (Or.inr rfl) (by decide) (by decide)]; decide
  refine ⟨by simp [oddPayloads], hlen, by decide, rfl, ?_⟩
  intro fuel
  have hrej : count_rejected worldOddBadEnd 1 = false :=
    count_accepted worldOddBadEnd 1 (by decide) (by decide)
  unfold do_read
  rw [hrej]
  simp only [Bool.false_eq_true, if_false]
  match fuel with
  | 0 => rfl
  | 1 => rfl
  | f + 2 =>
    exact read_segment_odd (f + 2) (f + 1) worldOddBadEnd 1 0 1 [7, 8, 1]
      ((List.drop 1 oddPayloads).flatMap data_packet ++
        [2, 10, 64, 0, 0, 0, 0, 0, 0, 2, 0, 0, 0, 0])
      (by decide) (by rw [hlen]; decide) (fun e he => absurd he (List.not_mem_nil e))
      (by show 0 + 1 < f + 2; omega) rfl rfl (by show 1 < f + 2; omega) (by decide)

set_option maxRecDepth 100000 in
/-- C12 (code defect, the one of C1 and C2). A READ segment whose END response
is checksum-valid with a byte count that differs from the segment length does
not report failure when one of its DATA packets has odd length. The line of
`worldOddShortEnd` answers the READ of one block of 512 bytes with five DATA
packets whose payloads total 512 bytes, each with the checksum of the wire
format, and then a valid END frame with the byte count 64 (`end_result` gives 64
on it, the segment length is 512); the first payload has one byte. `do_read`
does not return, with any fuel: `recv_data` runs `cksum_buf` over the 3 bytes of
the first packet, an odd count, which overruns, so the END response is never
read and -1 is never returned. -/
theorem read_count_mismatch_odd_packet_never_returns :
    (oddPayloads.map List.length).sum = 512 ∧
    seg_len worldOddShortEnd.BSIZE 1 = 512 ∧
    end_result [2, 10, 64, 0, 0, 0, 0, 0, 64, 0, 0, 0, 130, 10] = 64 ∧
    avail worldOddShortEnd.ttyIn =
      oddPayloads.flatMap data_packet ++ [2, 10, 64, 0, 0, 0, 0, 0, 64, 0, 0, 0, 130, 10] ∧
    ∀ fuel : Nat, do_read fuel worldOddShortEnd 1 0 = none := by
  have hlen : seg_len worldOddShortEnd.BSIZE 1 = 512 := by
    show seg_len 512 1 = 512
    rw [seg_len_eq 512 1 (Or.inr rfl) (by decide) (by decide)]; decide
  refine ⟨by simp [oddPayloads], hlen, by decide, rfl, ?_⟩
  intro fuel
  have hrej : count_rejected worldOddShortEnd 1 = false :=
    count_accepted worldOddShortEnd 1 (by decide) (by decide)
  unfold do_read
  rw [hrej]
  simp only [Bool.false_eq_true, if_false]
  match fuel with
  | 0 => rfl
  | 1 => rfl
  | f + 2 =>
    exact read_segment_odd (f + 2) (f + 1) worldOddShortEnd 1 0 1 [7, 8, 1]
      ((List.drop 1 oddPayloads).flatMap data_packet ++
        [2, 10, 64, 0, 0, 0, 0, 0, 64, 0, 0, 0, 130, 10])
      (by decide) (by rw [hlen]; decide) (fun e he => absurd he (List.not_mem_nil e))
      (by show 0 + 1 < f + 2; omega) rfl rfl (by show 1 < f + 2; omega) (by decide)

end DT2

/-! # `vtape.c`: the pad flag -/

namespace VTape


set_option maxRecDepth 100000 in
/-- C20 (code defect). With the pad flag set, `write_file` does not pad the last
record of a file that has more than one record: the pad step of lines 170-174
runs on the first record read and clears `FILE_PAD` there. A file of 700 bytes
with record size 512 gives a record of 512 bytes and a record of 188 bytes (not
two records of 512 bytes), and a file of 6 bytes with record size 4 gives the
records `[1, 2, 3, 4]` and `[5, 6]`, the second one unpadded. -/
theorem pad_flag_is_spent_on_first_record :
    (write_file 9 tape700).map
        (fun r => match r with
          | .ok _ t => (records 9 t.out).map List.length
          | .exit _ _ => [])
      = some [512, 188] ∧
    (write_file 9 tape6).map
        (fun r => match r with
          | .ok _ t => t.out
          | .exit _ t => t.out)
      = some [4, 0, 0, 0, 1, 2, 3, 4, 4, 0, 0, 0, 2, 0, 0, 0, 5, 6, 2, 0, 0, 0] := by
  constructor <;> decide

end VTape
